import Mathlib

/-!
# Clargs: a shallow embedding of `clargs.h`

The registry (`Clargs`), the argument specifications (`Clarg`), the registration
functions `cl_add_*`, the lookup `cl_find_idx`, the parser `cl_parse` and the
accessors `cl_find` / `cl_get_*` are embedded as pure functions.

Modelling conventions.

* A C string is a `List Char` (its characters up to, not including, the
  terminating NUL), each `Char` standing for one `char` of the string; a
  `const char *` that may be `NULL` is an `Option CStr`.
* Machine integers are `Int`s; the data model is LP64 (`short` 16 bits, `int`
  32 bits, `long`, `long long` and `size_t` 64 bits) and every narrowing cast
  is written out as a reduction modulo a power of two.
* `float` / `double` values are carried as their bit patterns (`Nat`); the
  C library routines `strtof` / `strtod` are a parameter (`FloatParser`).
* `p->args[0 .. count)` is the list `Clargs.args`; `p->count` is its length.
* Undefined behaviour of the C program (writing past `char name[128]` or
  `char buf[128]`, `strcmp` or a `%s` conversion on a `NULL` pointer) is an
  explicit outcome.
-/

namespace ClargsLib

/-- A C string: the characters before the terminating NUL. -/
abbrev CStr := List Char

/-- The character written at the end of every diagnostic line. -/
def NL : Char := Char.ofNat 10

/-- The NUL character, the value of a `char` field left at zero by `calloc`. -/
def NUL : Char := Char.ofNat 0

/-! ## Data model (lines 11-74) -/

inductive ArgKind
  | ARG_FLAG
  | ARG_STRING
  | ARG_CHAR
  | ARG_SHORT
  | ARG_INT
  | ARG_LONG
  | ARG_LLONG
  | ARG_UCHAR
  | ARG_USHORT
  | ARG_UINT
  | ARG_ULONG
  | ARG_ULLONG
  | ARG_SIZE
  | ARG_FLOAT
  | ARG_DOUBLE
  | ARG_POSITIONAL
  deriving DecidableEq

open ArgKind

/-- The struct `Clarg`, field for field. -/
structure Clarg where
  short_name : Char
  long_name : Option CStr
  meta : Option CStr
  help : Option CStr
  kind : ArgKind
  required : Int
  present : Int
  val_str : Option CStr
  val_char : Char
  val_short : Int
  val_int : Int
  val_long : Int
  val_llong : Int
  val_uchar : Int
  val_ushort : Int
  val_uint : Int
  val_ulong : Int
  val_ullong : Int
  val_size : Int
  val_float : Nat
  val_double : Nat
  def_str : Option CStr
  def_char : Char
  def_short : Int
  def_int : Int
  def_long : Int
  def_llong : Int
  def_uchar : Int
  def_ushort : Int
  def_uint : Int
  def_ulong : Int
  def_ullong : Int
  def_size : Int
  def_float : Nat
  def_double : Nat
  deriving DecidableEq

/-- The struct `Clargs`; `args` holds the `count` live slots of the array, and
`count` is recovered as its length. -/
structure Clargs where
  prog : CStr
  desc : CStr
  args : List Clarg
  cap : Nat
  deriving DecidableEq

/-- The field `p->count`. -/
def Clargs.count (p : Clargs) : Nat := p.args.length

/-- `make_arg`: `calloc(1, sizeof(Clarg))`, every field zero or `NULL`. -/
def make_arg : Clarg :=
  { short_name := NUL, long_name := none, meta := none, help := none,
    kind := ARG_FLAG, required := 0, present := 0,
    val_str := none, val_char := NUL, val_short := 0, val_int := 0, val_long := 0,
    val_llong := 0, val_uchar := 0, val_ushort := 0, val_uint := 0, val_ulong := 0,
    val_ullong := 0, val_size := 0, val_float := 0, val_double := 0,
    def_str := none, def_char := NUL, def_short := 0, def_int := 0, def_long := 0,
    def_llong := 0, def_uchar := 0, def_ushort := 0, def_uint := 0, def_ulong := 0,
    def_ullong := 0, def_size := 0, def_float := 0, def_double := 0 }

/-- Result of a C function that may run into undefined behaviour. -/
inductive Run (α : Type) where
  | ok (a : α)
  | undefined
  deriving DecidableEq

/-! ## Registry (lines 86-108, 120-224) -/

/-- `cl_create` (lines 86-94). -/
def cl_create (prog desc : Option CStr) : Clargs :=
  { prog := prog.getD "program".toList, desc := desc.getD [], args := [], cap := 8 }

/-- `cl_grow` (lines 103-108): the capacity doubles when the array is full. -/
def cl_grow (p : Clargs) : Clargs :=
  if p.count ≥ p.cap then { p with cap := p.cap * 2 } else p

/-- The common tail of every `cl_add_*`:
`cl_grow(p); p->args[p->count++] = a; return p->count - 1;`. -/
def cl_push (p : Clargs) (a : Clarg) : Clargs × Int :=
  let p1 := cl_grow p
  let p2 : Clargs := { p1 with args := p1.args ++ [a] }
  (p2, (p2.count : Int) - 1)

/-- `cl_add_flag` (lines 120-129). -/
def cl_add_flag (p : Clargs) (short_name : Char) (long_name help : Option CStr) :
    Clargs × Int :=
  cl_push p { make_arg with
    short_name := short_name, long_name := long_name, help := help, kind := ARG_FLAG }

/-- `cl_add_string` (lines 131-144). -/
def cl_add_string (p : Clargs) (short_name : Char) (long_name meta help : Option CStr)
    (req : Int) (dflt : Option CStr) : Clargs × Int :=
  cl_push p { make_arg with
    short_name := short_name, long_name := long_name,
    meta := some (meta.getD "STR".toList), help := help, kind := ARG_STRING,
    required := req, def_str := dflt, val_str := dflt }

/-- `cl_add_char` (line 148). -/
def cl_add_char (p : Clargs) (short_name : Char) (long_name meta help : Option CStr)
    (req : Int) (dflt : Char) : Clargs × Int :=
  cl_push p { make_arg with
    short_name := short_name, long_name := long_name,
    meta := some (meta.getD "CHAR".toList), help := help, kind := ARG_CHAR,
    required := req, def_char := dflt, val_char := dflt }

/-- `cl_add_short` (line 153). -/
def cl_add_short (p : Clargs) (short_name : Char) (long_name meta help : Option CStr)
    (req : Int) (dflt : Int) : Clargs × Int :=
  cl_push p { make_arg with
    short_name := short_name, long_name := long_name,
    meta := some (meta.getD "SHORT".toList), help := help, kind := ARG_SHORT,
    required := req, def_short := dflt, val_short := dflt }

/-- `cl_add_int` (lines 157-170). -/
def cl_add_int (p : Clargs) (short_name : Char) (long_name meta help : Option CStr)
    (req : Int) (dflt : Int) : Clargs × Int :=
  cl_push p { make_arg with
    short_name := short_name, long_name := long_name,
    meta := some (meta.getD "INT".toList), help := help, kind := ARG_INT,
    required := req, def_int := dflt, val_int := dflt }

/-- `cl_add_long` (line 174). -/
def cl_add_long (p : Clargs) (short_name : Char) (long_name meta help : Option CStr)
    (req : Int) (dflt : Int) : Clargs × Int :=
  cl_push p { make_arg with
    short_name := short_name, long_name := long_name,
    meta := some (meta.getD "LONG".toList), help := help, kind := ARG_LONG,
    required := req, def_long := dflt, val_long := dflt }

/-- `cl_add_llong` (line 179). -/
def cl_add_llong (p : Clargs) (short_name : Char) (long_name meta help : Option CStr)
    (req : Int) (dflt : Int) : Clargs × Int :=
  cl_push p { make_arg with
    short_name := short_name, long_name := long_name,
    meta := some (meta.getD "LLONG".toList), help := help, kind := ARG_LLONG,
    required := req, def_llong := dflt, val_llong := dflt }

/-- `cl_add_uchar` (line 184). -/
def cl_add_uchar (p : Clargs) (short_name : Char) (long_name meta help : Option CStr)
    (req : Int) (dflt : Int) : Clargs × Int :=
  cl_push p { make_arg with
    short_name := short_name, long_name := long_name,
    meta := some (meta.getD "UCHAR".toList), help := help, kind := ARG_UCHAR,
    required := req, def_uchar := dflt, val_uchar := dflt }

/-- `cl_add_ushort` (line 187). -/
def cl_add_ushort (p : Clargs) (short_name : Char) (long_name meta help : Option CStr)
    (req : Int) (dflt : Int) : Clargs × Int :=
  cl_push p { make_arg with
    short_name := short_name, long_name := long_name,
    meta := some (meta.getD "USHORT".toList), help := help, kind := ARG_USHORT,
    required := req, def_ushort := dflt, val_ushort := dflt }

/-- `cl_add_uint` (line 190). -/
def cl_add_uint (p : Clargs) (short_name : Char) (long_name meta help : Option CStr)
    (req : Int) (dflt : Int) : Clargs × Int :=
  cl_push p { make_arg with
    short_name := short_name, long_name := long_name,
    meta := some (meta.getD "UINT".toList), help := help, kind := ARG_UINT,
    required := req, def_uint := dflt, val_uint := dflt }

/-- `cl_add_ulong` (line 193). -/
def cl_add_ulong (p : Clargs) (short_name : Char) (long_name meta help : Option CStr)
    (req : Int) (dflt : Int) : Clargs × Int :=
  cl_push p { make_arg with
    short_name := short_name, long_name := long_name,
    meta := some (meta.getD "ULONG".toList), help := help, kind := ARG_ULONG,
    required := req, def_ulong := dflt, val_ulong := dflt }

/-- `cl_add_ullong` (line 196). -/
def cl_add_ullong (p : Clargs) (short_name : Char) (long_name meta help : Option CStr)
    (req : Int) (dflt : Int) : Clargs × Int :=
  cl_push p { make_arg with
    short_name := short_name, long_name := long_name,
    meta := some (meta.getD "ULLONG".toList), help := help, kind := ARG_ULLONG,
    required := req, def_ullong := dflt, val_ullong := dflt }

/-- `cl_add_size` (line 201). -/
def cl_add_size (p : Clargs) (short_name : Char) (long_name meta help : Option CStr)
    (req : Int) (dflt : Int) : Clargs × Int :=
  cl_push p { make_arg with
    short_name := short_name, long_name := long_name,
    meta := some (meta.getD "SIZE".toList), help := help, kind := ARG_SIZE,
    required := req, def_size := dflt, val_size := dflt }

/-- `cl_add_float` (line 206). -/
def cl_add_float (p : Clargs) (short_name : Char) (long_name meta help : Option CStr)
    (req : Int) (dflt : Nat) : Clargs × Int :=
  cl_push p { make_arg with
    short_name := short_name, long_name := long_name,
    meta := some (meta.getD "FLT".toList), help := help, kind := ARG_FLOAT,
    required := req, def_float := dflt, val_float := dflt }

/-- `cl_add_double` (line 211). -/
def cl_add_double (p : Clargs) (short_name : Char) (long_name meta help : Option CStr)
    (req : Int) (dflt : Nat) : Clargs × Int :=
  cl_push p { make_arg with
    short_name := short_name, long_name := long_name,
    meta := some (meta.getD "DBL".toList), help := help, kind := ARG_DOUBLE,
    required := req, def_double := dflt, val_double := dflt }

/-- `cl_add_pos` (lines 214-224). -/
def cl_add_pos (p : Clargs) (name help : Option CStr) (req : Int) : Clargs × Int :=
  cl_push p { make_arg with
    long_name := name, meta := name, help := help, kind := ARG_POSITIONAL,
    required := req }

/-- One registration call, with its arguments. -/
inductive AddCall where
  | flag (short_name : Char) (long_name help : Option CStr)
  | string (short_name : Char) (long_name meta help : Option CStr) (req : Int)
      (dflt : Option CStr)
  | char (short_name : Char) (long_name meta help : Option CStr) (req : Int) (dflt : Char)
  | short (short_name : Char) (long_name meta help : Option CStr) (req : Int) (dflt : Int)
  | int (short_name : Char) (long_name meta help : Option CStr) (req : Int) (dflt : Int)
  | long (short_name : Char) (long_name meta help : Option CStr) (req : Int) (dflt : Int)
  | llong (short_name : Char) (long_name meta help : Option CStr) (req : Int) (dflt : Int)
  | uchar (short_name : Char) (long_name meta help : Option CStr) (req : Int) (dflt : Int)
  | ushort (short_name : Char) (long_name meta help : Option CStr) (req : Int) (dflt : Int)
  | uint (short_name : Char) (long_name meta help : Option CStr) (req : Int) (dflt : Int)
  | ulong (short_name : Char) (long_name meta help : Option CStr) (req : Int) (dflt : Int)
  | ullong (short_name : Char) (long_name meta help : Option CStr) (req : Int) (dflt : Int)
  | size (short_name : Char) (long_name meta help : Option CStr) (req : Int) (dflt : Int)
  | float (short_name : Char) (long_name meta help : Option CStr) (req : Int) (dflt : Nat)
  | double (short_name : Char) (long_name meta help : Option CStr) (req : Int) (dflt : Nat)
  | pos (name help : Option CStr) (req : Int)

/-- Run one registration call on a registry. -/
def AddCall.run (p : Clargs) : AddCall → Clargs × Int
  | .flag s l h => cl_add_flag p s l h
  | .string s l m h r d => cl_add_string p s l m h r d
  | .char s l m h r d => cl_add_char p s l m h r d
  | .short s l m h r d => cl_add_short p s l m h r d
  | .int s l m h r d => cl_add_int p s l m h r d
  | .long s l m h r d => cl_add_long p s l m h r d
  | .llong s l m h r d => cl_add_llong p s l m h r d
  | .uchar s l m h r d => cl_add_uchar p s l m h r d
  | .ushort s l m h r d => cl_add_ushort p s l m h r d
  | .uint s l m h r d => cl_add_uint p s l m h r d
  | .ulong s l m h r d => cl_add_ulong p s l m h r d
  | .ullong s l m h r d => cl_add_ullong p s l m h r d
  | .size s l m h r d => cl_add_size p s l m h r d
  | .float s l m h r d => cl_add_float p s l m h r d
  | .double s l m h r d => cl_add_double p s l m h r d
  | .pos n h r => cl_add_pos p n h r

/-- The registry a caller obtains from `cl_create` followed by a sequence of
`cl_add_*` calls. -/
def build (prog desc : Option CStr) (calls : List AddCall) : Clargs :=
  calls.foldl (fun p c => (c.run p).1) (cl_create prog desc)

/-! ## Lookup used by the parser (lines 110-118) -/

/-- The loop of `cl_find_idx` from slot `i` on, for a non-`NULL` name.  Line 115
calls `strcmp(a->long_name, name)` on a Positional spec without testing
`a->long_name`, which is undefined when that pointer is `NULL`. -/
def cl_find_idx_from (name : CStr) : List Clarg → Nat → Run Int
  | [], _ => .ok (-1)
  | a :: rest, i =>
    if a.long_name = some name then .ok i
    else if a.short_name ≠ NUL ∧ name.length = 1 ∧ some a.short_name = name.head? then .ok i
    else if a.kind = ARG_POSITIONAL then
      match a.long_name with
      | none => .undefined
      | some l => if l = name then .ok i else cl_find_idx_from name rest (i + 1)
    else cl_find_idx_from name rest (i + 1)

/-- `cl_find_idx` (lines 110-118).  With a `NULL` name every test of the loop
body is false and the loop runs to the end. -/
def cl_find_idx (p : Clargs) (name : Option CStr) : Run Int :=
  match name with
  | none => .ok (-1)
  | some s => cl_find_idx_from s p.args 0

/-! ## The C library conversions used by the parsing helpers

`strtol`, `strtoll`, `strtoul` and `strtoull` are given for base 10 in the "C"
locale, the only way `cl_parse` calls them (every call passes the constant 10
as `base`).  A conversion yields the value, the offset `end - s` of the first
unconverted character (0 when no conversion was performed), and whether `errno`
was set to `ERANGE`. -/

/-- What a `strto*` call produces. -/
structure Strto (α : Type) where
  val : α
  consumed : Nat
  erange : Bool
  deriving DecidableEq

def LONG_MAX : Int := 2 ^ 63 - 1
def LONG_MIN : Int := -(2 ^ 63)
def ULONG_MAX : Int := 2 ^ 64 - 1
def UCHAR_MAX : Int := 255
def USHRT_MAX : Int := 65535
def UINT_MAX : Int := 4294967295

/-- `isspace` in the "C" locale: space, `\t`, `\n`, `\v`, `\f`, `\r`. -/
def isspace (c : Char) : Bool := c.toNat = 32 || (9 ≤ c.toNat && c.toNat ≤ 13)

/-- `isdigit`. -/
def isdigit (c : Char) : Bool := 48 ≤ c.toNat && c.toNat ≤ 57

/-- The natural number denoted by a run of decimal digits. -/
def digitsValue (ds : List Char) : Nat :=
  ds.foldl (fun acc c => 10 * acc + (c.toNat - 48)) 0

/-- The optional sign of the subject sequence: whether it is `-`, and the rest. -/
def strto_sign (s : CStr) : Bool × CStr :=
  match s with
  | [] => (false, [])
  | c :: t => if c = '-' then (true, t) else if c = '+' then (false, t) else (false, c :: t)

/-- The subject sequence of a base-10 integer conversion: number of characters
before the digits (white space and sign), whether the sign is `-`, the digits. -/
def strto_subject (s : CStr) : Nat × Bool × List Char :=
  let s1 := s.dropWhile isspace
  let sg := strto_sign s1
  (s.length - sg.2.length, sg.1, sg.2.takeWhile isdigit)

/-- `strtol(s, &end, 10)` for a 64-bit `long`; `strtoll` is the same function. -/
def strtol (s : CStr) : Strto Int :=
  let sub := strto_subject s
  let ds := sub.2.2
  if ds = [] then { val := 0, consumed := 0, erange := false }
  else
    let v : Int := if sub.2.1 then -(digitsValue ds : Int) else (digitsValue ds : Int)
    let e := sub.1 + ds.length
    if v > LONG_MAX then { val := LONG_MAX, consumed := e, erange := true }
    else if v < LONG_MIN then { val := LONG_MIN, consumed := e, erange := true }
    else { val := v, consumed := e, erange := false }

/-- `strtoul(s, &end, 10)` for a 64-bit `unsigned long`; `strtoull` is the same
function.  A leading `-` negates the converted value in the unsigned type. -/
def strtoul (s : CStr) : Strto Int :=
  let sub := strto_subject s
  let ds := sub.2.2
  if ds = [] then { val := 0, consumed := 0, erange := false }
  else
    let n : Int := (digitsValue ds : Int)
    let e := sub.1 + ds.length
    if n > ULONG_MAX then { val := ULONG_MAX, consumed := e, erange := true }
    else if sub.2.1 then { val := (2 ^ 64 - n) % 2 ^ 64, consumed := e, erange := false }
    else { val := n, consumed := e, erange := false }

/-- The C library's `strtof` and `strtod`, which the model does not interpret:
bit pattern of the result, offset of `end`, and whether `errno` was set. -/
structure FloatParser where
  strtof : CStr → Strto Nat
  strtod : CStr → Strto Nat

/-- The test `end == s || *end != 0 || errno` shared by the parsing helpers. -/
def strto_rejected {α : Type} (s : CStr) (r : Strto α) : Bool :=
  r.consumed = 0 || s.drop r.consumed ≠ [] || r.erange

/-! ## Parsing helpers (lines 228-286)

Each helper returns `none` for the C result 0 (`*out` not written) and
`some v` for the C result 1 with `*out = v`. -/

/-- `parse_int_simple` (lines 228-236), `base` = 10. -/
def parse_int_simple (s : Option CStr) : Option Int :=
  match s with
  | none => none
  | some s => let r := strtol s; if strto_rejected s r then none else some r.val

/-- `parse_llong_simple` (lines 238-246), `base` = 10. -/
def parse_llong_simple (s : Option CStr) : Option Int :=
  match s with
  | none => none
  | some s => let r := strtol s; if strto_rejected s r then none else some r.val

/-- `parse_unsigned_long_simple` (lines 248-256), `base` = 10. -/
def parse_unsigned_long_simple (s : Option CStr) : Option Int :=
  match s with
  | none => none
  | some s => let r := strtoul s; if strto_rejected s r then none else some r.val

/-- `parse_unsigned_llong_simple` (lines 258-266), `base` = 10. -/
def parse_unsigned_llong_simple (s : Option CStr) : Option Int :=
  match s with
  | none => none
  | some s => let r := strtoul s; if strto_rejected s r then none else some r.val

/-- `parse_float_simple` (lines 268-276). -/
def parse_float_simple (F : FloatParser) (s : Option CStr) : Option Nat :=
  match s with
  | none => none
  | some s => let r := F.strtof s; if strto_rejected s r then none else some r.val

/-- `parse_double_simple` (lines 278-286). -/
def parse_double_simple (F : FloatParser) (s : Option CStr) : Option Nat :=
  match s with
  | none => none
  | some s => let r := F.strtod s; if strto_rejected s r then none else some r.val

/-- Conversion of a 64-bit value to a signed type of `w` bits (two's complement). -/
def to_signed (w : Nat) (x : Int) : Int := (x + 2 ^ (w - 1)) % 2 ^ w - 2 ^ (w - 1)

/-- Conversion to an unsigned type of `w` bits. -/
def to_unsigned (w : Nat) (x : Int) : Int := x % 2 ^ w

/-! ## The parser (lines 351-447) -/

/-- How a call of `cl_parse` ends: it returns `code` with the registry in state
`p` after writing `err` to the standard error stream, or it ends the process
through `cl_help(p); exit(status)`, or its behaviour is undefined. -/
inductive ParseResult where
  | returned (code : Int) (p : Clargs) (err : CStr)
  | exited (status : Int) (p : Clargs)
  | undefined
  deriving DecidableEq

/-- How one iteration of the token loop ends: the loop goes on with registry
`p` (`consumed` tells whether the iteration took `argv[++i]` as a value), or
`cl_parse` ends. -/
inductive Step where
  | next (p : Clargs) (consumed : Bool)
  | stop (r : ParseResult)
  deriving DecidableEq

/-- A diagnostic line: `what` followed by the option as spelled and a newline. -/
def diag (what : String) (opt : CStr) : CStr := what.toList ++ opt ++ [NL]

/-- The `switch (a->kind)` of lines 368-384, repeated at lines 398-414: store
`val` in the value field of the kind of `a`.  `opt` is the option as the
diagnostic spells it (`--name` in the long form, `-c` in the short form), the
only difference between the two copies.  An error carries the diagnostic. -/
def cl_store (F : FloatParser) (a : Clarg) (val : CStr) (opt : CStr) : Except CStr Clarg :=
  match a.kind with
  | ARG_STRING => .ok { a with val_str := some val }
  | ARG_CHAR =>
    match val with
    | [] => .error (diag "Bad char for " opt)
    | c :: _ => .ok { a with val_char := c }
  | ARG_SHORT =>
    match parse_int_simple (some val) with
    | none => .error (diag "Bad short for " opt)
    | some tmp => .ok { a with val_short := to_signed 16 tmp }
  | ARG_INT =>
    match parse_int_simple (some val) with
    | none => .error (diag "Bad int for " opt)
    | some tmp => .ok { a with val_int := to_signed 32 tmp }
  | ARG_LONG =>
    match parse_int_simple (some val) with
    | none => .error (diag "Bad long for " opt)
    | some tmp => .ok { a with val_long := tmp }
  | ARG_LLONG =>
    match parse_llong_simple (some val) with
    | none => .error (diag "Bad long long for " opt)
    | some tmp => .ok { a with val_llong := tmp }
  | ARG_UCHAR =>
    match parse_unsigned_long_simple (some val) with
    | none => .error (diag "Bad uchar for " opt)
    | some tmp =>
      if tmp > UCHAR_MAX then .error (diag "Bad uchar for " opt)
      else .ok { a with val_uchar := to_unsigned 8 tmp }
  | ARG_USHORT =>
    match parse_unsigned_long_simple (some val) with
    | none => .error (diag "Bad ushort for " opt)
    | some tmp =>
      if tmp > USHRT_MAX then .error (diag "Bad ushort for " opt)
      else .ok { a with val_ushort := to_unsigned 16 tmp }
  | ARG_UINT =>
    match parse_unsigned_long_simple (some val) with
    | none => .error (diag "Bad uint for " opt)
    | some tmp =>
      if tmp > UINT_MAX then .error (diag "Bad uint for " opt)
      else .ok { a with val_uint := to_unsigned 32 tmp }
  | ARG_ULONG =>
    match parse_unsigned_long_simple (some val) with
    | none => .error (diag "Bad ulong for " opt)
    | some tmp => .ok { a with val_ulong := tmp }
  | ARG_ULLONG =>
    match parse_unsigned_llong_simple (some val) with
    | none => .error (diag "Bad ullong for " opt)
    | some tmp => .ok { a with val_ullong := tmp }
  | ARG_SIZE =>
    match parse_unsigned_long_simple (some val) with
    | none => .error (diag "Bad size for " opt)
    | some tmp => .ok { a with val_size := tmp }
  | ARG_FLOAT =>
    match parse_float_simple F (some val) with
    | none => .error (diag "Bad float for " opt)
    | some tmp => .ok { a with val_float := tmp }
  | ARG_DOUBLE =>
    match parse_double_simple F (some val) with
    | none => .error (diag "Bad double for " opt)
    | some tmp => .ok { a with val_double := tmp }
  | ARG_FLAG => .ok a
  | ARG_POSITIONAL => .ok a

/-- The spec after `a->present = 1` (lines 365 and 393). -/
def marked (a : Clarg) : Clarg := { a with present := 1 }

/-- The registry with the spec in slot `idx` replaced by `a` (the spec is
updated in place through the pointer `p->args[idx]`). -/
def set_arg (p : Clargs) (idx : Nat) (a : Clarg) : Clargs :=
  { p with args := p.args.set idx a }

/-- The value `val` has been found for the spec `a` in slot `idx` (already
marked present in `p`): run the `switch` and either go on or fail. -/
def cl_parse_value (F : FloatParser) (p : Clargs) (idx : Nat) (a : Clarg) (val opt : CStr)
    (consumed : Bool) : Step :=
  match cl_store F a val opt with
  | .error msg => .stop (.returned (-1) p msg)
  | .ok a1 => .next (set_arg p idx a1) consumed

/-- The long-option branch (lines 357-384) for the token `tok` = `--body`;
`nxt` is `argv[i+1]` when `i+1 < argc`.  The name is copied into
`char name[128]`, so a name of 128 characters or more writes past the buffer. -/
def cl_parse_long (F : FloatParser) (p : Clargs) (tok body : CStr) (nxt : Option CStr) :
    Step :=
  let name := body.takeWhile (fun c => c ≠ '=')
  let val : Option CStr :=
    match body.dropWhile (fun c => c ≠ '=') with
    | [] => none
    | _ :: v => some v
  if name.length ≥ 128 then .stop .undefined
  else
    match cl_find_idx p (some name) with
    | .undefined => .stop .undefined
    | .ok idx =>
      if idx < 0 then .stop (.returned (-1) p (diag "Unknown option: " tok))
      else
        match p.args[idx.toNat]? with
        | none => .stop .undefined
        | some a0 =>
          let a := marked a0
          let p1 := set_arg p idx.toNat a
          if a.kind = ARG_FLAG then .next p1 false
          else
            match val, nxt with
            | some v, _ => cl_parse_value F p1 idx.toNat a v ('-' :: '-' :: name) false
            | none, none => .stop (.returned (-1) p1 (diag "Missing value for --" name))
            | none, some v => cl_parse_value F p1 idx.toNat a v ('-' :: '-' :: name) true

/-- The loop over the characters of a short cluster (lines 387-415); the list
is `tok[k ..]`, and `nxt` is `argv[i+1]` when `i+1 < argc`. -/
def cl_parse_cluster (F : FloatParser) (nxt : Option CStr) : Clargs → List Char → Step
  | p, [] => .next p false
  | p, ch :: more =>
    match cl_find_idx p (some [ch]) with
    | .undefined => .stop .undefined
    | .ok idx =>
      if idx < 0 then .stop (.returned (-1) p (diag "Unknown -" [ch]))
      else
        match p.args[idx.toNat]? with
        | none => .stop .undefined
        | some a0 =>
          let a := marked a0
          let p1 := set_arg p idx.toNat a
          if a.kind = ARG_FLAG then cl_parse_cluster F nxt p1 more
          else if more ≠ [] then cl_parse_value F p1 idx.toNat a more ['-', ch] false
          else
            match nxt with
            | none => .stop (.returned (-1) p1 (diag "Missing value for -" [ch]))
            | some v => cl_parse_value F p1 idx.toNat a v ['-', ch] true

/-- The positional branch (lines 417-427): the first Positional spec not yet
present takes the token; `none` when there is none (`ok` stays 0). -/
def cl_assign_pos (tok : CStr) : List Clarg → Option (List Clarg)
  | [] => none
  | a :: rest =>
    if a.kind = ARG_POSITIONAL ∧ a.present = 0 then
      some ({ a with present := 1, val_str := some tok } :: rest)
    else (cl_assign_pos tok rest).map (fun r => a :: r)

/-- The positional branch with its failure (lines 416-429). -/
def cl_parse_pos (p : Clargs) (tok : CStr) : Step :=
  match cl_assign_pos tok p.args with
  | some args1 => .next { p with args := args1 } false
  | none => .stop (.returned (-1) p (diag "Unexpected arg " tok))

/-- The test of line 356. -/
def is_help (tok : CStr) : Bool := tok = "--help".toList || tok = "-h".toList

/-- Number of characters lines 313-315 write into `char buf[128]` for the
option `a`, the terminating NUL not counted: `-c`, then `, ` when there is a
long name too, then `--long`, then a blank and the placeholder (the empty
string for a `NULL` placeholder) unless the option is a Flag. -/
def cl_help_buf_len (a : Clarg) : Nat :=
  (if a.short_name ≠ NUL then 2 + (if a.long_name ≠ none then 2 else 0) else 0) +
  (match a.long_name with
    | none => 0
    | some l => 2 + l.length) +
  (if a.kind ≠ ARG_FLAG then 1 + (a.meta.getD []).length else 0)

/-- What the loops of `cl_help` do with one spec.  A Positional has its
placeholder printed with `%s` (lines 307 and 341): undefined for a `NULL`
placeholder.  An option that has a name and is not a Flag has its placeholder
printed with `%s` in the usage line (lines 300 and 303), and every option has
its listing built with `sprintf` and `strcat` in `char buf[128]` (lines
312-315): undefined when the listing and its NUL do not fit. -/
def cl_help_arg (a : Clarg) : Run Unit :=
  if a.kind = ARG_POSITIONAL then
    if a.meta = none then .undefined else .ok ()
  else if (a.short_name ≠ NUL ∨ a.long_name ≠ none) ∧ a.kind ≠ ARG_FLAG ∧ a.meta = none then
    .undefined
  else if cl_help_buf_len a ≥ 128 then .undefined
  else .ok ()

/-- The loops of `cl_help` over the specs. -/
def cl_help_args : List Clarg → Run Unit
  | [] => .ok ()
  | a :: rest =>
    match cl_help_arg a with
    | .undefined => .undefined
    | .ok _ => cl_help_args rest

/-- `cl_help` (lines 290-347): whether the call returns.  The text it prints
is not modelled. -/
def cl_help (p : Clargs) : Run Unit := cl_help_args p.args

/-- The body of the token loop (lines 355-429) for `tok` = `argv[i]`.  A help
token runs `cl_help(p); exit(0);`. -/
def cl_parse_tok (F : FloatParser) (p : Clargs) (tok : CStr) (nxt : Option CStr) : Step :=
  if is_help tok then
    match cl_help p with
    | .ok _ => .stop (.exited 0 p)
    | .undefined => .stop .undefined
  else
    match tok with
    | c0 :: c1 :: body =>
      if c0 = '-' ∧ c1 = '-' then cl_parse_long F p tok body nxt
      else if c0 = '-' then cl_parse_cluster F nxt p (c1 :: body)
      else cl_parse_pos p tok
    | _ => cl_parse_pos p tok

/-- How the token loop ends: at the end of the vector, or inside an iteration. -/
inductive Scan where
  | finished (p : Clargs)
  | stopped (r : ParseResult)
  deriving DecidableEq

/-- The token loop (lines 354-430) over `argv[i ..]`.  An iteration that took
`argv[++i]` as a value skips that element; it does so only when the element
exists (`cl_parse_tok_consumed`). -/
def cl_parse_scan (F : FloatParser) : Clargs → List CStr → Scan
  | p, [] => .finished p
  | p, tok :: rest =>
    match cl_parse_tok F p tok rest.head? with
    | .stop r => .stopped r
    | .next p1 false => cl_parse_scan F p1 rest
    | .next p1 true =>
      match rest with
      | [] => .finished p1
      | _ :: rest1 => cl_parse_scan F p1 rest1

/-- The name a "Missing" diagnostic of the sweep prints. -/
def sweep_name (a : Clarg) : CStr := a.long_name.getD "(arg)".toList

/-- The kinds tested at lines 438-440. -/
def is_scalar (k : ArgKind) : Bool :=
  k = ARG_CHAR || k = ARG_SHORT || k = ARG_INT || k = ARG_LONG || k = ARG_LLONG
    || k = ARG_UCHAR || k = ARG_USHORT || k = ARG_UINT || k = ARG_ULONG || k = ARG_ULLONG
    || k = ARG_SIZE || k = ARG_FLOAT || k = ARG_DOUBLE

/-- Line 435: a String spec without a value is seeded from its default. -/
def sweep_seed (a : Clarg) : Clarg :=
  if a.kind = ARG_STRING ∧ a.val_str = none ∧ a.def_str ≠ none then
    { a with val_str := a.def_str }
  else a

/-- The three failure tests of the sweep for one (seeded) spec: the diagnostic
written when the spec is missing. -/
def sweep_missing (a : Clarg) : Option CStr :=
  if a.kind = ARG_STRING ∧ a.required ≠ 0 ∧ a.val_str = none then
    some (diag "Missing --" (sweep_name a))
  else if is_scalar a.kind ∧ a.required ≠ 0 ∧ a.present = 0 then
    some (diag "Missing --" (sweep_name a))
  else if a.kind = ARG_POSITIONAL ∧ a.required ≠ 0 ∧ a.present = 0 then
    some (diag "Missing " (a.meta.getD "(pos)".toList))
  else none

/-- The required-field loop (lines 432-445) over the specs: the specs as the
loop leaves them, and the diagnostic when it returns -1. -/
def cl_sweep : List Clarg → List Clarg × Option CStr
  | [] => ([], none)
  | a :: rest =>
    let a1 := sweep_seed a
    match sweep_missing a1 with
    | some msg => (a1 :: rest, some msg)
    | none => let r := cl_sweep rest; (a1 :: r.1, r.2)

/-- Lines 432-446: the sweep and the final `return 0`. -/
def cl_parse_sweep (p : Clargs) : ParseResult :=
  let r := cl_sweep p.args
  match r.2 with
  | some msg => .returned (-1) { p with args := r.1 } msg
  | none => .returned 0 { p with args := r.1 } []

/-- Line 353: `if (argc > 0) p->prog = argv[0];`. -/
def cl_parse_prog (p : Clargs) (argv : List CStr) : Clargs :=
  match argv with
  | [] => p
  | a0 :: _ => { p with prog := a0 }

/-- `cl_parse` (lines 351-447) on a non-`NULL` registry; `argc` is the length
of `argv`. -/
def cl_parse (F : FloatParser) (p : Clargs) (argv : List CStr) : ParseResult :=
  match cl_parse_scan F (cl_parse_prog p argv) (argv.drop 1) with
  | .stopped r => r
  | .finished p1 => cl_parse_sweep p1

/-! ## Accessors (lines 451-485) -/

/-- The loop of `cl_find` for a non-`NULL` name. -/
def cl_find_from (name : CStr) : List Clarg → Option Clarg
  | [] => none
  | a :: rest =>
    if a.long_name = some name then some a
    else if name.length = 1 ∧ some a.short_name = name.head? then some a
    else if a.kind = ARG_POSITIONAL ∧ a.meta = some name then some a
    else cl_find_from name rest

/-- `cl_find` (lines 451-460). -/
def cl_find (p : Clargs) (name : Option CStr) : Option Clarg :=
  match name with
  | none => none
  | some s => cl_find_from s p.args

/-- `cl_get_flag` (lines 462-464). -/
def cl_get_flag (p : Clargs) (name : Option CStr) : Int :=
  match cl_find p name with
  | none => 0
  | some a => if a.present ≠ 0 then 1 else 0

/-- `cl_get_string` (lines 466-468). -/
def cl_get_string (p : Clargs) (name : Option CStr) : Option CStr :=
  match cl_find p name with
  | none => none
  | some a => a.val_str

/-! The typed getters (lines 470-485) return the value and write the found flag
through `ok` (when `ok` is not `NULL`); the pair is (value returned, value
written to `*ok`). -/

/-- `cl_get_char` (line 470). -/
def cl_get_char (p : Clargs) (name : Option CStr) : Char × Int :=
  match cl_find p name with
  | none => (NUL, 0)
  | some a => (a.val_char, 1)

/-- `cl_get_short` (line 471). -/
def cl_get_short (p : Clargs) (name : Option CStr) : Int × Int :=
  match cl_find p name with
  | none => (0, 0)
  | some a => (a.val_short, 1)

/-- `cl_get_int` (line 472). -/
def cl_get_int (p : Clargs) (name : Option CStr) : Int × Int :=
  match cl_find p name with
  | none => (0, 0)
  | some a => (a.val_int, 1)

/-- `cl_get_long` (line 473). -/
def cl_get_long (p : Clargs) (name : Option CStr) : Int × Int :=
  match cl_find p name with
  | none => (0, 0)
  | some a => (a.val_long, 1)

/-- `cl_get_llong` (line 474). -/
def cl_get_llong (p : Clargs) (name : Option CStr) : Int × Int :=
  match cl_find p name with
  | none => (0, 0)
  | some a => (a.val_llong, 1)

/-- `cl_get_uchar` (line 476). -/
def cl_get_uchar (p : Clargs) (name : Option CStr) : Int × Int :=
  match cl_find p name with
  | none => (0, 0)
  | some a => (a.val_uchar, 1)

/-- `cl_get_ushort` (line 477). -/
def cl_get_ushort (p : Clargs) (name : Option CStr) : Int × Int :=
  match cl_find p name with
  | none => (0, 0)
  | some a => (a.val_ushort, 1)

/-- `cl_get_uint` (line 478). -/
def cl_get_uint (p : Clargs) (name : Option CStr) : Int × Int :=
  match cl_find p name with
  | none => (0, 0)
  | some a => (a.val_uint, 1)

/-- `cl_get_ulong` (line 479). -/
def cl_get_ulong (p : Clargs) (name : Option CStr) : Int × Int :=
  match cl_find p name with
  | none => (0, 0)
  | some a => (a.val_ulong, 1)

/-- `cl_get_ullong` (line 480). -/
def cl_get_ullong (p : Clargs) (name : Option CStr) : Int × Int :=
  match cl_find p name with
  | none => (0, 0)
  | some a => (a.val_ullong, 1)

/-- `cl_get_size` (line 482). -/
def cl_get_size (p : Clargs) (name : Option CStr) : Int × Int :=
  match cl_find p name with
  | none => (0, 0)
  | some a => (a.val_size, 1)

/-- `cl_get_float` (line 484). -/
def cl_get_float (p : Clargs) (name : Option CStr) : Nat × Int :=
  match cl_find p name with
  | none => (0, 0)
  | some a => (a.val_float, 1)

/-- `cl_get_double` (line 485). -/
def cl_get_double (p : Clargs) (name : Option CStr) : Nat × Int :=
  match cl_find p name with
  | none => (0, 0)
  | some a => (a.val_double, 1)

/-! ## Definitions used to state the properties -/

/-- A `FloatParser` that converts nothing, for examples without Float or
Double options. -/
def F0 : FloatParser :=
  { strtof := fun _ => { val := 0, consumed := 0, erange := false },
    strtod := fun _ => { val := 0, consumed := 0, erange := false } }

/-- The registration call names its positional (a non-`NULL` `name`). -/
def AddCall.pos_named : AddCall → Prop
  | .pos none _ _ => False
  | _ => True

/-- The value field of the kind of `a` holds the declared default: `val_X` =
`def_X` for Char and every numeric kind, `val_str` = `def_str` (both `NULL`
when no default was given) for String, `val_str` = `NULL` for Positional.  A
Flag has no value. -/
def holds_default (a : Clarg) : Prop :=
  match a.kind with
  | ARG_FLAG => True
  | ARG_STRING => a.val_str = a.def_str
  | ARG_CHAR => a.val_char = a.def_char
  | ARG_SHORT => a.val_short = a.def_short
  | ARG_INT => a.val_int = a.def_int
  | ARG_LONG => a.val_long = a.def_long
  | ARG_LLONG => a.val_llong = a.def_llong
  | ARG_UCHAR => a.val_uchar = a.def_uchar
  | ARG_USHORT => a.val_ushort = a.def_ushort
  | ARG_UINT => a.val_uint = a.def_uint
  | ARG_ULONG => a.val_ulong = a.def_ulong
  | ARG_ULLONG => a.val_ullong = a.def_ullong
  | ARG_SIZE => a.val_size = a.def_size
  | ARG_FLOAT => a.val_float = a.def_float
  | ARG_DOUBLE => a.val_double = a.def_double
  | ARG_POSITIONAL => a.val_str = none

/-- Facts about a spec as a `cl_add_*` function leaves it. -/
structure Fresh (a : Clarg) : Prop where
  present : a.present = 0
  dflt : holds_default a
  pos_meta : a.kind = ARG_POSITIONAL → a.meta = a.long_name
  flag_req : a.kind = ARG_FLAG → a.required = 0

/-- The three tests of the lookup, in the words of the specification: the long
name equals `s`, or `s` is one character long and equals a non-zero short
name, or the spec is Positional and its (placeholder) name equals `s`. -/
def name_matches (s : CStr) (a : Clarg) : Prop :=
  a.long_name = some s ∨
  (s.length = 1 ∧ a.short_name ≠ NUL ∧ some a.short_name = s.head?) ∨
  (a.kind = ARG_POSITIONAL ∧ a.meta = some s)

/-- The tests of the accessors' lookup `cl_find` for one spec. -/
def find_matches (s : CStr) (a : Clarg) : Bool :=
  a.long_name = some s || (s.length = 1 && some a.short_name = s.head?) ||
    (a.kind = ARG_POSITIONAL && a.meta = some s)

/-- Registration calls of the first-match example: a flag `-x`, then an Int
option whose long name is `x`, then a positional `src`. -/
def calls_first_match : List AddCall :=
  [.flag 'x' none none, .int 'n' (some "x".toList) none none 0 0,
   .pos (some "src".toList) none 1]

/-- What the lookup reads of a spec: its names and its kind. -/
def ident (a : Clarg) : Option CStr × Char × ArgKind := (a.long_name, a.short_name, a.kind)

/-- The name `s` resolves, by `cl_find_idx`, to slot `i`, which holds `a`. -/
def finds (p : Clargs) (s : CStr) (i : Nat) (a : Clarg) : Prop :=
  cl_find_idx p (some s) = .ok (i : Int) ∧ p.args[i]? = some a

/-- The registry after `p->args[i]->present = 1`. -/
def mark_present (p : Clargs) (i : Nat) : Clargs :=
  match p.args[i]? with
  | none => p
  | some a => set_arg p i (marked a)

/-- The registry after the specs in the slots `idxs` have been marked present. -/
def mark_all (p : Clargs) (idxs : List Nat) : Clargs := idxs.foldl mark_present p

/-- The character `f` resolves to slot `i`, which holds a Flag. -/
def finds_flag (p : Clargs) (f : Char) (i : Nat) : Prop :=
  ∃ b, finds p [f] i b ∧ b.kind = ARG_FLAG

/-- What the short-cluster iteration does with the token `-f1...fm t R`, the
`fi` resolving to the slots `idxs` and `t` to slot `it` holding `a`: every one
of these specs is marked present, and the whole of `R` goes through the
`switch` for the kind of `a` (spelled `-t` in a diagnostic); the iteration
ends there, without taking the next vector element. -/
def cluster_stores (F : FloatParser) (p : Clargs) (nxt : Option CStr) (fs : List Char)
    (idxs : List Nat) (t : Char) (it : Nat) (a : Clarg) (R : CStr) : Prop :=
  cl_parse_tok F p ('-' :: (fs ++ t :: R)) nxt =
    match cl_store F (marked a) R ['-', t] with
    | .error msg => .stop (.returned (-1) (mark_all p (idxs ++ [it])) msg)
    | .ok a1 => .next (set_arg (mark_all p (idxs ++ [it])) it a1) false

/-- Registry of the cluster example: flags `-a`, `-b` and an Int option `-n`. -/
def reg_cluster : Clargs :=
  build none none [.flag 'a' none none, .flag 'b' none none, .int 'n' none none none 0 0]

/-- The spec of `-n` in `reg_cluster`. -/
def spec_n : Clarg := { make_arg with short_name := 'n', meta := some "INT".toList, kind := ARG_INT }

/-- Registry in which the dash itself is a short flag name: a flag `--`
(short name `-`) and an Int option `-n`. -/
def reg_dash : Clargs :=
  build none none [.flag '-' none none, .int 'n' none none none 0 0]

/-- Registry with one Int option whose long name is `help`. -/
def reg_help : Clargs :=
  build none none [.int NUL (some "help".toList) none none 0 0]

/-- Registry with one Int option `--opt`. -/
def reg_opt : Clargs :=
  build none none [.int NUL (some "opt".toList) none none 0 0]

/-- The spec of `--opt` in `reg_opt`. -/
def spec_opt : Clarg :=
  { make_arg with long_name := some "opt".toList, meta := some "INT".toList, kind := ARG_INT }

/-- Registry with one flag `--a`. -/
def reg_flag_a : Clargs :=
  build none none [.flag NUL (some "a".toList) none]

/-- A non-empty string of decimal digits. -/
def all_digits (v : CStr) : Prop := v ≠ [] ∧ ∀ c ∈ v, isdigit c = true

/-- A decimal numeral: an optional sign and a non-empty run of digits. -/
def is_numeral (s : CStr) : Prop :=
  ∃ sign ds, s = sign ++ ds ∧ (sign = [] ∨ sign = ['+'] ∨ sign = ['-']) ∧ all_digits ds

/-- The value strings of the whole-string rule: the empty string, or a decimal
numeral followed by a character that is not a digit and then by anything. -/
def has_trailing_garbage (s : CStr) : Prop :=
  s = [] ∨ ∃ num c rest, s = num ++ c :: rest ∧ is_numeral num ∧ isdigit c = false

/-- The command line hands the value string `v` to the spec `a` of slot `idx`:
`tok` is the option token and `nxt` the vector element after it (if any).
The four forms are `--L v`, `--L=v`, `-c v` and `-cv`; in the short forms the
option character may come after Flag characters of the same cluster.  The
token is not `--help` or `-h`, which are never looked up, and a long name fits
the 128-character buffer it is copied to. -/
inductive Supplies (p : Clargs) (idx : Nat) (a : Clarg) (v : CStr) :
    CStr → Option CStr → Prop where
  | long_sep (L : CStr) : L ≠ "help".toList → '=' ∉ L → L.length < 128 → finds p L idx a →
      Supplies p idx a v ('-' :: '-' :: L) (some v)
  | long_inline (L : CStr) (nxt : Option CStr) : '=' ∉ L → L.length < 128 →
      finds p L idx a → Supplies p idx a v ('-' :: '-' :: (L ++ '=' :: v)) nxt
  | short_sep (fs : List Char) (idxs : List Nat) (c : Char) :
      (fs ++ [c]).head? ≠ some '-' → fs ++ [c] ≠ ['h'] →
      List.Forall₂ (finds_flag p) fs idxs → finds p [c] idx a →
      Supplies p idx a v ('-' :: (fs ++ [c])) (some v)
  | short_attached (fs : List Char) (idxs : List Nat) (c : Char) (nxt : Option CStr) :
      (fs ++ [c]).head? ≠ some '-' → v ≠ [] →
      List.Forall₂ (finds_flag p) fs idxs → finds p [c] idx a →
      Supplies p idx a v ('-' :: (fs ++ c :: v)) nxt

/-- The iteration for `tok` takes the value: the loop goes on, the spec of
slot `idx` being `a1`. -/
def accepts_value (F : FloatParser) (p : Clargs) (tok : CStr) (nxt : Option CStr) (idx : Nat)
    (a1 : Clarg) : Prop :=
  ∃ q consumed, cl_parse_tok F p tok nxt = .next q consumed ∧ q.args[idx]? = some a1

/-- The iteration for `tok` rejects the value: it makes `cl_parse` return -1
with the spec of slot `idx` left as `a0`, and so `cl_parse` returns -1 on every
vector whose first argument token is `tok` (followed by `nxt`). -/
def rejects_value (F : FloatParser) (p : Clargs) (tok : CStr) (nxt : Option CStr) (idx : Nat)
    (a0 : Clarg) : Prop :=
  (∃ q msg, cl_parse_tok F p tok nxt = .stop (.returned (-1) q msg) ∧ q.args[idx]? = some a0) ∧
  ∀ prog rest, rest.head? = nxt →
    ∃ q msg, cl_parse F p (prog :: tok :: rest) = .returned (-1) q msg ∧ q.args[idx]? = some a0

/-- The ten integer kinds. -/
def is_integer_kind (k : ArgKind) : Prop :=
  k = ARG_SHORT ∨ k = ARG_INT ∨ k = ARG_LONG ∨ k = ARG_LLONG ∨ k = ARG_UCHAR ∨
    k = ARG_USHORT ∨ k = ARG_UINT ∨ k = ARG_ULONG ∨ k = ARG_ULLONG ∨ k = ARG_SIZE

/-- Registry with one UChar option `-u` / `--level`. -/
def reg_uchar : Clargs :=
  build none none [.uchar 'u' (some "level".toList) none none 0 0]

/-- The spec of `--level` in `reg_uchar`. -/
def spec_level : Clarg :=
  { make_arg with
    short_name := 'u', long_name := some "level".toList, meta := some "UCHAR".toList,
    kind := ARG_UCHAR }

/-- Registry with one Int option `-n` / `--num`. -/
def reg_num : Clargs :=
  build none none [.int 'n' (some "num".toList) none none 0 42]

/-- The spec of `--num` in `reg_num`, default 42. -/
def spec_num : Clarg :=
  { make_arg with
    short_name := 'n', long_name := some "num".toList, meta := some "INT".toList,
    kind := ARG_INT, def_int := 42, val_int := 42 }

/-- Every spec of `q` is a spec of `p` as it was, or has been marked present. -/
def grows (p q : Clargs) : Prop := ∀ b ∈ q.args, b ∈ p.args ∨ b.present = 1

/-- The registry a `cl_parse` outcome leaves satisfies `P` (nothing is said
of an undefined outcome). -/
def ParseResult.All (P : Clargs → Prop) : ParseResult → Prop
  | .returned _ q _ => P q
  | .exited _ q => P q
  | .undefined => True

/-- The registry at the end of an iteration satisfies `P`. -/
def Step.All (P : Clargs → Prop) : Step → Prop
  | .next q _ => P q
  | .stop r => r.All P

/-- The registry at the end of the token loop satisfies `P`. -/
def Scan.All (P : Clargs → Prop) : Scan → Prop
  | .finished q => P q
  | .stopped r => r.All P

/-- Registration of one required String `--name` without default. -/
def calls_required_name : List AddCall :=
  [.string NUL (some "name".toList) none none 1 none]

/-- The spec of the required `--name` without default. -/
def spec_required_name : Clarg :=
  { make_arg with
    long_name := some "name".toList, meta := some "STR".toList, kind := ARG_STRING,
    required := 1 }

/-- Registration of one required String `--name` with the default `x`. -/
def calls_required_default : List AddCall :=
  [.string NUL (some "name".toList) none none 1 (some "x".toList)]

/-- The Positional specs of a registry, in registration order. -/
def positionals (p : Clargs) : List Clarg :=
  p.args.filter (fun a => decide (a.kind = ARG_POSITIONAL))

/-- For each Positional spec in registration order, its `present` flag and its
`val_str`. -/
def pos_view (p : Clargs) : List (Int × Option CStr) :=
  (positionals p).map (fun a => (a.present, a.val_str))

/-- The view of a Positional that has been given the token `t`. -/
def filled (t : CStr) : Int × Option CStr := (1, some t)

/-- The tokens of `argv[i ..]` that the token loop dispatches (reads as
`argv[i]` at the head of an iteration), in order.  A vector element taken as
the value of an option is not dispatched, and the list ends where the loop
ends. -/
def dispatched (F : FloatParser) : Clargs → List CStr → List CStr
  | _, [] => []
  | p, tok :: rest =>
    tok ::
      match cl_parse_tok F p tok rest.head? with
      | .stop _ => []
      | .next p1 false => dispatched F p1 rest
      | .next p1 true =>
        match rest with
        | [] => []
        | _ :: rest1 => dispatched F p1 rest1

/-- The token is dispatched as a positional: it is neither a help token, nor a
long option (`--...`), nor a short cluster (`-` and at least one character). -/
def is_plain (tok : CStr) : Bool :=
  !is_help tok &&
    match tok with
    | c0 :: _ :: _ => decide (c0 ≠ '-')
    | _ => true

/-- The plain tokens of `argv[i ..]`: the dispatched tokens that are neither
options nor help (nor, being dispatched, consumed as values). -/
def plain_tokens (F : FloatParser) (p : Clargs) (rest : List CStr) : List CStr :=
  (dispatched F p rest).filter is_plain

/-- The names the cluster loop looks up: each character up to and including
the first that does not resolve to a Flag. -/
def cluster_lookups (p : Clargs) : List Char → List CStr
  | [] => []
  | ch :: more =>
    [ch] ::
      match cl_find_idx p (some [ch]) with
      | .undefined => []
      | .ok idx =>
        match p.args[idx.toNat]? with
        | none => []
        | some a => if 0 ≤ idx ∧ a.kind = ARG_FLAG then cluster_lookups p more else []

/-- The names an option token passes to `cl_find_idx`: the name of a long
option, the looked-up characters of a short cluster; none for a help token or
a plain token. -/
def looked_up (p : Clargs) (tok : CStr) : List CStr :=
  if is_help tok then []
  else
    match tok with
    | c0 :: c1 :: body =>
      if c0 = '-' ∧ c1 = '-' then [body.takeWhile (fun c => c ≠ '=')]
      else if c0 = '-' then cluster_lookups p (c1 :: body)
      else []
    | _ => []

/-- The name `s` resolves to a Positional spec. -/
def names_positional (p : Clargs) (s : CStr) : Prop :=
  ∃ i a, finds p s i a ∧ a.kind = ARG_POSITIONAL

/-- An iteration of the loop leaves the Positional specs, and the names and
kinds of all specs, as they were in `q`. -/
def keeps_positionals (q q1 : Clargs) : Prop :=
  positionals q1 = positionals q ∧ q1.args.map ident = q.args.map ident

/-- Slot assignment: the `j`-th Positional spec of `q` is present with the
`j`-th token of `ts` as its value when `ts` has a `j`-th token, and is not
present otherwise. -/
def slots_filled (ts : List CStr) (q : Clargs) : Prop :=
  ∀ j Pj, (positionals q)[j]? = some Pj →
    (∀ t, ts[j]? = some t → Pj.present = 1 ∧ Pj.val_str = some t) ∧
    (ts.length ≤ j → Pj.present = 0)

/-- Registry of the positional example: required positionals `src` and `dst`. -/
def reg_src_dst : Clargs :=
  build none none [.pos (some "src".toList) none 1, .pos (some "dst".toList) none 1]

/-- Registration of a flag `-v`, a positional `src`, an Int option `-n` and a
positional `dst`, in this order. -/
def calls_mixed : List AddCall :=
  [.flag 'v' none none, .pos (some "src".toList) none 1,
    .int 'n' none none none 0 0, .pos (some "dst".toList) none 0]

/-- The registry of `calls_mixed`. -/
def reg_mixed : Clargs := build none none calls_mixed

/-- Argument vector of the mixed example: `prog -v foo.txt -n 5 bar.txt`. -/
def argv_mixed : List CStr :=
  ["prog".toList, "-v".toList, "foo.txt".toList, "-n".toList, "5".toList, "bar.txt".toList]

/-- What a registration call is to leave in the new slot: the kind of the
function called, the names and `required` given, `present` = 0, and the given
default in both the default field and the value field of that kind (a Flag and
a Positional take no default; a Positional has no value yet). -/
def AddCall.registers (c : AddCall) (a : Clarg) : Prop :=
  a.present = 0 ∧
  match c with
  | .flag s l h =>
    a.kind = ARG_FLAG ∧ a.short_name = s ∧ a.long_name = l ∧ a.help = h
  | .string s l _ h r d =>
    a.kind = ARG_STRING ∧ a.short_name = s ∧ a.long_name = l ∧ a.help = h ∧ a.required = r ∧
      a.def_str = d ∧ a.val_str = d
  | .char s l _ h r d =>
    a.kind = ARG_CHAR ∧ a.short_name = s ∧ a.long_name = l ∧ a.help = h ∧ a.required = r ∧
      a.def_char = d ∧ a.val_char = d
  | .short s l _ h r d =>
    a.kind = ARG_SHORT ∧ a.short_name = s ∧ a.long_name = l ∧ a.help = h ∧ a.required = r ∧
      a.def_short = d ∧ a.val_short = d
  | .int s l _ h r d =>
    a.kind = ARG_INT ∧ a.short_name = s ∧ a.long_name = l ∧ a.help = h ∧ a.required = r ∧
      a.def_int = d ∧ a.val_int = d
  | .long s l _ h r d =>
    a.kind = ARG_LONG ∧ a.short_name = s ∧ a.long_name = l ∧ a.help = h ∧ a.required = r ∧
      a.def_long = d ∧ a.val_long = d
  | .llong s l _ h r d =>
    a.kind = ARG_LLONG ∧ a.short_name = s ∧ a.long_name = l ∧ a.help = h ∧ a.required = r ∧
      a.def_llong = d ∧ a.val_llong = d
  | .uchar s l _ h r d =>
    a.kind = ARG_UCHAR ∧ a.short_name = s ∧ a.long_name = l ∧ a.help = h ∧ a.required = r ∧
      a.def_uchar = d ∧ a.val_uchar = d
  | .ushort s l _ h r d =>
    a.kind = ARG_USHORT ∧ a.short_name = s ∧ a.long_name = l ∧ a.help = h ∧ a.required = r ∧
      a.def_ushort = d ∧ a.val_ushort = d
  | .uint s l _ h r d =>
    a.kind = ARG_UINT ∧ a.short_name = s ∧ a.long_name = l ∧ a.help = h ∧ a.required = r ∧
      a.def_uint = d ∧ a.val_uint = d
  | .ulong s l _ h r d =>
    a.kind = ARG_ULONG ∧ a.short_name = s ∧ a.long_name = l ∧ a.help = h ∧ a.required = r ∧
      a.def_ulong = d ∧ a.val_ulong = d
  | .ullong s l _ h r d =>
    a.kind = ARG_ULLONG ∧ a.short_name = s ∧ a.long_name = l ∧ a.help = h ∧ a.required = r ∧
      a.def_ullong = d ∧ a.val_ullong = d
  | .size s l _ h r d =>
    a.kind = ARG_SIZE ∧ a.short_name = s ∧ a.long_name = l ∧ a.help = h ∧ a.required = r ∧
      a.def_size = d ∧ a.val_size = d
  | .float s l _ h r d =>
    a.kind = ARG_FLOAT ∧ a.short_name = s ∧ a.long_name = l ∧ a.help = h ∧ a.required = r ∧
      a.def_float = d ∧ a.val_float = d
  | .double s l _ h r d =>
    a.kind = ARG_DOUBLE ∧ a.short_name = s ∧ a.long_name = l ∧ a.help = h ∧ a.required = r ∧
      a.def_double = d ∧ a.val_double = d
  | .pos n h r =>
    a.kind = ARG_POSITIONAL ∧ a.long_name = n ∧ a.meta = n ∧ a.help = h ∧ a.required = r ∧
      a.val_str = none

/-- The registry `q` has the specs of `p` under the same names and kinds. -/
def same_ident (p q : Clargs) : Prop := q.args.map ident = p.args.map ident

/-- Registry with one Flag whose long name is 200 characters long. -/
def reg_long_listing : Clargs :=
  build none none [.flag NUL (some (List.replicate 200 'a')) none]

/-- Registry that registers its own Flag `-h` / `--help` next to an Int
option `-n` / `--num`. -/
def reg_own_help : Clargs :=
  build none none
    [.flag 'h' (some "help".toList) none, .int 'n' (some "num".toList) none none 0 42]

/-- Registry with a String option `-s` / `--name`, the Int option `-n` /
`--num` (default 42) and a Flag `-v` / `--verbose`. -/
def reg_name_num : Clargs :=
  build none none
    [.string 's' (some "name".toList) none none 0 none,
      .int 'n' (some "num".toList) none none 0 42,
      .flag 'v' (some "verbose".toList) none]

/-- The spec of `--name` in `reg_name_num`. -/
def spec_name : Clarg :=
  { make_arg with
    short_name := 's', long_name := some "name".toList, meta := some "STR".toList,
    kind := ARG_STRING }

/-- The spec of `--verbose` in `reg_name_num`. -/
def spec_verbose : Clarg :=
  { make_arg with short_name := 'v', long_name := some "verbose".toList, kind := ARG_FLAG }

/-- Registry with one String option whose long name is `help`. -/
def reg_help_string : Clargs :=
  build none none [.string NUL (some "help".toList) none none 0 none]

/-- The words that open the diagnostic of a failed conversion, by kind (lines
370-382 and 400-412); a String, a Flag and a Positional have no conversion. -/
def bad_word : ArgKind → String
  | ARG_CHAR => "Bad char for "
  | ARG_SHORT => "Bad short for "
  | ARG_INT => "Bad int for "
  | ARG_LONG => "Bad long for "
  | ARG_LLONG => "Bad long long for "
  | ARG_UCHAR => "Bad uchar for "
  | ARG_USHORT => "Bad ushort for "
  | ARG_UINT => "Bad uint for "
  | ARG_ULONG => "Bad ulong for "
  | ARG_ULLONG => "Bad ullong for "
  | ARG_SIZE => "Bad size for "
  | ARG_FLOAT => "Bad float for "
  | ARG_DOUBLE => "Bad double for "
  | _ => ""

/-- One occurrence of an option of slot `idx` with the value string `v`: the
tokens of the occurrence and the option as the diagnostics spell it.  The four
forms are `--L v`, `--L=v`, `-c v` and `-cv`; the name is looked up by
`cl_find_idx`, the token is not `--help` or `-h`, and a long name fits the
128-character buffer it is copied to. -/
inductive Occurrence (p : Clargs) (idx : Nat) (v : CStr) : List CStr → CStr → Prop where
  | long_sep (L : CStr) : L ≠ "help".toList → '=' ∉ L → L.length < 128 →
      cl_find_idx p (some L) = .ok (idx : Int) →
      Occurrence p idx v [ '-' :: '-' :: L, v ] ('-' :: '-' :: L)
  | long_inline (L : CStr) : '=' ∉ L → L.length < 128 →
      cl_find_idx p (some L) = .ok (idx : Int) →
      Occurrence p idx v [ '-' :: '-' :: (L ++ '=' :: v) ] ('-' :: '-' :: L)
  | short_sep (c : Char) : c ≠ '-' → c ≠ 'h' →
      cl_find_idx p (some [c]) = .ok (idx : Int) →
      Occurrence p idx v [ ['-', c], v ] ['-', c]
  | short_attached (c : Char) : c ≠ '-' → v ≠ [] →
      cl_find_idx p (some [c]) = .ok (idx : Int) →
      Occurrence p idx v [ '-' :: c :: v ] ['-', c]

/-- The spec of the required `--name` with the default `x`. -/
def spec_required_default : Clarg :=
  { make_arg with
    long_name := some "name".toList, meta := some "STR".toList, kind := ARG_STRING,
    required := 1, def_str := some "x".toList, val_str := some "x".toList }

/-- The integer a decimal numeral denotes: `sign` is empty, `+` or `-`. -/
def numeral_value (sign ds : CStr) : Int :=
  if sign = ['-'] then -(digitsValue ds : Int) else (digitsValue ds : Int)

/-- Registry with one Short option `-k` / `--port`. -/
def reg_short : Clargs :=
  build none none [.short 'k' (some "port".toList) none none 0 0]

/-- The spec of `--port` in `reg_short`. -/
def spec_port : Clarg :=
  { make_arg with
    short_name := 'k', long_name := some "port".toList, meta := some "SHORT".toList,
    kind := ARG_SHORT }

/-- What both lookups read of a spec: its names, its kind and its placeholder. -/
def names (a : Clarg) : Option CStr × Char × ArgKind × Option CStr :=
  (a.long_name, a.short_name, a.kind, a.meta)

/-- The registry `q` has the specs of `p` under the same names, kinds and
placeholders. -/
def same_names (p q : Clargs) : Prop := q.args.map names = p.args.map names

/-- Every Positional spec has a name, which is also its placeholder (as
`cl_add_pos` leaves it when `name` is not `NULL`). -/
def named_positionals (p : Clargs) : Prop :=
  ∀ a ∈ p.args, a.kind = ARG_POSITIONAL → a.long_name ≠ none ∧ a.meta = a.long_name

/-- The parser's lookup and the accessors' lookup agree on the name `s` in the
registry `q`: `cl_find_idx` returns -1 exactly when `cl_find` returns `NULL`,
and otherwise `cl_find` returns the spec in the slot `cl_find_idx` returns. -/
def lookups_agree (q : Clargs) (s : CStr) : Prop :=
  ∃ r : Int, cl_find_idx q (some s) = .ok r ∧
    (r = -1 ↔ cl_find q (some s) = none) ∧
    (r ≠ -1 → ∃ (i : Nat) (a : Clarg), r = (i : Int) ∧ q.args[i]? = some a ∧
      cl_find q (some s) = some a)

/-- Registry with one required positional `src`. -/
def reg_src : Clargs := build none none [.pos (some "src".toList) none 1]

/-- The spec of the positional `src` in `reg_src`. -/
def spec_src : Clarg :=
  { make_arg with
    long_name := some "src".toList, meta := some "src".toList, kind := ARG_POSITIONAL,
    required := 1 }

/-- Registry with one positional registered without a name (`name` = `NULL`). -/
def reg_unnamed_pos : Clargs := build none none [.pos none none 0]

/-- The spec a Positional becomes when the positional branch gives it `tok`. -/
def assigned (tok : CStr) (a : Clarg) : Clarg := { a with present := 1, val_str := some tok }

/-- The spec can take a plain token: it is a Positional not yet present. -/
def takes_plain (a : Clarg) : Prop := a.kind = ARG_POSITIONAL ∧ a.present = 0

/-! # Properties -/

/-! ## Registries built through the API -/

theorem cl_push_args (p : Clargs) (a : Clarg) : (cl_push p a).1.args = p.args ++ [a] := by
  unfold cl_push cl_grow
  split <;> rfl

theorem run_args (c : AddCall) (p : Clargs) :
    ∃ a, (c.run p).1.args = p.args ++ [a] ∧ Fresh a ∧
      (c.pos_named → a.kind = ARG_POSITIONAL → a.long_name ≠ none) := by
  cases c <;>
    refine ⟨_, cl_push_args _ _, ⟨rfl, ?_, ?_, ?_⟩, ?_⟩ <;>
    simp [make_arg, AddCall.pos_named, holds_default]
  rename_i name help req
  cases name <;> simp [AddCall.pos_named]

theorem build_forall (P : Clarg → Prop) (calls : List AddCall)
    (h : ∀ c ∈ calls, ∀ p a, (AddCall.run p c).1.args = p.args ++ [a] → P a)
    (prog desc : Option CStr) : ∀ a ∈ (build prog desc calls).args, P a := by
  unfold build
  have key : ∀ (cs : List AddCall) (p0 : Clargs), (∀ c ∈ cs, c ∈ calls) →
      (∀ a ∈ p0.args, P a) → ∀ a ∈ (cs.foldl (fun p c => (c.run p).1) p0).args, P a := by
    intro cs
    induction cs with
    | nil => intro p0 _ h0; simpa using h0
    | cons c cs ih =>
      intro p0 hin h0
      simp only [List.foldl_cons]
      apply ih
      · intro c' hc'; exact hin c' (List.mem_cons_of_mem _ hc')
      · obtain ⟨a, ha, _⟩ := run_args c p0
        intro b hb
        rw [ha] at hb
        rcases List.mem_append.1 hb with hb | hb
        · exact h0 b hb
        · have : b = a := by simpa using hb
          subst this
          exact h c (hin c (List.mem_cons_self _ _)) p0 b ha
  exact key calls _ (fun _ hc => hc) (by simp [cl_create])

/-! ## Lookup -/

theorem cl_find_idx_from_spec (s : CStr) :
    ∀ (l : List Clarg) (i0 : Nat),
      (∀ a ∈ l, a.kind = ARG_POSITIONAL → a.long_name ≠ none ∧ a.meta = a.long_name) →
      ∃ r, cl_find_idx_from s l i0 = .ok r ∧
        ((r = -1 ∧ ∀ a ∈ l, ¬ name_matches s a) ∨
         (∃ i : Nat, r = ((i0 + i : Nat) : Int) ∧ ∃ a, l[i]? = some a ∧ name_matches s a ∧
            ∀ j < i, ∀ b, l[j]? = some b → ¬ name_matches s b)) := by
  intro l
  induction l with
  | nil => intro i0 _; exact ⟨-1, rfl, Or.inl ⟨rfl, by simp⟩⟩
  | cons a rest ih =>
    intro i0 hwf
    have hrest : ∀ b ∈ rest, b.kind = ARG_POSITIONAL → b.long_name ≠ none ∧ b.meta = b.long_name :=
      fun b hb => hwf b (List.mem_cons_of_mem _ hb)
    have hit : ∀ (hm : name_matches s a), ∃ i : Nat, ((i0 : Nat) : Int) = ((i0 + i : Nat) : Int) ∧
        ∃ a', (a :: rest)[i]? = some a' ∧ name_matches s a' ∧
          ∀ j < i, ∀ b, (a :: rest)[j]? = some b → ¬ name_matches s b :=
      fun hm => ⟨0, by simp, a, by simp, hm, by simp⟩
    unfold cl_find_idx_from
    by_cases h1 : a.long_name = some s
    · rw [if_pos h1]
      exact ⟨i0, rfl, Or.inr (hit (Or.inl h1))⟩
    · rw [if_neg h1]
      by_cases h2 : a.short_name ≠ NUL ∧ s.length = 1 ∧ some a.short_name = s.head?
      · rw [if_pos h2]
        exact ⟨i0, rfl, Or.inr (hit (Or.inr (Or.inl ⟨h2.2.1, h2.1, h2.2.2⟩)))⟩
      · rw [if_neg h2]
        have hno : ¬ name_matches s a := by
          rintro (h | h | h)
          · exact h1 h
          · exact h2 ⟨h.2.1, h.1, h.2.2⟩
          · have := (hwf a (List.mem_cons_self _ _) h.1).2
            exact h1 (this ▸ h.2)
        have hgo : ∃ r, cl_find_idx_from s rest (i0 + 1) = .ok r ∧
          ((r = -1 ∧ ∀ a' ∈ a :: rest, ¬ name_matches s a') ∨
           (∃ i : Nat, r = ((i0 + i : Nat) : Int) ∧ ∃ a', (a :: rest)[i]? = some a' ∧
              name_matches s a' ∧ ∀ j < i, ∀ b, (a :: rest)[j]? = some b → ¬ name_matches s b)) := by
          obtain ⟨r, hr, hcase⟩ := ih (i0 + 1) hrest
          refine ⟨r, hr, ?_⟩
          rcases hcase with ⟨hm1, hall⟩ | ⟨i, hi, a', ha', hm, hlt⟩
          · left
            refine ⟨hm1, ?_⟩
            intro b hb
            rcases List.mem_cons.1 hb with hb | hb
            · exact hb ▸ hno
            · exact hall b hb
          · right
            refine ⟨i + 1, ?_, a', by simpa using ha', hm, ?_⟩
            · rw [hi]; congr 1; omega
            · intro j hj b hb
              cases j with
              | zero => simp at hb; exact hb ▸ hno
              | succ j => exact hlt j (by omega) b (by simpa using hb)
        by_cases h3 : a.kind = ARG_POSITIONAL
        · rw [if_pos h3]
          obtain ⟨hne, _⟩ := hwf a (List.mem_cons_self _ _) h3
          cases hl : a.long_name with
          | none => exact absurd hl hne
          | some l =>
            have : l ≠ s := fun h => h1 (by rw [hl, h])
            simp only [this, if_false]
            exact hgo
        · rw [if_neg h3]
          exact hgo

/-- C9. First-match-wins lookup.  On a registry built by `cl_create` and the
`cl_add_*` functions with non-`NULL` positional names, `cl_find_idx` on a
non-`NULL` name `s` returns -1 exactly when no spec matches `s`, and otherwise
the least index whose spec matches `s` by long name, by non-zero short name
(for `s` of length 1) or, for a Positional, by its name; the tests are tried
spec by spec in registration order. -/
theorem cl_find_idx_first_match (prog desc : Option CStr) (calls : List AddCall)
    (hpos : ∀ c ∈ calls, c.pos_named) (s : CStr) :
    ∃ r : Int, cl_find_idx (build prog desc calls) (some s) = .ok r ∧
      (r = -1 ↔ ∀ a ∈ (build prog desc calls).args, ¬ name_matches s a) ∧
      (r ≠ -1 → ∃ i : Nat, r = (i : Int) ∧ ∃ a, (build prog desc calls).args[i]? = some a ∧
        name_matches s a ∧
        ∀ j < i, ∀ b, (build prog desc calls).args[j]? = some b → ¬ name_matches s b) := by
  have hwf : ∀ a ∈ (build prog desc calls).args,
      a.kind = ARG_POSITIONAL → a.long_name ≠ none ∧ a.meta = a.long_name := by
    apply build_forall
    intro c hc p a ha
    obtain ⟨a', ha', hfresh, hname⟩ := run_args c p
    have : a = a' := by
      have := ha.symm.trans ha'
      simpa using this
    subst this
    intro hk
    exact ⟨hname (hpos c hc) hk, hfresh.pos_meta hk⟩
  obtain ⟨r, hr, hcase⟩ := cl_find_idx_from_spec s (build prog desc calls).args 0 hwf
  refine ⟨r, hr, ?_, ?_⟩
  · rcases hcase with ⟨h1, hall⟩ | ⟨i, hi, a, ha, hm, _⟩
    · exact ⟨fun _ => hall, fun _ => h1⟩
    · constructor
      · intro h; rw [hi] at h; omega
      · intro hall
        exact absurd hm (hall a (List.getElem?_mem ha))
  · intro hne
    rcases hcase with ⟨h1, _⟩ | ⟨i, hi, a, ha, hm, hlt⟩
    · exact absurd h1 hne
    · exact ⟨i, by rw [hi]; simp, a, ha, hm, hlt⟩

/-- C9, instance: with a flag `-x` registered before an Int option whose long
name is `x`, the name `x` resolves to the flag (index 0). -/
theorem cl_find_idx_first_match_witness :
    (∀ c ∈ calls_first_match, c.pos_named) ∧
    cl_find_idx (build none none calls_first_match) (some "x".toList) = .ok 0 ∧
    ∃ r : Int, cl_find_idx (build none none calls_first_match) (some "x".toList) = .ok r ∧
      (r = -1 ↔ ∀ a ∈ (build none none calls_first_match).args, ¬ name_matches "x".toList a) ∧
      (r ≠ -1 → ∃ i : Nat, r = (i : Int) ∧
        ∃ a, (build none none calls_first_match).args[i]? = some a ∧
        name_matches "x".toList a ∧
        ∀ j < i, ∀ b, (build none none calls_first_match).args[j]? = some b →
          ¬ name_matches "x".toList b) :=
  have h : ∀ c ∈ calls_first_match, c.pos_named := by
    intro c hc
    simp only [calls_first_match, List.mem_cons, List.mem_singleton, List.not_mem_nil,
      or_false] at hc
    rcases hc with rfl | rfl | rfl <;> exact True.intro
  ⟨h, by decide, cl_find_idx_first_match none none calls_first_match h "x".toList⟩

/-! ## Accessors -/

theorem cl_find_from_eq_find (s : CStr) (l : List Clarg) :
    cl_find_from s l = l.find? (find_matches s) := by
  induction l with
  | nil => rfl
  | cons a rest ih =>
    unfold cl_find_from
    rw [List.find?_cons]
    by_cases h1 : a.long_name = some s
    · simp [h1, find_matches]
    · by_cases h2 : s.length = 1 ∧ some a.short_name = s.head?
      · simp [h1, h2, find_matches]
      · by_cases h3 : a.kind = ARG_POSITIONAL ∧ a.meta = some s
        · simp [h1, h2, h3, find_matches]
        · have : find_matches s a = false := by
            simp only [find_matches, Bool.or_eq_false_iff, Bool.and_eq_false_imp,
              decide_eq_false_iff_not, decide_eq_true_eq]
            exact ⟨⟨h1, fun h => fun h' => h2 ⟨h, h'⟩⟩, fun h => fun h' => h3 ⟨h, h'⟩⟩
          rw [if_neg h1, if_neg h2, if_neg h3, this, ih]

/-- C10. Accessor found flag.  `cl_find` returns the first spec, in
registration order, that matches the name (nothing for a `NULL` name).  When it
finds none, every typed getter returns zero with `*ok` = 0, `cl_get_flag`
returns 0 and `cl_get_string` returns `NULL`; when it finds the spec `a`, every
typed getter returns the value field of its type of `a` with `*ok` = 1.  So
`*ok` is 0 exactly when the name is not recognised. -/
theorem getters_found_flag (p : Clargs) (name : Option CStr) :
    cl_find p none = none ∧
    (∀ s, cl_find p (some s) = p.args.find? (find_matches s)) ∧
    (cl_find p name = none →
      cl_get_flag p name = 0 ∧ cl_get_string p name = none ∧
      cl_get_char p name = (NUL, 0) ∧ cl_get_short p name = (0, 0) ∧
      cl_get_int p name = (0, 0) ∧ cl_get_long p name = (0, 0) ∧
      cl_get_llong p name = (0, 0) ∧ cl_get_uchar p name = (0, 0) ∧
      cl_get_ushort p name = (0, 0) ∧ cl_get_uint p name = (0, 0) ∧
      cl_get_ulong p name = (0, 0) ∧ cl_get_ullong p name = (0, 0) ∧
      cl_get_size p name = (0, 0) ∧ cl_get_float p name = (0, 0) ∧
      cl_get_double p name = (0, 0)) ∧
    (∀ a, cl_find p name = some a →
      cl_get_char p name = (a.val_char, 1) ∧ cl_get_short p name = (a.val_short, 1) ∧
      cl_get_int p name = (a.val_int, 1) ∧ cl_get_long p name = (a.val_long, 1) ∧
      cl_get_llong p name = (a.val_llong, 1) ∧ cl_get_uchar p name = (a.val_uchar, 1) ∧
      cl_get_ushort p name = (a.val_ushort, 1) ∧ cl_get_uint p name = (a.val_uint, 1) ∧
      cl_get_ulong p name = (a.val_ulong, 1) ∧ cl_get_ullong p name = (a.val_ullong, 1) ∧
      cl_get_size p name = (a.val_size, 1) ∧ cl_get_float p name = (a.val_float, 1) ∧
      cl_get_double p name = (a.val_double, 1) ∧
      cl_get_string p name = a.val_str ∧
      cl_get_flag p name = (if a.present ≠ 0 then 1 else 0)) ∧
    (((cl_get_char p name).2 = 0 ↔ cl_find p name = none) ∧
     ((cl_get_short p name).2 = 0 ↔ cl_find p name = none) ∧
     ((cl_get_int p name).2 = 0 ↔ cl_find p name = none) ∧
     ((cl_get_long p name).2 = 0 ↔ cl_find p name = none) ∧
     ((cl_get_llong p name).2 = 0 ↔ cl_find p name = none) ∧
     ((cl_get_uchar p name).2 = 0 ↔ cl_find p name = none) ∧
     ((cl_get_ushort p name).2 = 0 ↔ cl_find p name = none) ∧
     ((cl_get_uint p name).2 = 0 ↔ cl_find p name = none) ∧
     ((cl_get_ulong p name).2 = 0 ↔ cl_find p name = none) ∧
     ((cl_get_ullong p name).2 = 0 ↔ cl_find p name = none) ∧
     ((cl_get_size p name).2 = 0 ↔ cl_find p name = none) ∧
     ((cl_get_float p name).2 = 0 ↔ cl_find p name = none) ∧
     ((cl_get_double p name).2 = 0 ↔ cl_find p name = none)) := by
  refine ⟨rfl, fun s => cl_find_from_eq_find s p.args, ?_, ?_, ?_⟩
  · intro h
    simp [cl_get_flag, cl_get_string, cl_get_char, cl_get_short, cl_get_int, cl_get_long,
      cl_get_llong, cl_get_uchar, cl_get_ushort, cl_get_uint, cl_get_ulong, cl_get_ullong,
      cl_get_size, cl_get_float, cl_get_double, h]
  · intro a h
    simp [cl_get_flag, cl_get_string, cl_get_char, cl_get_short, cl_get_int, cl_get_long,
      cl_get_llong, cl_get_uchar, cl_get_ushort, cl_get_uint, cl_get_ulong, cl_get_ullong,
      cl_get_size, cl_get_float, cl_get_double, h]
  · cases h : cl_find p name <;>
      simp [cl_get_char, cl_get_short, cl_get_int, cl_get_long,
        cl_get_llong, cl_get_uchar, cl_get_ushort, cl_get_uint, cl_get_ulong, cl_get_ullong,
        cl_get_size, cl_get_float, cl_get_double, h]

/-! ## The lookup reads names and kinds only -/

theorem cl_find_idx_from_congr (s : CStr) :
    ∀ (l1 l2 : List Clarg) (i : Nat), l1.map ident = l2.map ident →
      cl_find_idx_from s l1 i = cl_find_idx_from s l2 i := by
  intro l1
  induction l1 with
  | nil =>
    intro l2 i h
    cases l2 with
    | nil => rfl
    | cons b l2 => simp at h
  | cons a l1 ih =>
    intro l2 i h
    cases l2 with
    | nil => simp at h
    | cons b l2 =>
      simp only [List.map_cons, List.cons.injEq, ident, Prod.mk.injEq] at h
      obtain ⟨⟨h1, h2, h3⟩, ht⟩ := h
      unfold cl_find_idx_from
      rw [h1, h2, h3, ih l2 (i + 1) ht]

theorem cl_find_idx_congr (p q : Clargs) (name : Option CStr)
    (h : q.args.map ident = p.args.map ident) : cl_find_idx q name = cl_find_idx p name := by
  cases name with
  | none => rfl
  | some s => exact cl_find_idx_from_congr s _ _ 0 h

theorem map_ident_set (l : List Clarg) (i : Nat) (a0 a1 : Clarg) (h0 : l[i]? = some a0)
    (h1 : ident a1 = ident a0) : (l.set i a1).map ident = l.map ident := by
  apply List.ext_getElem?
  intro j
  rw [List.getElem?_map, List.getElem?_map, List.getElem?_set]
  by_cases hij : i = j
  · subst hij
    have hlt : i < l.length := (List.getElem?_eq_some.1 h0).1
    simp [hlt, h0, h1]
  · simp [hij]

theorem ident_marked (a : Clarg) : ident (marked a) = ident a := rfl

theorem cl_store_ident (F : FloatParser) (a a1 : Clarg) (val opt : CStr)
    (h : cl_store F a val opt = .ok a1) : ident a1 = ident a := by
  unfold cl_store at h
  split at h <;> (try split at h) <;> (try split at h) <;>
    first
    | (injection h with h; subst h; rfl)
    | (exact absurd h (by simp))

theorem finds_lt {p : Clargs} {s : CStr} {i : Nat} {a : Clarg} (h : finds p s i a) :
    i < p.args.length := (List.getElem?_eq_some.1 h.2).1

/-! ## Dispatch of one option token -/

theorem takeWhile_no_eq (L : CStr) (h : '=' ∉ L) : L.takeWhile (fun c => c ≠ '=') = L := by
  induction L with
  | nil => rfl
  | cons c L ih =>
    have hc : c ≠ '=' := fun e => h (e ▸ List.mem_cons_self _ _)
    have hL : '=' ∉ L := fun e => h (List.mem_cons_of_mem _ e)
    rw [List.takeWhile_cons, if_pos (decide_eq_true hc), ih hL]

theorem dropWhile_no_eq (L : CStr) (h : '=' ∉ L) : L.dropWhile (fun c => c ≠ '=') = [] := by
  induction L with
  | nil => rfl
  | cons c L ih =>
    have hc : c ≠ '=' := fun e => h (e ▸ List.mem_cons_self _ _)
    have hL : '=' ∉ L := fun e => h (List.mem_cons_of_mem _ e)
    rw [List.dropWhile_cons, if_pos (decide_eq_true hc), ih hL]

theorem takeWhile_inline (L v : CStr) (h : '=' ∉ L) :
    (L ++ '=' :: v).takeWhile (fun c => c ≠ '=') = L := by
  induction L with
  | nil => simp [List.takeWhile_cons]
  | cons c L ih =>
    have hc : c ≠ '=' := fun e => h (e ▸ List.mem_cons_self _ _)
    have hL : '=' ∉ L := fun e => h (List.mem_cons_of_mem _ e)
    rw [List.cons_append, List.takeWhile_cons, if_pos (decide_eq_true hc), ih hL]

theorem dropWhile_inline (L v : CStr) (h : '=' ∉ L) :
    (L ++ '=' :: v).dropWhile (fun c => c ≠ '=') = '=' :: v := by
  induction L with
  | nil => simp [List.dropWhile_cons]
  | cons c L ih =>
    have hc : c ≠ '=' := fun e => h (e ▸ List.mem_cons_self _ _)
    have hL : '=' ∉ L := fun e => h (List.mem_cons_of_mem _ e)
    rw [List.cons_append, List.dropWhile_cons, if_pos (decide_eq_true hc), ih hL]

theorem is_help_long (L : CStr) (h : L ≠ "help".toList) :
    is_help ('-' :: '-' :: L) = false := by
  simp only [is_help, Bool.or_eq_false_iff, decide_eq_false_iff_not]
  constructor
  · intro e
    apply h
    simpa using e
  · intro e
    simp at e

theorem is_help_inline (L v : CStr) :
    is_help ('-' :: '-' :: (L ++ '=' :: v)) = false := by
  simp only [is_help, Bool.or_eq_false_iff, decide_eq_false_iff_not]
  constructor
  · intro e
    have e2 : L ++ '=' :: v = "help".toList := by simpa using e
    have : '=' ∈ "help".toList := by rw [← e2]; simp
    exact absurd this (by decide)
  · intro e
    simp at e

/-- The long branch once the name has been split off: lookup, mark, value. -/
theorem cl_parse_long_found (F : FloatParser) (p : Clargs) (tok body name : CStr)
    (val nxt : Option CStr) (idx : Nat) (a : Clarg)
    (hname : body.takeWhile (fun c => c ≠ '=') = name)
    (hval : (match body.dropWhile (fun c => c ≠ '=') with
      | [] => none
      | _ :: v => some v) = val)
    (hlen : name.length < 128) (hf : finds p name idx a) (hk : a.kind ≠ ARG_FLAG) :
    cl_parse_long F p tok body nxt =
      match val, nxt with
      | some v, _ =>
        cl_parse_value F (set_arg p idx (marked a)) idx (marked a) v ('-' :: '-' :: name) false
      | none, none =>
        .stop (.returned (-1) (set_arg p idx (marked a)) (diag "Missing value for --" name))
      | none, some v =>
        cl_parse_value F (set_arg p idx (marked a)) idx (marked a) v ('-' :: '-' :: name) true := by
  unfold cl_parse_long
  simp only [hname, hval]
  have h1 : ¬ (name.length ≥ 128) := by omega
  have h2 : ¬ ((idx : Int) < 0) := by omega
  have hk2 : ¬ ((marked a).kind = ARG_FLAG) := hk
  rw [if_neg h1, hf.1]
  simp only [h2, if_false, Int.toNat_ofNat, hf.2]
  change (if (marked a).kind = ARG_FLAG then _ else _) = _
  rw [if_neg hk2]
  cases val <;> cases nxt <;> rfl

theorem cl_parse_tok_long (F : FloatParser) (p : Clargs) (body : CStr) (nxt : Option CStr)
    (h : is_help ('-' :: '-' :: body) = false) :
    cl_parse_tok F p ('-' :: '-' :: body) nxt = cl_parse_long F p ('-' :: '-' :: body) body nxt := by
  unfold cl_parse_tok
  simp [h]

theorem cl_parse_tok_cluster (F : FloatParser) (p : Clargs) (c : Char) (more : CStr)
    (nxt : Option CStr) (hc : c ≠ '-') (h : is_help ('-' :: c :: more) = false) :
    cl_parse_tok F p ('-' :: c :: more) nxt = cl_parse_cluster F nxt p (c :: more) := by
  unfold cl_parse_tok
  simp [h, hc]

theorem getElem?_mark_present (p : Clargs) (i j : Nat) :
    (mark_present p i).args[j]? = (p.args[j]?).map (fun b => if j = i then marked b else b) := by
  unfold mark_present
  cases h : p.args[i]? with
  | none =>
    by_cases hj : j = i
    · subst hj; simp [h]
    · simp [hj]
  | some a =>
    simp only [set_arg, List.getElem?_set]
    by_cases hj : i = j
    · subst hj
      have hlt : i < p.args.length := (List.getElem?_eq_some.1 h).1
      simp [hlt, h]
    · have hj2 : ¬ j = i := fun e => hj e.symm
      simp [hj, hj2]

theorem mark_present_ident (p : Clargs) (i : Nat) :
    (mark_present p i).args.map ident = p.args.map ident := by
  apply List.ext_getElem?
  intro j
  rw [List.getElem?_map, List.getElem?_map, getElem?_mark_present]
  cases p.args[j]? with
  | none => rfl
  | some b => by_cases hj : j = i <;> simp [hj, ident_marked]

theorem finds_mark_present {p : Clargs} {s : CStr} {i : Nat} {a : Clarg} (k : Nat)
    (h : finds p s i a) : finds (mark_present p k) s i (if i = k then marked a else a) := by
  refine ⟨?_, ?_⟩
  · rw [cl_find_idx_congr p (mark_present p k) _ (mark_present_ident p k)]; exact h.1
  · rw [getElem?_mark_present, h.2]; rfl

theorem finds_flag_mark_present {p : Clargs} {f : Char} {i : Nat} (k : Nat)
    (h : finds_flag p f i) : finds_flag (mark_present p k) f i := by
  obtain ⟨b, hb, hk⟩ := h
  refine ⟨_, finds_mark_present k hb, ?_⟩
  by_cases e : i = k <;> simp [e, hk, marked]

/-- A run of Flag characters at the head of a cluster marks their specs and
leaves the rest of the cluster to be walked. -/
theorem cl_parse_cluster_flags (F : FloatParser) (nxt : Option CStr) (more : List Char) :
    ∀ (fs : List Char) (idxs : List Nat) (p : Clargs),
      List.Forall₂ (finds_flag p) fs idxs →
      cl_parse_cluster F nxt p (fs ++ more) = cl_parse_cluster F nxt (mark_all p idxs) more := by
  intro fs
  induction fs with
  | nil =>
    intro idxs p h
    cases h
    rfl
  | cons f fs ih =>
    intro idxs p h
    cases h with
    | cons hf hrest =>
      rename_i i idxs
      obtain ⟨b, hb, hk⟩ := hf
      have h2 : ¬ ((i : Int) < 0) := by omega
      have hmp : mark_present p i = set_arg p i (marked b) := by
        unfold mark_present; rw [hb.2]
      rw [List.cons_append, cl_parse_cluster, hb.1]
      simp only [h2, if_false, Int.toNat_ofNat, hb.2]
      change (if (marked b).kind = ARG_FLAG then _ else _) = _
      rw [if_pos (show (marked b).kind = ARG_FLAG from hk), ← hmp]
      rw [ih idxs (mark_present p i) (hrest.imp (fun _ _ h => finds_flag_mark_present i h))]
      rfl

/-- The first non-Flag character of a cluster takes the rest of the cluster as
its value, or the next vector element when it is the last character. -/
theorem cl_parse_cluster_typed (F : FloatParser) (nxt : Option CStr) (p : Clargs) (t : Char)
    (R : CStr) (it : Nat) (a : Clarg) (hf : finds p [t] it a) (hk : a.kind ≠ ARG_FLAG) :
    cl_parse_cluster F nxt p (t :: R) =
      if R ≠ [] then
        cl_parse_value F (set_arg p it (marked a)) it (marked a) R ['-', t] false
      else
        match nxt with
        | none =>
          .stop (.returned (-1) (set_arg p it (marked a)) (diag "Missing value for -" [t]))
        | some v => cl_parse_value F (set_arg p it (marked a)) it (marked a) v ['-', t] true := by
  have h2 : ¬ ((it : Int) < 0) := by omega
  rw [cl_parse_cluster, hf.1]
  simp only [h2, if_false, Int.toNat_ofNat, hf.2]
  change (if (marked a).kind = ARG_FLAG then _ else _) = _
  rw [if_neg (show ¬ (marked a).kind = ARG_FLAG from hk)]

theorem marked_marked (b : Clarg) : marked (marked b) = marked b := rfl

theorem getElem?_mark_all (idxs : List Nat) :
    ∀ (p : Clargs) (j : Nat), (mark_all p idxs).args[j]? =
      (p.args[j]?).map (fun b => if j ∈ idxs then marked b else b) := by
  induction idxs with
  | nil => intro p j; simp [mark_all]
  | cons i idxs ih =>
    intro p j
    have hstep : mark_all p (i :: idxs) = mark_all (mark_present p i) idxs := rfl
    rw [hstep, ih, getElem?_mark_present]
    cases p.args[j]? with
    | none => rfl
    | some b =>
      by_cases h1 : j = i
      · by_cases h2 : j ∈ idxs <;> simp [h1, h2, marked_marked]
      · by_cases h2 : j ∈ idxs <;> simp [h1, h2]

theorem mark_all_ident (idxs : List Nat) :
    ∀ p : Clargs, (mark_all p idxs).args.map ident = p.args.map ident := by
  induction idxs with
  | nil => intro p; rfl
  | cons i idxs ih =>
    intro p
    have hstep : mark_all p (i :: idxs) = mark_all (mark_present p i) idxs := rfl
    rw [hstep, ih, mark_present_ident]

theorem mark_all_append (p : Clargs) (idxs : List Nat) (i : Nat) :
    mark_all p (idxs ++ [i]) = mark_present (mark_all p idxs) i := by
  simp [mark_all, List.foldl_append]

/-! ## Short clusters -/

/-- A cluster `-f1...fm t R` with Flags `fi` and a non-Flag `t`: the specs are
marked, and the value is `R`, or the next vector element when `R` is empty. -/
theorem cl_parse_tok_short (F : FloatParser) (p : Clargs) (nxt : Option CStr)
    (fs : List Char) (idxs : List Nat) (t : Char) (it : Nat) (a : Clarg) (R : CStr)
    (hdash : (fs ++ [t]).head? ≠ some '-') (hnh : fs ++ t :: R ≠ ['h'])
    (hfs : List.Forall₂ (finds_flag p) fs idxs)
    (ht : finds p [t] it a) (hk : a.kind ≠ ARG_FLAG) :
    (mark_all p (idxs ++ [it])).args[it]? = some (marked a) ∧
    cl_parse_tok F p ('-' :: (fs ++ t :: R)) nxt =
      if R ≠ [] then
        cl_parse_value F (mark_all p (idxs ++ [it])) it (marked a) R ['-', t] false
      else
        match nxt with
        | none =>
          .stop (.returned (-1) (mark_all p (idxs ++ [it])) (diag "Missing value for -" [t]))
        | some v =>
          cl_parse_value F (mark_all p (idxs ++ [it])) it (marked a) v ['-', t] true := by
  have hget : (mark_all p (idxs ++ [it])).args[it]? = some (marked a) := by
    rw [getElem?_mark_all, ht.2]; simp
  refine ⟨hget, ?_⟩
  -- the spec of `t` is not among the flags
  have hnot : it ∉ idxs := by
    intro hin
    have : ∀ (fs : List Char) (idxs : List Nat), List.Forall₂ (finds_flag p) fs idxs →
        it ∈ idxs → a.kind = ARG_FLAG := by
      intro fs idxs h
      induction h with
      | nil => intro h; simp at h
      | cons hf _ ih =>
        intro h
        rcases List.mem_cons.1 h with h | h
        · obtain ⟨b, hb, hkb⟩ := hf
          subst h
          have : some a = some b := ht.2.symm.trans hb.2
          injection this with e
          rw [e]; exact hkb
        · exact ih h
    exact hk (this fs idxs hfs hin)
  have hfind : finds (mark_all p idxs) [t] it a := by
    refine ⟨?_, ?_⟩
    · rw [cl_find_idx_congr p _ _ (mark_all_ident idxs p)]; exact ht.1
    · rw [getElem?_mark_all, ht.2]; simp [hnot]
  have hq : mark_all p (idxs ++ [it]) = set_arg (mark_all p idxs) it (marked a) := by
    rw [mark_all_append]; unfold mark_present; rw [hfind.2]
  -- the token is dispatched to the cluster loop
  have hform : ∃ c more, fs ++ t :: R = c :: more ∧ c ≠ '-' := by
    cases fs with
    | nil => exact ⟨t, R, rfl, by simpa using hdash⟩
    | cons f fs => exact ⟨f, fs ++ t :: R, rfl, by simpa using hdash⟩
  obtain ⟨c, more, hcm, hc⟩ := hform
  have hhelp : is_help ('-' :: c :: more) = false := by
    simp only [is_help, Bool.or_eq_false_iff, decide_eq_false_iff_not]
    constructor
    · intro e; simp at e; exact hc e.1
    · intro e
      apply hnh
      rw [hcm]
      simpa using e
  rw [hcm, cl_parse_tok_cluster F p c more nxt hc hhelp, ← hcm,
    cl_parse_cluster_flags F nxt (t :: R) fs idxs p hfs,
    cl_parse_cluster_typed F nxt (mark_all p idxs) t R it a hfind hk, hq]

/-- C1 (amended). Short-cluster decomposition.  For a token `-f1...fm t R`
whose first character after the dash is not a second dash, where every `fi`
resolves by `cl_find_idx` to a Flag spec, `t` resolves to a spec that is not a
Flag, and `R` is not empty: every `fi`'s spec and `t`'s spec are marked
present, the whole of `R` is the value string coerced for `t`'s spec, the next
vector element is not consumed, and no other spec changes (no character of `R`
is looked up). -/
theorem short_cluster_decomposition (F : FloatParser) (p : Clargs) (nxt : Option CStr)
    (fs : List Char) (idxs : List Nat) (t : Char) (it : Nat) (a : Clarg) (R : CStr)
    (hdash : (fs ++ [t]).head? ≠ some '-')
    (hfs : List.Forall₂ (finds_flag p) fs idxs)
    (ht : finds p [t] it a) (hk : a.kind ≠ ARG_FLAG) (hR : R ≠ []) :
    cluster_stores F p nxt fs idxs t it a R ∧
    ∀ j, (mark_all p (idxs ++ [it])).args[j]? =
      (p.args[j]?).map (fun b => if j ∈ idxs ++ [it] then marked b else b) := by
  refine ⟨?_, getElem?_mark_all _ p⟩
  unfold cluster_stores
  have hnh : fs ++ t :: R ≠ ['h'] := by
    intro e
    cases fs with
    | nil => simp at e; exact hR e.2
    | cons f fs => simp at e
  rw [(cl_parse_tok_short F p nxt fs idxs t it a R hdash hnh hfs ht hk).2, if_pos hR]
  unfold cl_parse_value
  cases cl_store F (marked a) R ['-', t] <;> rfl

/-- C1, instance: in the registry with flags `-a`, `-b` and the Int option `-n`,
the token `-abn7` marks the three specs and stores 7; and the vector of the
specification, `-ab` then `-n7`, returns 0 with the same result. -/
theorem short_cluster_decomposition_witness :
    (['a', 'b'] ++ ['n']).head? ≠ some '-' ∧
    List.Forall₂ (finds_flag reg_cluster) ['a', 'b'] [0, 1] ∧
    finds reg_cluster ['n'] 2 spec_n ∧ spec_n.kind ≠ ARG_FLAG ∧ "7".toList ≠ [] ∧
    (cluster_stores F0 reg_cluster none ['a', 'b'] [0, 1] 'n' 2 spec_n "7".toList ∧
      ∀ j, (mark_all reg_cluster ([0, 1] ++ [2])).args[j]? =
        (reg_cluster.args[j]?).map (fun b => if j ∈ [0, 1] ++ [2] then marked b else b)) ∧
    (∃ q, cl_parse_tok F0 reg_cluster "-abn7".toList none = .next q false ∧
      q.args.map Clarg.present = [1, 1, 1] ∧ q.args.map Clarg.val_int = [0, 0, 7]) ∧
    (∃ q, cl_parse F0 reg_cluster ["prog".toList, "-ab".toList, "-n7".toList]
        = .returned 0 q [] ∧
      q.args.map Clarg.present = [1, 1, 1] ∧ q.args.map Clarg.val_int = [0, 0, 7]) :=
  have hfs : List.Forall₂ (finds_flag reg_cluster) ['a', 'b'] [0, 1] :=
    .cons ⟨_, ⟨by decide, rfl⟩, by decide⟩ (.cons ⟨_, ⟨by decide, rfl⟩, by decide⟩ .nil)
  have ht : finds reg_cluster ['n'] 2 spec_n := ⟨by decide, by decide⟩
  ⟨by decide, hfs, ht, by decide, by decide,
    short_cluster_decomposition F0 reg_cluster none ['a', 'b'] [0, 1] 'n' 2 spec_n "7".toList
      (by decide) hfs ht (by decide) (by decide),
    ⟨_, rfl, by decide, by decide⟩, ⟨_, rfl, by decide, by decide⟩⟩

/-- C1, counterexample to the claim as stated: with `-` registered as a short
flag name, the token `--n7` has the form `-` `f1` `t` `R` (`f1` = `-` resolves
to a Flag, `t` = `n` to the Int option, `R` = `7`), but it is dispatched as the
long option `n7`: the parse fails and `-n` is neither marked nor given 7. -/
theorem short_cluster_counterexample :
    List.Forall₂ (finds_flag reg_dash) ['-'] [0] ∧
    (∃ a, finds reg_dash ['n'] 1 a ∧ a.kind = ARG_INT ∧ a.kind ≠ ARG_FLAG ∧
      ¬ cluster_stores F0 reg_dash none ['-'] [0] 'n' 1 a "7".toList) ∧
    cl_parse F0 reg_dash ["prog".toList, "--n7".toList] =
      .returned (-1) { reg_dash with prog := "prog".toList }
        (diag "Unknown option: " "--n7".toList) :=
  ⟨.cons ⟨_, ⟨by decide, rfl⟩, by decide⟩ .nil,
    ⟨_, ⟨by decide, rfl⟩, by decide, by decide, by unfold cluster_stores; decide⟩, by decide⟩

/-! ## Long options -/

theorem cl_parse_tok_long_sep (F : FloatParser) (p : Clargs) (L : CStr) (nxt : Option CStr)
    (idx : Nat) (a : Clarg) (hhelp : L ≠ "help".toList) (heq : '=' ∉ L)
    (hlen : L.length < 128) (hf : finds p L idx a) (hk : a.kind ≠ ARG_FLAG) :
    cl_parse_tok F p ('-' :: '-' :: L) nxt =
      match nxt with
      | none =>
        .stop (.returned (-1) (set_arg p idx (marked a)) (diag "Missing value for --" L))
      | some v =>
        cl_parse_value F (set_arg p idx (marked a)) idx (marked a) v ('-' :: '-' :: L) true := by
  rw [cl_parse_tok_long F p L nxt (is_help_long L hhelp),
    cl_parse_long_found F p _ L L none nxt idx a (takeWhile_no_eq L heq)
      (by rw [dropWhile_no_eq L heq]) hlen hf hk]
  cases nxt <;> rfl

theorem cl_parse_tok_long_inline (F : FloatParser) (p : Clargs) (L v : CStr)
    (nxt : Option CStr) (idx : Nat) (a : Clarg) (heq : '=' ∉ L)
    (hlen : L.length < 128) (hf : finds p L idx a) (hk : a.kind ≠ ARG_FLAG) :
    cl_parse_tok F p ('-' :: '-' :: (L ++ '=' :: v)) nxt =
      cl_parse_value F (set_arg p idx (marked a)) idx (marked a) v ('-' :: '-' :: L) false := by
  rw [cl_parse_tok_long F p _ nxt (is_help_inline L v),
    cl_parse_long_found F p _ (L ++ '=' :: v) L (some v) nxt idx a (takeWhile_inline L v heq)
      (by rw [dropWhile_inline L v heq]) hlen hf hk]

/-- C2 (amended). Inline and separate long-option values are equivalent: for a
long name `L` other than `help`, without `=`, shorter than 128 characters, that
resolves to a spec that is not a Flag, `cl_parse` on `[prog, --L=v]` and on
`[prog, --L, v]` end the same way: same return code, same registry, same
diagnostic; and so they do when the same tokens `post` follow in both. -/
theorem inline_separate_equivalent (F : FloatParser) (p : Clargs) (prog L v : CStr)
    (post : List CStr) (idx : Nat) (a : Clarg) (hhelp : L ≠ "help".toList) (heq : '=' ∉ L)
    (hlen : L.length < 128) (hf : finds p L idx a) (hk : a.kind ≠ ARG_FLAG) :
    cl_parse F p [prog, '-' :: '-' :: (L ++ '=' :: v)] =
      cl_parse F p [prog, '-' :: '-' :: L, v] ∧
    cl_parse F p (prog :: ('-' :: '-' :: (L ++ '=' :: v)) :: post) =
      cl_parse F p (prog :: ('-' :: '-' :: L) :: v :: post) := by
  have hf0 : finds { p with prog := prog } L idx a := hf
  have key : ∀ post : List CStr,
      cl_parse F p (prog :: ('-' :: '-' :: (L ++ '=' :: v)) :: post) =
        cl_parse F p (prog :: ('-' :: '-' :: L) :: v :: post) := by
    intro post
    simp only [cl_parse, cl_parse_prog, List.drop_succ_cons, List.drop_zero, cl_parse_scan,
      List.head?_cons]
    rw [cl_parse_tok_long_inline F _ L v post.head? idx a heq hlen hf0 hk,
      cl_parse_tok_long_sep F _ L (some v) idx a hhelp heq hlen hf0 hk]
    simp only [cl_parse_value]
    cases cl_store F (marked a) v ('-' :: '-' :: L) <;> rfl
  exact ⟨key [], key post⟩

/-- C2, instance: for the Int option `--opt`, `--opt=5` and `--opt 5` both
return 0 with `val_int` = 5 and `present` = 1. -/
theorem inline_separate_equivalent_witness :
    "opt".toList ≠ "help".toList ∧ '=' ∉ "opt".toList ∧ "opt".toList.length < 128 ∧
    finds reg_opt "opt".toList 0 spec_opt ∧ spec_opt.kind ≠ ARG_FLAG ∧
    (cl_parse F0 reg_opt ["prog".toList, '-' :: '-' :: ("opt".toList ++ '=' :: "5".toList)] =
        cl_parse F0 reg_opt ["prog".toList, '-' :: '-' :: "opt".toList, "5".toList] ∧
      cl_parse F0 reg_opt
          ("prog".toList :: ('-' :: '-' :: ("opt".toList ++ '=' :: "5".toList)) :: []) =
        cl_parse F0 reg_opt
          ("prog".toList :: ('-' :: '-' :: "opt".toList) :: "5".toList :: [])) ∧
    cl_parse F0 reg_opt ["prog".toList, "--opt=5".toList] =
      .returned 0 { reg_opt with
        prog := "prog".toList,
        args := [{ spec_opt with present := 1, val_int := 5 }] } [] ∧
    cl_parse F0 reg_opt ["prog".toList, "--opt".toList, "5".toList] =
      .returned 0 { reg_opt with
        prog := "prog".toList,
        args := [{ spec_opt with present := 1, val_int := 5 }] } [] :=
  have hf : finds reg_opt "opt".toList 0 spec_opt := ⟨by decide, by decide⟩
  ⟨by decide, by decide, by decide, hf, by decide,
    inline_separate_equivalent F0 reg_opt "prog".toList "opt".toList "5".toList [] 0 spec_opt
      (by decide) (by decide) (by decide) hf (by decide),
    by decide, by decide⟩

/-- C2, counterexample to the claim as stated: an Int option whose long name is
`help` is reachable by that name (no `=`, shorter than 128 characters), yet
`--help=5` stores 5 and returns 0 while `--help 5` prints the help and exits:
the token `--help` is tested before any lookup. -/
theorem inline_separate_help_counterexample :
    (∃ a, finds reg_help "help".toList 0 a ∧ a.kind = ARG_INT) ∧
    '=' ∉ "help".toList ∧ "help".toList.length < 128 ∧
    (∃ q, cl_parse F0 reg_help ["prog".toList, "--help=5".toList] = .returned 0 q [] ∧
      q.args.map Clarg.val_int = [5] ∧ q.args.map Clarg.present = [1]) ∧
    cl_parse F0 reg_help ["prog".toList, "--help".toList, "5".toList] =
      .exited 0 { reg_help with prog := "prog".toList } ∧
    cl_parse F0 reg_help ["prog".toList, "--help=5".toList] ≠
      cl_parse F0 reg_help ["prog".toList, "--help".toList, "5".toList] :=
  ⟨⟨_, ⟨by decide, rfl⟩, by decide⟩, by decide, by decide, ⟨_, rfl, by decide, by decide⟩,
    by decide, by decide⟩

/-- An unknown long name stops the parse with the registry as it was. -/
theorem cl_parse_long_unknown (F : FloatParser) (p : Clargs) (tok body name : CStr)
    (nxt : Option CStr) (hname : body.takeWhile (fun c => c ≠ '=') = name)
    (hlen : name.length < 128) (hno : cl_find_idx p (some name) = .ok (-1)) :
    cl_parse_long F p tok body nxt = .stop (.returned (-1) p (diag "Unknown option: " tok)) := by
  unfold cl_parse_long
  simp only [hname]
  have h1 : ¬ (name.length ≥ 128) := by omega
  rw [if_neg h1, hno]
  rfl

/-- C7 (amended). Unknown long option: for a name `N` other than `help`, without
`=` and shorter than 128 characters, that `cl_find_idx` does not find,
`cl_parse` on a vector whose first argument token is `--N` or `--N=v` returns
-1 with every spec unchanged, whatever tokens follow. -/
theorem unknown_long_option_rejected (F : FloatParser) (p : Clargs) (prog N v : CStr)
    (post : List CStr) (hhelp : N ≠ "help".toList) (heq : '=' ∉ N) (hlen : N.length < 128)
    (hno : cl_find_idx p (some N) = .ok (-1)) :
    cl_parse F p (prog :: ('-' :: '-' :: N) :: post) =
      .returned (-1) { p with prog := prog } (diag "Unknown option: " ('-' :: '-' :: N)) ∧
    cl_parse F p (prog :: ('-' :: '-' :: (N ++ '=' :: v)) :: post) =
      .returned (-1) { p with prog := prog }
        (diag "Unknown option: " ('-' :: '-' :: (N ++ '=' :: v))) := by
  have hno0 : cl_find_idx { p with prog := prog } (some N) = .ok (-1) := hno
  constructor
  · simp only [cl_parse, cl_parse_prog, List.drop_succ_cons, List.drop_zero, cl_parse_scan]
    rw [cl_parse_tok_long F _ N _ (is_help_long N hhelp),
      cl_parse_long_unknown F _ _ N N _ (takeWhile_no_eq N heq) hlen hno0]
  · simp only [cl_parse, cl_parse_prog, List.drop_succ_cons, List.drop_zero, cl_parse_scan]
    rw [cl_parse_tok_long F _ _ _ (is_help_inline N v),
      cl_parse_long_unknown F _ _ (N ++ '=' :: v) N _ (takeWhile_inline N v heq) hlen hno0]

/-- C7, instance: `--bogus` against a registry that has only `--opt`. -/
theorem unknown_long_option_rejected_witness :
    "bogus".toList ≠ "help".toList ∧ '=' ∉ "bogus".toList ∧ "bogus".toList.length < 128 ∧
    cl_find_idx reg_opt (some "bogus".toList) = .ok (-1) ∧
    cl_parse F0 reg_opt ("prog".toList :: ('-' :: '-' :: "bogus".toList) :: []) =
      .returned (-1) { reg_opt with prog := "prog".toList }
        (diag "Unknown option: " ('-' :: '-' :: "bogus".toList)) ∧
    cl_parse F0 reg_opt
        ("prog".toList :: ('-' :: '-' :: ("bogus".toList ++ '=' :: "1".toList)) :: []) =
      .returned (-1) { reg_opt with prog := "prog".toList }
        (diag "Unknown option: " ('-' :: '-' :: ("bogus".toList ++ '=' :: "1".toList))) :=
  ⟨by decide, by decide, by decide, by decide,
    unknown_long_option_rejected F0 reg_opt "prog".toList "bogus".toList "1".toList []
      (by decide) (by decide) (by decide) (by decide)⟩

/-- C7, counterexample to the claim as stated: `cl_find_idx` finds no spec named
`a=b`, but the token `--a=b` is split at the `=`, the flag `--a` is found and
marked present, and `cl_parse` returns 0. -/
theorem unknown_long_option_counterexample :
    "a=b".toList ≠ "help".toList ∧
    cl_find_idx reg_flag_a (some "a=b".toList) = .ok (-1) ∧
    (∃ q, cl_parse F0 reg_flag_a ["prog".toList, '-' :: '-' :: "a=b".toList] =
        .returned 0 q [] ∧ q.args.map Clarg.present = [1]) ∧
    reg_flag_a.args.map Clarg.present = [0] :=
  ⟨by decide, by decide, ⟨_, rfl, by decide⟩, by decide⟩

/-- A long option whose name has 128 characters or more is copied past the
end of `char name[128]` (lines 359-362). -/
theorem cl_parse_long_overflow (F : FloatParser) (p : Clargs) (tok body : CStr)
    (nxt : Option CStr) (h : (body.takeWhile (fun c => c ≠ '=')).length ≥ 128) :
    cl_parse_long F p tok body nxt = .stop .undefined := by
  unfold cl_parse_long
  simp only [h, if_true]

/-! ## Integer conversions -/

theorem isdigit_not_space {c : Char} (h : isdigit c = true) : isspace c = false := by
  simp only [isdigit, Bool.and_eq_true, decide_eq_true_eq] at h
  simp only [isspace, Bool.or_eq_false_iff, decide_eq_false_iff_not, Bool.and_eq_false_imp,
    decide_eq_true_eq]
  omega

theorem isdigit_ne_minus {c : Char} (h : isdigit c = true) : c ≠ '-' := by
  rintro rfl
  exact absurd h (by decide)

theorem isdigit_ne_plus {c : Char} (h : isdigit c = true) : c ≠ '+' := by
  rintro rfl
  exact absurd h (by decide)

theorem takeWhile_digits (ds rest : CStr) (h : ∀ c ∈ ds, isdigit c = true)
    (hrest : ∀ c, rest.head? = some c → isdigit c = false) :
    (ds ++ rest).takeWhile isdigit = ds := by
  induction ds with
  | nil =>
    cases rest with
    | nil => rfl
    | cons c rest => simp [List.takeWhile_cons, hrest c rfl]
  | cons d ds ih =>
    rw [List.cons_append, List.takeWhile_cons, if_pos (h d (List.mem_cons_self _ _)),
      ih (fun c hc => h c (List.mem_cons_of_mem _ hc))]

/-- The subject sequence of a string that starts with a numeral. -/
theorem strto_subject_numeral (sign ds rest : CStr)
    (hsign : sign = [] ∨ sign = ['+'] ∨ sign = ['-']) (hds : all_digits ds)
    (hrest : ∀ c, rest.head? = some c → isdigit c = false) :
    strto_subject (sign ++ ds ++ rest) = (sign.length, decide (sign = ['-']), ds) := by
  obtain ⟨hne, hd⟩ := hds
  obtain ⟨d, ds', rfl⟩ : ∃ d ds', ds = d :: ds' := by
    cases ds with
    | nil => exact absurd rfl hne
    | cons d ds' => exact ⟨d, ds', rfl⟩
  have hd0 : isdigit d = true := hd d (List.mem_cons_self _ _)
  have htw := takeWhile_digits (d :: ds') rest hd hrest
  rcases hsign with rfl | rfl | rfl
  · have h1 : ((d :: ds') ++ rest).dropWhile isspace = (d :: ds') ++ rest := by
      rw [List.cons_append, List.dropWhile_cons, if_neg (by simp [isdigit_not_space hd0])]
    simp only [strto_subject, List.nil_append, h1]
    simp only [List.cons_append, strto_sign, if_neg (isdigit_ne_minus hd0),
      if_neg (isdigit_ne_plus hd0)]
    rw [← List.cons_append, htw]
    simp
  · have h1 : (['+'] ++ (d :: ds') ++ rest).dropWhile isspace = '+' :: ((d :: ds') ++ rest) := by
      simp only [List.cons_append, List.nil_append, List.dropWhile_cons]
      rw [if_neg (by decide)]
    simp only [strto_subject, h1, strto_sign]
    simp only [if_true]
    simpa using htw
  · have h1 : (['-'] ++ (d :: ds') ++ rest).dropWhile isspace = '-' :: ((d :: ds') ++ rest) := by
      simp only [List.cons_append, List.nil_append, List.dropWhile_cons]
      rw [if_neg (by decide)]
    simp only [strto_subject, h1, strto_sign]
    simp only [if_true]
    simpa using htw

/-- `strtoul` on a string of digits: the number it denotes, the whole string
consumed, and `ERANGE` exactly when the number exceeds `ULONG_MAX`. -/
theorem strtoul_digits (v : CStr) (hv : all_digits v) :
    strtoul v =
      if (digitsValue v : Int) > ULONG_MAX then
        { val := ULONG_MAX, consumed := v.length, erange := true }
      else { val := (digitsValue v : Int), consumed := v.length, erange := false } := by
  have hs := strto_subject_numeral [] v [] (Or.inl rfl) hv (by simp)
  simp only [List.nil_append, List.append_nil] at hs
  unfold strtoul
  simp only [hs, List.length_nil, Nat.zero_add]
  rw [if_neg hv.1]
  have : decide (([] : List Char) = ['-']) = false := by decide
  simp [this]

theorem parse_unsigned_long_simple_digits (v : CStr) (hv : all_digits v) :
    parse_unsigned_long_simple (some v) =
      if (digitsValue v : Int) > ULONG_MAX then none else some (digitsValue v : Int) := by
  have hlen : v.length ≠ 0 := fun h => hv.1 (List.length_eq_zero.1 h)
  simp only [parse_unsigned_long_simple, strtoul_digits v hv, strto_rejected]
  by_cases h : (digitsValue v : Int) > ULONG_MAX
  · simp [h]
  · simp [h, hlen]

/-- The integer conversions perform no complete conversion on the empty
string or on a numeral followed by a non-digit. -/
theorem strto_rejected_garbage (s : CStr) (h : has_trailing_garbage s) :
    strto_rejected s (strtol s) = true ∧ strto_rejected s (strtoul s) = true := by
  rcases h with rfl | ⟨num, c, rest, rfl, ⟨sign, ds, rfl, hsign, hds⟩, hc⟩
  · exact ⟨by decide, by decide⟩
  · have hs := strto_subject_numeral sign ds (c :: rest) hsign hds
      (by intro c' h; simp at h; exact h ▸ hc)
    have hdrop : (sign ++ ds ++ c :: rest).drop (sign.length + ds.length) = c :: rest := by
      rw [← List.length_append, List.drop_left]
    have hl : (strtol (sign ++ ds ++ c :: rest)).consumed = sign.length + ds.length := by
      unfold strtol
      simp only [hs]
      rw [if_neg hds.1]
      split_ifs <;> rfl
    have hu : (strtoul (sign ++ ds ++ c :: rest)).consumed = sign.length + ds.length := by
      unfold strtoul
      simp only [hs]
      rw [if_neg hds.1]
      split_ifs <;> rfl
    constructor
    · unfold strto_rejected; rw [hl, hdrop]; simp
    · unfold strto_rejected; rw [hu, hdrop]; simp

/-! ## A value handed to an option -/

theorem Supplies.with_prog {p : Clargs} {idx : Nat} {a : Clarg} {v tok : CStr}
    {nxt : Option CStr} (prog : CStr) (hs : Supplies p idx a v tok nxt) :
    Supplies { p with prog := prog } idx a v tok nxt := by
  cases hs with
  | long_sep L h1 h2 h3 hf => exact .long_sep L h1 h2 h3 hf
  | long_inline L nxt h2 h3 hf => exact .long_inline L nxt h2 h3 hf
  | short_sep fs idxs c h1 h2 hfs hf => exact .short_sep fs idxs c h1 h2 hfs hf
  | short_attached fs idxs c nxt h1 h2 hfs hf => exact .short_attached fs idxs c nxt h1 h2 hfs hf

/-- Every form of `Supplies` runs the `switch` of the spec on the value `v`. -/
theorem supplies_step (F : FloatParser) {p : Clargs} {idx : Nat} {a : Clarg} {v tok : CStr}
    {nxt : Option CStr} (hs : Supplies p idx a v tok nxt) (hk : a.kind ≠ ARG_FLAG) :
    ∃ q opt consumed, q.args[idx]? = some (marked a) ∧
      cl_parse_tok F p tok nxt = cl_parse_value F q idx (marked a) v opt consumed := by
  cases hs with
  | long_sep L h1 h2 h3 hf =>
    refine ⟨set_arg p idx (marked a), _, true, ?_,
      cl_parse_tok_long_sep F p L (some v) idx a h1 h2 h3 hf hk⟩
    simp [set_arg, finds_lt hf]
  | long_inline L nxt h2 h3 hf =>
    refine ⟨set_arg p idx (marked a), _, false, ?_,
      cl_parse_tok_long_inline F p L v nxt idx a h2 h3 hf hk⟩
    simp [set_arg, finds_lt hf]
  | short_sep fs idxs c h1 h2 hfs hf =>
    obtain ⟨hget, hstep⟩ := cl_parse_tok_short F p (some v) fs idxs c idx a [] h1 h2 hfs hf hk
    refine ⟨mark_all p (idxs ++ [idx]), ['-', c], true, hget, ?_⟩
    rw [hstep, if_neg (by simp)]
  | short_attached fs idxs c nxt h1 h2 hfs hf =>
    have hnh : fs ++ c :: v ≠ ['h'] := by
      intro e
      cases fs with
      | nil => simp at e; exact h2 e.2
      | cons f fs => simp at e
    obtain ⟨hget, hstep⟩ := cl_parse_tok_short F p nxt fs idxs c idx a v h1 hnh hfs hf hk
    refine ⟨mark_all p (idxs ++ [idx]), ['-', c], false, hget, ?_⟩
    rw [hstep, if_pos h2]

theorem supplies_accepts (F : FloatParser) {p : Clargs} {idx : Nat} {a a1 : Clarg}
    {v tok : CStr} {nxt : Option CStr} (hs : Supplies p idx a v tok nxt)
    (hk : a.kind ≠ ARG_FLAG) (hok : ∀ opt, cl_store F (marked a) v opt = .ok a1) :
    accepts_value F p tok nxt idx a1 := by
  obtain ⟨q, opt, consumed, hq, hstep⟩ := supplies_step F hs hk
  refine ⟨set_arg q idx a1, consumed, ?_, ?_⟩
  · rw [hstep, cl_parse_value, hok opt]
  · have hlt : idx < q.args.length := (List.getElem?_eq_some.1 hq).1
    simp [set_arg, hlt]

theorem supplies_rejects (F : FloatParser) {p : Clargs} {idx : Nat} {a : Clarg}
    {v tok : CStr} {nxt : Option CStr} (hs : Supplies p idx a v tok nxt)
    (hk : a.kind ≠ ARG_FLAG) (herr : ∀ opt, ∃ msg, cl_store F (marked a) v opt = .error msg) :
    rejects_value F p tok nxt idx (marked a) := by
  have key : ∀ p0 : Clargs, Supplies p0 idx a v tok nxt →
      ∃ q msg, cl_parse_tok F p0 tok nxt = .stop (.returned (-1) q msg) ∧
        q.args[idx]? = some (marked a) := by
    intro p0 hs0
    obtain ⟨q, opt, consumed, hq, hstep⟩ := supplies_step F hs0 hk
    obtain ⟨msg, hmsg⟩ := herr opt
    exact ⟨q, msg, by rw [hstep, cl_parse_value, hmsg], hq⟩
  refine ⟨key p hs, ?_⟩
  intro prog rest hrest
  obtain ⟨q, msg, hstep, hq⟩ := key _ (hs.with_prog prog)
  refine ⟨q, msg, ?_, hq⟩
  simp only [cl_parse, cl_parse_prog, List.drop_succ_cons, List.drop_zero, cl_parse_scan, hrest, hstep]

/-! ## Unsigned range check -/

theorem to_unsigned_of_le (w : Nat) (n : Nat) (h : (n : Int) < 2 ^ w) :
    to_unsigned w (n : Int) = n := by
  unfold to_unsigned
  exact Int.emod_eq_of_lt (by omega) h

theorem cl_store_unsigned_narrow (F : FloatParser) (a : Clarg) (v opt : CStr)
    (hv : all_digits v) :
    (a.kind = ARG_UCHAR →
      ((digitsValue v : Int) ≤ UCHAR_MAX →
        cl_store F a v opt = .ok { a with val_uchar := digitsValue v }) ∧
      ((digitsValue v : Int) > UCHAR_MAX → ∃ msg, cl_store F a v opt = .error msg)) ∧
    (a.kind = ARG_USHORT →
      ((digitsValue v : Int) ≤ USHRT_MAX →
        cl_store F a v opt = .ok { a with val_ushort := digitsValue v }) ∧
      ((digitsValue v : Int) > USHRT_MAX → ∃ msg, cl_store F a v opt = .error msg)) ∧
    (a.kind = ARG_UINT →
      ((digitsValue v : Int) ≤ UINT_MAX →
        cl_store F a v opt = .ok { a with val_uint := digitsValue v }) ∧
      ((digitsValue v : Int) > UINT_MAX → ∃ msg, cl_store F a v opt = .error msg)) := by
  have hp := parse_unsigned_long_simple_digits v hv
  refine ⟨fun hk => ⟨fun hle => ?_, fun hgt => ?_⟩, fun hk => ⟨fun hle => ?_, fun hgt => ?_⟩,
    fun hk => ⟨fun hle => ?_, fun hgt => ?_⟩⟩
  · have h1 : ¬ (digitsValue v : Int) > ULONG_MAX := by
      simp only [UCHAR_MAX] at hle; simp only [ULONG_MAX]; omega
    have h2 : ¬ (digitsValue v : Int) > UCHAR_MAX := by omega
    simp only [cl_store, hk, hp, if_neg h1, if_neg h2]
    rw [to_unsigned_of_le 8 _ (by simp only [UCHAR_MAX] at hle; omega)]
  · simp only [cl_store, hk, hp]
    by_cases h1 : (digitsValue v : Int) > ULONG_MAX
    · simp only [if_pos h1]; exact ⟨_, rfl⟩
    · simp only [if_neg h1, if_pos hgt]; exact ⟨_, rfl⟩
  · have h1 : ¬ (digitsValue v : Int) > ULONG_MAX := by
      simp only [USHRT_MAX] at hle; simp only [ULONG_MAX]; omega
    have h2 : ¬ (digitsValue v : Int) > USHRT_MAX := by omega
    simp only [cl_store, hk, hp, if_neg h1, if_neg h2]
    rw [to_unsigned_of_le 16 _ (by simp only [USHRT_MAX] at hle; omega)]
  · simp only [cl_store, hk, hp]
    by_cases h1 : (digitsValue v : Int) > ULONG_MAX
    · simp only [if_pos h1]; exact ⟨_, rfl⟩
    · simp only [if_neg h1, if_pos hgt]; exact ⟨_, rfl⟩
  · have h1 : ¬ (digitsValue v : Int) > ULONG_MAX := by
      simp only [UINT_MAX] at hle; simp only [ULONG_MAX]; omega
    have h2 : ¬ (digitsValue v : Int) > UINT_MAX := by omega
    simp only [cl_store, hk, hp, if_neg h1, if_neg h2]
    rw [to_unsigned_of_le 32 _ (by simp only [UINT_MAX] at hle; omega)]
  · simp only [cl_store, hk, hp]
    by_cases h1 : (digitsValue v : Int) > ULONG_MAX
    · simp only [if_pos h1]; exact ⟨_, rfl⟩
    · simp only [if_neg h1, if_pos hgt]; exact ⟨_, rfl⟩

/-- C6. Unsigned overflow rejection.  A value string of decimal digits denoting
`n`, handed to a UChar (UShort, UInt) option in long or short form, is accepted
and `n` is stored when `n` ≤ 255 (65535, 4294967295); when `n` is larger,
`cl_parse` returns -1 and the value field is not written. -/
theorem unsigned_overflow_rejection (F : FloatParser) (p : Clargs) (idx : Nat) (a : Clarg)
    (v tok : CStr) (nxt : Option CStr) (hs : Supplies p idx a v tok nxt)
    (hv : all_digits v) :
    (a.kind = ARG_UCHAR →
      ((digitsValue v : Int) ≤ UCHAR_MAX →
        accepts_value F p tok nxt idx { marked a with val_uchar := digitsValue v }) ∧
      ((digitsValue v : Int) > UCHAR_MAX → rejects_value F p tok nxt idx (marked a))) ∧
    (a.kind = ARG_USHORT →
      ((digitsValue v : Int) ≤ USHRT_MAX →
        accepts_value F p tok nxt idx { marked a with val_ushort := digitsValue v }) ∧
      ((digitsValue v : Int) > USHRT_MAX → rejects_value F p tok nxt idx (marked a))) ∧
    (a.kind = ARG_UINT →
      ((digitsValue v : Int) ≤ UINT_MAX →
        accepts_value F p tok nxt idx { marked a with val_uint := digitsValue v }) ∧
      ((digitsValue v : Int) > UINT_MAX → rejects_value F p tok nxt idx (marked a))) := by
  have hst := fun opt => cl_store_unsigned_narrow F (marked a) v opt hv
  refine ⟨fun hk => ?_, fun hk => ?_, fun hk => ?_⟩
  · have hf : a.kind ≠ ARG_FLAG := by rw [hk]; decide
    exact ⟨fun hle => supplies_accepts F hs hf (fun opt => ((hst opt).1 hk).1 hle),
      fun hgt => supplies_rejects F hs hf (fun opt => ((hst opt).1 hk).2 hgt)⟩
  · have hf : a.kind ≠ ARG_FLAG := by rw [hk]; decide
    exact ⟨fun hle => supplies_accepts F hs hf (fun opt => ((hst opt).2.1 hk).1 hle),
      fun hgt => supplies_rejects F hs hf (fun opt => ((hst opt).2.1 hk).2 hgt)⟩
  · have hf : a.kind ≠ ARG_FLAG := by rw [hk]; decide
    exact ⟨fun hle => supplies_accepts F hs hf (fun opt => ((hst opt).2.2 hk).1 hle),
      fun hgt => supplies_rejects F hs hf (fun opt => ((hst opt).2.2 hk).2 hgt)⟩

/-- C6, instance: the UChar option `--level` given `300` makes `cl_parse`
return -1 with `val_uchar` still 0. -/
theorem unsigned_overflow_rejection_witness :
    Supplies reg_uchar 0 spec_level "300".toList ('-' :: '-' :: "level".toList)
      (some "300".toList) ∧
    all_digits "300".toList ∧
    rejects_value F0 reg_uchar ('-' :: '-' :: "level".toList) (some "300".toList) 0
      (marked spec_level) ∧
    cl_parse F0 reg_uchar ["prog".toList, "--level".toList, "300".toList] =
      .returned (-1) { reg_uchar with prog := "prog".toList, args := [marked spec_level] }
        (diag "Bad uchar for " "--level".toList) :=
  have hs : Supplies reg_uchar 0 spec_level "300".toList ('-' :: '-' :: "level".toList)
      (some "300".toList) :=
    .long_sep "level".toList (by decide) (by decide) (by decide) ⟨by decide, by decide⟩
  have hv : all_digits "300".toList := ⟨by decide, by decide⟩
  ⟨hs, hv,
    ((unsigned_overflow_rejection F0 reg_uchar 0 spec_level "300".toList _ _ hs hv).1
      (by decide)).2 (by decide),
    by decide⟩

/-! ## Whole-string rule -/

theorem parse_simple_garbage (s : CStr) (h : has_trailing_garbage s) :
    parse_int_simple (some s) = none ∧ parse_llong_simple (some s) = none ∧
    parse_unsigned_long_simple (some s) = none ∧
    parse_unsigned_llong_simple (some s) = none := by
  obtain ⟨hl, hu⟩ := strto_rejected_garbage s h
  simp [parse_int_simple, parse_llong_simple, parse_unsigned_long_simple,
    parse_unsigned_llong_simple, hl, hu]

theorem cl_store_garbage (F : FloatParser) (a : Clarg) (v opt : CStr)
    (hk : is_integer_kind a.kind) (h : has_trailing_garbage v) :
    ∃ msg, cl_store F a v opt = .error msg := by
  obtain ⟨h1, h2, h3, h4⟩ := parse_simple_garbage v h
  rcases hk with hk | hk | hk | hk | hk | hk | hk | hk | hk | hk <;>
    simp only [cl_store, hk, h1, h2, h3, h4] <;> exact ⟨_, rfl⟩

/-- C8. Whole-string integer coercion.  On the empty string and on a decimal
numeral followed by a character that is not a digit, the four parsing helpers
return 0 without writing `*out`, and such a value handed to an option of any
integer kind makes `cl_parse` return -1 with the value field of the spec
unchanged (nothing truncated is stored). -/
theorem whole_string_integer_coercion (F : FloatParser) (p : Clargs) (idx : Nat) (a : Clarg)
    (v tok : CStr) (nxt : Option CStr) (hs : Supplies p idx a v tok nxt)
    (hk : is_integer_kind a.kind) (hg : has_trailing_garbage v) :
    parse_int_simple (some v) = none ∧ parse_llong_simple (some v) = none ∧
    parse_unsigned_long_simple (some v) = none ∧
    parse_unsigned_llong_simple (some v) = none ∧
    rejects_value F p tok nxt idx (marked a) := by
  obtain ⟨h1, h2, h3, h4⟩ := parse_simple_garbage v hg
  refine ⟨h1, h2, h3, h4, ?_⟩
  have hf : a.kind ≠ ARG_FLAG := by
    rcases hk with hk | hk | hk | hk | hk | hk | hk | hk | hk | hk <;> rw [hk] <;> decide
  exact supplies_rejects F hs hf (fun opt => cl_store_garbage F (marked a) v opt hk hg)

/-- C8, instance: the Int option `--num` (default 42) given `12abc` makes
`cl_parse` return -1 and `val_int` stays 42, not 12. -/
theorem whole_string_integer_coercion_witness :
    Supplies reg_num 0 spec_num "12abc".toList ('-' :: '-' :: "num".toList)
      (some "12abc".toList) ∧
    is_integer_kind spec_num.kind ∧ has_trailing_garbage "12abc".toList ∧
    (parse_int_simple (some "12abc".toList) = none ∧
      parse_llong_simple (some "12abc".toList) = none ∧
      parse_unsigned_long_simple (some "12abc".toList) = none ∧
      parse_unsigned_llong_simple (some "12abc".toList) = none ∧
      rejects_value F0 reg_num ('-' :: '-' :: "num".toList) (some "12abc".toList) 0
        (marked spec_num)) ∧
    cl_parse F0 reg_num ["prog".toList, "--num".toList, "12abc".toList] =
      .returned (-1) { reg_num with prog := "prog".toList, args := [marked spec_num] }
        (diag "Bad int for " "--num".toList) ∧
    (marked spec_num).val_int = 42 :=
  have hs : Supplies reg_num 0 spec_num "12abc".toList ('-' :: '-' :: "num".toList)
      (some "12abc".toList) :=
    .long_sep "num".toList (by decide) (by decide) (by decide) ⟨by decide, by decide⟩
  have hk : is_integer_kind spec_num.kind := Or.inr (Or.inl rfl)
  have hg : has_trailing_garbage "12abc".toList :=
    Or.inr ⟨"12".toList, 'a', "bc".toList, by decide,
      ⟨[], "12".toList, by decide, Or.inl rfl, by decide, by decide⟩, by decide⟩
  ⟨hs, hk, hg, whole_string_integer_coercion F0 reg_num 0 spec_num "12abc".toList _ _ hs hk hg,
    by decide, by decide⟩

/-! ## Specs change only after being marked present -/

theorem grows_refl (p : Clargs) : grows p p := fun _ hb => Or.inl hb

theorem grows_set_arg {p q : Clargs} (idx : Nat) (a : Clarg) (h : grows p q)
    (ha : a.present = 1) : grows p (set_arg q idx a) := by
  intro b hb
  rcases List.mem_or_eq_of_mem_set hb with hb | hb
  · exact h b hb
  · exact Or.inr (hb ▸ ha)

theorem cl_store_present (F : FloatParser) (a a1 : Clarg) (val opt : CStr)
    (h : cl_store F a val opt = .ok a1) : a1.present = a.present := by
  unfold cl_store at h
  split at h <;> (try split at h) <;> (try split at h) <;>
    first
    | (injection h with h; subst h; rfl)
    | (exact absurd h (by simp))

theorem cl_parse_value_grows (F : FloatParser) {p q : Clargs} (idx : Nat) (a : Clarg)
    (val opt : CStr) (c : Bool) (h : grows p q) (ha : a.present = 1) :
    (cl_parse_value F q idx a val opt c).All (grows p) := by
  unfold cl_parse_value
  cases hs : cl_store F a val opt with
  | error msg => exact h
  | ok a1 => exact grows_set_arg idx a1 h ((cl_store_present F a a1 val opt hs).trans ha)

theorem cl_parse_long_grows (F : FloatParser) {p q : Clargs} (tok body : CStr)
    (nxt : Option CStr) (h : grows p q) : (cl_parse_long F q tok body nxt).All (grows p) := by
  unfold cl_parse_long
  simp only []
  split
  · trivial
  · split
    · trivial
    · split
      · exact h
      · split
        · trivial
        · rename_i a0 _
          have h1 : ∀ i, grows p (set_arg q i (marked a0)) := fun i => grows_set_arg i _ h rfl
          split
          · exact h1 _
          · split
            · exact cl_parse_value_grows F _ _ _ _ _ (h1 _) rfl
            · exact h1 _
            · exact cl_parse_value_grows F _ _ _ _ _ (h1 _) rfl

theorem cl_parse_cluster_grows (F : FloatParser) (nxt : Option CStr) (p : Clargs) :
    ∀ (cs : List Char) (q : Clargs), grows p q →
      (cl_parse_cluster F nxt q cs).All (grows p) := by
  intro cs
  induction cs with
  | nil => intro q h; exact h
  | cons ch more ih =>
    intro q h
    rw [cl_parse_cluster]
    split
    · trivial
    · split
      · exact h
      · split
        · trivial
        · rename_i a0 _
          have h1 : ∀ i, grows p (set_arg q i (marked a0)) := fun i => grows_set_arg i _ h rfl
          simp only []
          split
          · exact ih _ (h1 _)
          · split
            · exact cl_parse_value_grows F _ _ _ _ _ (h1 _) rfl
            · split
              · exact h1 _
              · exact cl_parse_value_grows F _ _ _ _ _ (h1 _) rfl

theorem cl_assign_pos_mem (tok : CStr) :
    ∀ (l l1 : List Clarg), cl_assign_pos tok l = some l1 →
      ∀ b ∈ l1, b ∈ l ∨ b.present = 1 := by
  intro l
  induction l with
  | nil => intro l1 h; simp [cl_assign_pos] at h
  | cons a rest ih =>
    intro l1 h b hb
    rw [cl_assign_pos] at h
    split at h
    · injection h with h
      subst h
      rcases List.mem_cons.1 hb with hb | hb
      · exact Or.inr (hb ▸ rfl)
      · exact Or.inl (List.mem_cons_of_mem _ hb)
    · cases hr : cl_assign_pos tok rest with
      | none => rw [hr] at h; simp at h
      | some r =>
        rw [hr] at h
        simp only [Option.map_some'] at h
        injection h with h
        subst h
        rcases List.mem_cons.1 hb with hb | hb
        · exact Or.inl (hb ▸ List.mem_cons_self _ _)
        · rcases ih r hr b hb with h2 | h2
          · exact Or.inl (List.mem_cons_of_mem _ h2)
          · exact Or.inr h2

theorem cl_parse_pos_grows {p q : Clargs} (tok : CStr) (h : grows p q) :
    (cl_parse_pos q tok).All (grows p) := by
  unfold cl_parse_pos
  cases hr : cl_assign_pos tok q.args with
  | none => exact h
  | some l1 =>
    intro b hb
    rcases cl_assign_pos_mem tok _ _ hr b hb with h2 | h2
    · exact h b h2
    · exact Or.inr h2

theorem cl_parse_tok_grows (F : FloatParser) {p q : Clargs} (tok : CStr) (nxt : Option CStr)
    (h : grows p q) : (cl_parse_tok F q tok nxt).All (grows p) := by
  unfold cl_parse_tok
  split
  · split
    · exact h
    · trivial
  · split
    · split
      · exact cl_parse_long_grows F _ _ _ h
      · split
        · exact cl_parse_cluster_grows F _ p _ q h
        · exact cl_parse_pos_grows _ h
    · exact cl_parse_pos_grows _ h

theorem cl_parse_scan_grows (F : FloatParser) (p : Clargs) :
    ∀ (n : Nat) (rest : List CStr) (q : Clargs), rest.length ≤ n → grows p q →
      (cl_parse_scan F q rest).All (grows p) := by
  intro n
  induction n with
  | zero =>
    intro rest q hn h
    have : rest = [] := List.length_eq_zero.1 (by omega)
    subst this
    exact h
  | succ n ih =>
    intro rest q hn h
    cases rest with
    | nil => exact h
    | cons tok rest =>
      have hn1 : rest.length ≤ n := by simpa using hn
      have hstep := cl_parse_tok_grows F tok rest.head? h
      rw [cl_parse_scan]
      cases hr : cl_parse_tok F q tok rest.head? with
      | stop r => rw [hr] at hstep; exact hstep
      | next q1 consumed =>
        rw [hr] at hstep
        cases consumed with
        | false => exact ih rest q1 hn1 hstep
        | true =>
          cases rest with
          | nil => exact hstep
          | cons _ rest1 => exact ih rest1 q1 (by simp at hn1; omega) hstep

/-! ## The required-field sweep -/

theorem sweep_seed_present (a : Clarg) : (sweep_seed a).present = a.present := by
  unfold sweep_seed; split <;> rfl

theorem build_fresh (prog desc : Option CStr) (calls : List AddCall) :
    ∀ a ∈ (build prog desc calls).args, Fresh a := by
  apply build_forall
  intro c _ p a ha
  obtain ⟨a', ha', hfresh, _⟩ := run_args c p
  have : a = a' := by
    have := ha.symm.trans ha'
    simpa using this
  exact this ▸ hfresh

theorem cl_parse_prog_args (p : Clargs) (argv : List CStr) :
    (cl_parse_prog p argv).args = p.args := by
  cases argv <;> rfl

theorem cl_sweep_missing : ∀ (l : List Clarg) (i : Nat) (a : Clarg),
    l[i]? = some a → sweep_seed a = a → sweep_missing a ≠ none →
    (∃ msg, (cl_sweep l).2 = some msg) ∧ (cl_sweep l).1[i]? = some a := by
  intro l
  induction l with
  | nil => intro i a h; simp at h
  | cons b rest ih =>
    intro i a hi hseed hmiss
    rw [cl_sweep]
    simp only []
    cases i with
    | zero =>
      have hb : b = a := by simpa using hi
      subst hb
      rw [hseed]
      cases hm : sweep_missing b with
      | none => exact absurd hm hmiss
      | some msg => exact ⟨⟨msg, rfl⟩, by simp⟩
    | succ i =>
      have hi2 : rest[i]? = some a := by simpa using hi
      cases hm : sweep_missing (sweep_seed b) with
      | some msg => exact ⟨⟨msg, rfl⟩, by simpa using hi2⟩
      | none =>
        obtain ⟨h1, h2⟩ := ih i a hi2 hseed hmiss
        exact ⟨h1, by simpa using h2⟩

/-- C4 (amended). Required-enforcement.  On a registry built by `cl_create` and
`cl_add_*`, when the token loop ends without help and without error and some
required spec has not been supplied (its `present` flag is 0), the spec being a
Char, a numeric kind, a Positional, or a String registered without default,
`cl_parse` returns -1 and leaves that spec as it was. -/
theorem required_enforcement (F : FloatParser) (prog desc : Option CStr)
    (calls : List AddCall) (argv : List CStr) (p1 : Clargs) (i : Nat) (a : Clarg)
    (hscan : cl_parse_scan F (cl_parse_prog (build prog desc calls) argv) (argv.drop 1)
      = .finished p1)
    (hi : p1.args[i]? = some a) (hreq : a.required ≠ 0) (hnot : a.present = 0)
    (hstr : a.kind = ARG_STRING → a.def_str = none) :
    ∃ q msg, cl_parse F (build prog desc calls) argv = .returned (-1) q msg ∧
      q.args[i]? = some a := by
  have hg := cl_parse_scan_grows F (cl_parse_prog (build prog desc calls) argv) _
    (argv.drop 1) _ (Nat.le_refl _) (grows_refl _)
  rw [hscan] at hg
  have hmem : a ∈ (build prog desc calls).args := by
    rcases hg a (List.getElem?_mem hi) with h1 | h1
    · exact (cl_parse_prog_args _ argv) ▸ h1
    · omega
  have hfresh := build_fresh prog desc calls a hmem
  have hseed : sweep_seed a = a := by
    unfold sweep_seed
    split
    · rename_i hc
      exact absurd (hstr hc.1) hc.2.2
    · rfl
  have hmiss : sweep_missing a ≠ none := by
    have hd := hfresh.dflt
    have hflag := hfresh.flag_req
    unfold sweep_missing
    cases hk : a.kind <;> simp only [hk, holds_default] at hd hflag hstr <;>
      simp [hk, hreq, hnot, is_scalar]
    · exact hreq (hflag trivial)
    · rw [hd, hstr trivial]
  obtain ⟨⟨msg, hmsg⟩, hget⟩ := cl_sweep_missing p1.args i a hi hseed hmiss
  refine ⟨{ p1 with args := (cl_sweep p1.args).1 }, msg, ?_, hget⟩
  simp only [cl_parse, hscan, cl_parse_sweep, hmsg]

/-- C4, instance: one required String `--name` without default and the vector
`[prog]`: `cl_parse` returns -1. -/
theorem required_enforcement_witness :
    cl_parse_scan F0 (cl_parse_prog (build none none calls_required_name) ["prog".toList])
      (["prog".toList].drop 1) = .finished (cl_parse_prog (build none none calls_required_name)
        ["prog".toList]) ∧
    (cl_parse_prog (build none none calls_required_name) ["prog".toList]).args[0]? =
      some spec_required_name ∧
    spec_required_name.required ≠ 0 ∧ spec_required_name.present = 0 ∧
    (spec_required_name.kind = ARG_STRING → spec_required_name.def_str = none) ∧
    (∃ q msg, cl_parse F0 (build none none calls_required_name) ["prog".toList] =
      .returned (-1) q msg ∧ q.args[0]? = some spec_required_name) ∧
    cl_parse F0 (build none none calls_required_name) ["prog".toList] =
      .returned (-1)
        { build none none calls_required_name with prog := "prog".toList }
        (diag "Missing --" "name".toList) :=
  ⟨rfl, by decide, by decide, by decide, by decide,
    required_enforcement F0 none none calls_required_name ["prog".toList] _ 0
      spec_required_name rfl (by decide) (by decide) (by decide) (by decide),
    by decide⟩

/-- C4, counterexample to the claim as stated: a required String `--name`
registered with the default `x` and never supplied; `cl_parse` returns 0, the
spec is not present and its value is the default. -/
theorem required_enforcement_counterexample :
    ∃ q a, cl_parse F0 (build none none calls_required_default) ["prog".toList] =
        .returned 0 q [] ∧
      q.args = [a] ∧ a.kind = ARG_STRING ∧ a.required = 1 ∧ a.present = 0 ∧
      a.val_str = some "x".toList ∧ cl_get_string q (some "name".toList) = some "x".toList :=
  ⟨_, _, rfl, rfl, by decide, by decide, by decide, by decide, by decide⟩

/-! ## Positional slots -/

theorem filter_set_other (l : List Clarg) (i : Nat) (a0 a1 : Clarg) (h0 : l[i]? = some a0)
    (hk0 : a0.kind ≠ ARG_POSITIONAL) (hk1 : a1.kind ≠ ARG_POSITIONAL) :
    (l.set i a1).filter (fun a => decide (a.kind = ARG_POSITIONAL)) =
      l.filter (fun a => decide (a.kind = ARG_POSITIONAL)) := by
  induction l generalizing i with
  | nil => simp
  | cons b rest ih =>
    cases i with
    | zero =>
      have hb : b = a0 := by simpa using h0
      subst hb
      simp [List.filter_cons, hk0, hk1]
    | succ i =>
      have h0r : rest[i]? = some a0 := by simpa using h0
      simp only [List.set_cons_succ, List.filter_cons, ih i h0r]

theorem keeps_refl (q : Clargs) : keeps_positionals q q := ⟨rfl, rfl⟩

theorem keeps_trans {q q1 q2 : Clargs} (h1 : keeps_positionals q q1)
    (h2 : keeps_positionals q1 q2) : keeps_positionals q q2 :=
  ⟨h2.1.trans h1.1, h2.2.trans h1.2⟩

theorem keeps_set_arg (q : Clargs) (i : Nat) (a0 a1 : Clarg) (h0 : q.args[i]? = some a0)
    (hid : ident a1 = ident a0) (hk0 : a0.kind ≠ ARG_POSITIONAL) :
    keeps_positionals q (set_arg q i a1) := by
  have hk1 : a1.kind ≠ ARG_POSITIONAL := by
    have : a1.kind = a0.kind := congrArg (fun x => x.2.2) hid
    rw [this]; exact hk0
  exact ⟨filter_set_other q.args i a0 a1 h0 hk0 hk1, map_ident_set q.args i a0 a1 h0 hid⟩

theorem keeps_value (F : FloatParser) (q : Clargs) (i : Nat) (a0 : Clarg) (val opt : CStr)
    (c : Bool) (h0 : q.args[i]? = some a0) (hk0 : a0.kind ≠ ARG_POSITIONAL) :
    (cl_parse_value F (set_arg q i (marked a0)) i (marked a0) val opt c).All
      (keeps_positionals q) := by
  have hlt : i < q.args.length := (List.getElem?_eq_some.1 h0).1
  have h1 := keeps_set_arg q i a0 (marked a0) h0 rfl hk0
  have hget : (set_arg q i (marked a0)).args[i]? = some (marked a0) := by
    simp [set_arg, hlt]
  unfold cl_parse_value
  cases hs : cl_store F (marked a0) val opt with
  | error msg => exact h1
  | ok a1 =>
    exact keeps_trans h1 (keeps_set_arg _ i (marked a0) a1 hget
      (cl_store_ident F _ _ _ _ hs) hk0)

theorem getElem?_of_ident {p q : Clargs} (h : q.args.map ident = p.args.map ident) (i : Nat)
    (a : Clarg) (ha : q.args[i]? = some a) : ∃ b, p.args[i]? = some b ∧ ident b = ident a := by
  have h1 : (q.args.map ident)[i]? = some (ident a) := by
    rw [List.getElem?_map, ha]; rfl
  rw [h, List.getElem?_map] at h1
  cases hb : p.args[i]? with
  | none => rw [hb] at h1; simp at h1
  | some b =>
    rw [hb] at h1
    exact ⟨b, rfl, by simpa using h1⟩

theorem names_positional_congr {p q : Clargs} (h : q.args.map ident = p.args.map ident)
    (s : CStr) (hn : names_positional q s) : names_positional p s := by
  obtain ⟨i, a, hf, hk⟩ := hn
  obtain ⟨b, hb, hid⟩ := getElem?_of_ident h i a hf.2
  refine ⟨i, b, ⟨?_, hb⟩, ?_⟩
  · rw [← cl_find_idx_congr p q _ h]; exact hf.1
  · have : b.kind = a.kind := congrArg (fun x => x.2.2) hid
    rw [this]; exact hk

theorem cluster_lookups_congr {p q : Clargs} (h : q.args.map ident = p.args.map ident) :
    ∀ cs : List Char, cluster_lookups q cs = cluster_lookups p cs := by
  intro cs
  induction cs with
  | nil => rfl
  | cons ch more ih =>
    rw [cluster_lookups, cluster_lookups, cl_find_idx_congr p q _ h]
    cases cl_find_idx p (some [ch]) with
    | undefined => rfl
    | ok idx =>
      simp only []
      cases hq : q.args[idx.toNat]? with
      | none =>
        have : p.args[idx.toNat]? = none := by
          have h1 : (q.args.map ident)[idx.toNat]? = none := by
            rw [List.getElem?_map, hq]; rfl
          rw [h, List.getElem?_map] at h1
          cases hb : p.args[idx.toNat]? with
          | none => rfl
          | some b => rw [hb] at h1; simp at h1
        rw [this]
      | some a =>
        obtain ⟨b, hb, hid⟩ := getElem?_of_ident h _ a hq
        have hk : b.kind = a.kind := congrArg (fun x => x.2.2) hid
        rw [hb]
        simp only [hk, ih]

theorem looked_up_congr {p q : Clargs} (h : q.args.map ident = p.args.map ident)
    (tok : CStr) : looked_up q tok = looked_up p tok := by
  unfold looked_up
  split
  · rfl
  · split
    · split
      · rfl
      · split
        · exact cluster_lookups_congr h _
        · rfl
    · rfl

theorem parseResult_all_imp {P Q : Clargs → Prop} (hPQ : ∀ q, P q → Q q) :
    ∀ {r : ParseResult}, r.All P → r.All Q
  | .returned _ _ _, h => hPQ _ h
  | .exited _ _, h => hPQ _ h
  | .undefined, _ => trivial

theorem step_all_imp {P Q : Clargs → Prop} (hPQ : ∀ q, P q → Q q) :
    ∀ {s : Step}, s.All P → s.All Q
  | .next _ _, h => hPQ _ h
  | .stop _, h => parseResult_all_imp hPQ h

theorem finds_of_lookup {q : Clargs} {s : CStr} {idx : Int} {a0 : Clarg}
    (h1 : cl_find_idx q (some s) = .ok idx) (h2 : ¬ idx < 0)
    (h3 : q.args[idx.toNat]? = some a0) : finds q s idx.toNat a0 := by
  refine ⟨?_, h3⟩
  rw [h1, Int.toNat_of_nonneg (by omega)]

theorem cl_parse_long_keeps (F : FloatParser) (q : Clargs) (tok body : CStr)
    (nxt : Option CStr)
    (hn : ¬ names_positional q (body.takeWhile (fun c => c ≠ '='))) :
    (cl_parse_long F q tok body nxt).All (keeps_positionals q) := by
  unfold cl_parse_long
  simp only []
  split
  · trivial
  · split
    · trivial
    · rename_i idx hfind
      split
      · exact keeps_refl q
      · rename_i hidx
        split
        · trivial
        · rename_i a0 hget
          have hk0 : a0.kind ≠ ARG_POSITIONAL := fun hk =>
            hn ⟨_, a0, finds_of_lookup hfind hidx hget, hk⟩
          split
          · exact keeps_set_arg q _ a0 (marked a0) hget rfl hk0
          · split
            · exact keeps_value F q _ a0 _ _ _ hget hk0
            · exact keeps_set_arg q _ a0 (marked a0) hget rfl hk0
            · exact keeps_value F q _ a0 _ _ _ hget hk0

theorem cl_parse_cluster_keeps (F : FloatParser) (nxt : Option CStr) :
    ∀ (cs : List Char) (q : Clargs),
      (∀ s ∈ cluster_lookups q cs, ¬ names_positional q s) →
      (cl_parse_cluster F nxt q cs).All (keeps_positionals q) := by
  intro cs
  induction cs with
  | nil => intro q _; exact keeps_refl q
  | cons ch more ih =>
    intro q hn
    have hn0 : ¬ names_positional q [ch] := hn _ (by rw [cluster_lookups]; simp)
    rw [cl_parse_cluster]
    split
    · trivial
    · rename_i idx hfind
      split
      · exact keeps_refl q
      · rename_i hidx
        split
        · trivial
        · rename_i a0 hget
          have hk0 : a0.kind ≠ ARG_POSITIONAL := fun hk =>
            hn0 ⟨_, a0, finds_of_lookup hfind hidx hget, hk⟩
          have h1 := keeps_set_arg q idx.toNat a0 (marked a0) hget rfl hk0
          simp only []
          split
          · rename_i hflag
            have hflag0 : a0.kind = ARG_FLAG := hflag
            have hmore : ∀ s ∈ cluster_lookups (set_arg q idx.toNat (marked a0)) more,
                ¬ names_positional (set_arg q idx.toNat (marked a0)) s := by
              intro s hs hnp
              rw [cluster_lookups_congr h1.2] at hs
              apply hn s _ (names_positional_congr h1.2 s hnp)
              rw [cluster_lookups, hfind]
              simp only [hget]
              rw [if_pos ⟨by omega, hflag0⟩]
              exact List.mem_cons_of_mem _ hs
            exact step_all_imp (fun _ h2 => keeps_trans h1 h2) (ih _ hmore)
          · split
            · exact keeps_value F q _ a0 _ _ _ hget hk0
            · split
              · exact h1
              · exact keeps_value F q _ a0 _ _ _ hget hk0

theorem cl_parse_tok_plain (F : FloatParser) (q : Clargs) (tok : CStr) (nxt : Option CStr)
    (h : is_plain tok = true) : cl_parse_tok F q tok nxt = cl_parse_pos q tok := by
  simp only [is_plain, Bool.and_eq_true, Bool.not_eq_true'] at h
  obtain ⟨hh, hform⟩ := h
  unfold cl_parse_tok
  rw [hh]
  simp only [Bool.false_eq_true, if_false]
  split
  · rename_i c0 c1 body
    have hc : c0 ≠ '-' := by simpa using hform
    simp [hc]
  · rfl

theorem cl_parse_tok_option_keeps (F : FloatParser) (q : Clargs) (tok : CStr)
    (nxt : Option CStr) (h : is_plain tok = false)
    (hn : ∀ s ∈ looked_up q tok, ¬ names_positional q s) :
    (cl_parse_tok F q tok nxt).All (keeps_positionals q) := by
  unfold cl_parse_tok
  unfold looked_up at hn
  split
  · split
    · exact keeps_refl q
    · trivial
  · rename_i hh
    rw [if_neg hh] at hn
    have hh2 : is_help tok = false := by simpa using hh
    split
    · rename_i c0 c1 body
      simp only [] at hn
      split
      · rename_i hlong
        rw [if_pos hlong] at hn
        exact cl_parse_long_keeps F q _ body nxt (hn _ (by simp))
      · rename_i hlong
        rw [if_neg hlong] at hn
        split
        · rename_i hdash
          rw [if_pos hdash] at hn
          exact cl_parse_cluster_keeps F nxt _ q hn
        · rename_i hdash
          simp [is_plain, hh2, hdash] at h
    · rename_i hform
      exfalso
      have : is_plain tok = true := by
        simp only [is_plain, hh2, Bool.not_false, Bool.true_and]
      rw [h] at this
      exact absurd this (by decide)

theorem cl_assign_pos_spec (tok : CStr) :
    ∀ (l : List Clarg) (done : List CStr) (tail : List (Int × Option CStr)),
      (l.filter (fun a => decide (a.kind = ARG_POSITIONAL))).map
          (fun a => (a.present, a.val_str)) = done.map filled ++ tail →
      (∀ v ∈ tail, v.1 = 0) →
      (tail = [] → cl_assign_pos tok l = none) ∧
      (∀ v vs, tail = v :: vs → ∃ l1, cl_assign_pos tok l = some l1 ∧
        (l1.filter (fun a => decide (a.kind = ARG_POSITIONAL))).map
            (fun a => (a.present, a.val_str)) = (done ++ [tok]).map filled ++ vs ∧
        l1.map ident = l.map ident) := by
  intro l
  induction l with
  | nil =>
    intro done tail h _
    have h2 : done.map filled ++ tail = [] := by simpa using h.symm
    have ht : tail = [] := (List.append_eq_nil.1 h2).2
    exact ⟨fun _ => rfl, fun v vs e => by rw [ht] at e; simp at e⟩
  | cons a l0 ih =>
    intro done tail h htail
    rw [cl_assign_pos]
    by_cases hk : a.kind = ARG_POSITIONAL
    · simp only [List.filter_cons, hk, decide_True, if_true, List.map_cons] at h
      by_cases hp : a.present = 0
      · have hdone : done = [] := by
          cases done with
          | nil => rfl
          | cons d ds =>
            simp only [List.map_cons, List.cons_append, List.cons.injEq, filled,
              Prod.mk.injEq] at h
            omega
        subst hdone
        simp only [List.map_nil, List.nil_append] at h
        rw [if_pos ⟨hk, hp⟩]
        refine ⟨fun e => by rw [e] at h; simp at h, ?_⟩
        intro v vs e
        rw [e] at h
        simp only [List.cons.injEq] at h
        refine ⟨_, rfl, ?_, ?_⟩
        · simp [List.filter_cons, hk, filled, h.2]
        · simp [ident]
      · have hc : ¬ (a.kind = ARG_POSITIONAL ∧ a.present = 0) := fun hc => hp hc.2
        rw [if_neg hc]
        cases done with
        | nil =>
          simp only [List.map_nil, List.nil_append] at h
          have := htail (a.present, a.val_str) (by rw [← h]; exact List.mem_cons_self _ _)
          exact absurd this hp
        | cons d ds =>
          simp only [List.map_cons, List.cons_append, List.cons.injEq] at h
          obtain ⟨h1, h2⟩ := ih ds tail h.2 htail
          refine ⟨fun e => by rw [h1 e]; rfl, ?_⟩
          intro v vs e
          obtain ⟨l1, hl1, hv, hid⟩ := h2 v vs e
          refine ⟨a :: l1, by rw [hl1]; rfl, ?_, ?_⟩
          · simp only [List.filter_cons, hk, decide_True, if_true, List.map_cons,
              List.cons_append, hv, h.1]
          · simp [hid]
    · simp only [List.filter_cons, hk, decide_False] at h
      have hc : ¬ (a.kind = ARG_POSITIONAL ∧ a.present = 0) := fun hc => hk hc.1
      rw [if_neg hc]
      obtain ⟨h1, h2⟩ := ih done tail h htail
      refine ⟨fun e => by rw [h1 e]; rfl, ?_⟩
      intro v vs e
      obtain ⟨l1, hl1, hv, hid⟩ := h2 v vs e
      refine ⟨a :: l1, by rw [hl1]; rfl, ?_, ?_⟩
      · simp only [List.filter_cons, hk, decide_False]
        exact hv
      · simp [hid]

theorem scan_cons_stop (F : FloatParser) (q : Clargs) (tok : CStr) (rest : List CStr)
    (r : ParseResult) (h : cl_parse_tok F q tok rest.head? = .stop r) :
    cl_parse_scan F q (tok :: rest) = .stopped r ∧ dispatched F q (tok :: rest) = [tok] := by
  simp only [cl_parse_scan, dispatched, h, and_self]

theorem scan_cons_next (F : FloatParser) (q q1 : Clargs) (tok : CStr) (rest : List CStr)
    (h : cl_parse_tok F q tok rest.head? = .next q1 false) :
    cl_parse_scan F q (tok :: rest) = cl_parse_scan F q1 rest ∧
      dispatched F q (tok :: rest) = tok :: dispatched F q1 rest := by
  simp only [cl_parse_scan, dispatched, h, and_self]

theorem scan_cons_consumed (F : FloatParser) (q q1 : Clargs) (tok v : CStr)
    (rest : List CStr) (h : cl_parse_tok F q tok (v :: rest).head? = .next q1 true) :
    cl_parse_scan F q (tok :: v :: rest) = cl_parse_scan F q1 rest ∧
      dispatched F q (tok :: v :: rest) = tok :: dispatched F q1 rest := by
  simp only [cl_parse_scan, dispatched, h, and_self]

theorem scan_cons_consumed_nil (F : FloatParser) (q q1 : Clargs) (tok : CStr)
    (h : cl_parse_tok F q tok ([] : List CStr).head? = .next q1 true) :
    cl_parse_scan F q [tok] = .finished q1 ∧ dispatched F q [tok] = [tok] := by
  simp only [cl_parse_scan, dispatched, h, and_self]

/-- The invariant of the token loop for the Positional specs: the state `q`
has given the tokens `done` to the first Positionals and left the others as
they were in `p`. -/
theorem scan_positionals (F : FloatParser) (p : Clargs) (hfresh : ∀ v ∈ pos_view p, v.1 = 0) :
    ∀ (n : Nat) (rest : List CStr) (q : Clargs) (done : List CStr), rest.length ≤ n →
      q.args.map ident = p.args.map ident →
      pos_view q = done.map filled ++ (pos_view p).drop done.length →
      done.length ≤ (pos_view p).length →
      (∀ tok ∈ dispatched F q rest, ∀ s ∈ looked_up p tok, ¬ names_positional p s) →
      (done.length + (plain_tokens F q rest).length ≤ (pos_view p).length →
        (cl_parse_scan F q rest).All (fun q1 =>
          pos_view q1 = (done ++ plain_tokens F q rest).map filled ++
            (pos_view p).drop (done.length + (plain_tokens F q rest).length))) ∧
      (done.length + (plain_tokens F q rest).length > (pos_view p).length →
        ∃ pre t q1, plain_tokens F q rest = pre ++ [t] ∧
          done.length + pre.length = (pos_view p).length ∧
          cl_parse_scan F q rest = .stopped (.returned (-1) q1 (diag "Unexpected arg " t))) := by
  have base : ∀ (q : Clargs) (done : List CStr),
      pos_view q = done.map filled ++ (pos_view p).drop done.length →
      done.length ≤ (pos_view p).length →
      (done.length + (plain_tokens F q []).length ≤ (pos_view p).length →
        (cl_parse_scan F q []).All (fun q1 =>
          pos_view q1 = (done ++ plain_tokens F q []).map filled ++
            (pos_view p).drop (done.length + (plain_tokens F q []).length))) ∧
      (done.length + (plain_tokens F q []).length > (pos_view p).length →
        ∃ pre t q1, plain_tokens F q [] = pre ++ [t] ∧
          done.length + pre.length = (pos_view p).length ∧
          cl_parse_scan F q [] = .stopped (.returned (-1) q1 (diag "Unexpected arg " t))) := by
    intro q done hview hle
    have hpt : plain_tokens F q [] = [] := rfl
    rw [hpt]
    refine ⟨fun _ => ?_, fun h => ?_⟩
    · show pos_view q = _
      simpa using hview
    · simp at h; omega
  intro n
  induction n with
  | zero =>
    intro rest q done hn _ hview hle _
    have : rest = [] := List.length_eq_zero.1 (by omega)
    subst this
    exact base q done hview hle
  | succ n ih =>
    intro rest q done hn hident hview hle hnames
    cases rest with
    | nil => exact base q done hview hle
    | cons tok rest =>
      have hn1 : rest.length ≤ n := by simpa using hn
      have hmem : tok ∈ dispatched F q (tok :: rest) := by
        rw [dispatched]; exact List.mem_cons_self _ _
      by_cases hpl : is_plain tok = true
      · have hstep := cl_parse_tok_plain F q tok rest.head? hpl
        have htail : ∀ v ∈ (pos_view p).drop done.length, v.1 = 0 :=
          fun v hv => hfresh v (List.mem_of_mem_drop hv)
        have hspec := cl_assign_pos_spec tok q.args done _ hview htail
        by_cases hlt : done.length < (pos_view p).length
        · obtain ⟨l1, hl1, hv, hid⟩ := hspec.2 _ _ (List.drop_eq_getElem_cons hlt)
          have hstep1 : cl_parse_tok F q tok rest.head? = .next { q with args := l1 } false := by
            rw [hstep, cl_parse_pos, hl1]
          obtain ⟨hs, hd⟩ := scan_cons_next F q _ tok rest hstep1
          have hpt : plain_tokens F q (tok :: rest) =
              tok :: plain_tokens F { q with args := l1 } rest := by
            unfold plain_tokens
            rw [hd, List.filter_cons, if_pos hpl]
          have hlen1 : (done ++ [tok]).length = done.length + 1 := by simp
          obtain ⟨ihA, ihB⟩ := ih rest { q with args := l1 } (done ++ [tok]) hn1
            (hid.trans hident) (by rw [hlen1]; exact hv) (by rw [hlen1]; omega)
            (fun tok1 h1 => hnames tok1 (by rw [hd]; exact List.mem_cons_of_mem _ h1))
          have e1 : done ++ tok :: plain_tokens F { q with args := l1 } rest =
              (done ++ [tok]) ++ plain_tokens F { q with args := l1 } rest := by simp
          have e2 : done.length + (tok :: plain_tokens F { q with args := l1 } rest).length =
              (done ++ [tok]).length + (plain_tokens F { q with args := l1 } rest).length := by
            simp; omega
          rw [hpt, hs, e1, e2]
          refine ⟨ihA, fun h => ?_⟩
          obtain ⟨pre, t, q1, hpre, hlen, hscan⟩ := ihB h
          refine ⟨tok :: pre, t, q1, by rw [hpre]; rfl, ?_, hscan⟩
          rw [← hlen, hlen1]; simp; omega
        · have hnil : (pos_view p).drop done.length = [] :=
            List.drop_eq_nil_of_le (by omega)
          have hnone := hspec.1 hnil
          have hstep1 : cl_parse_tok F q tok rest.head? =
              .stop (.returned (-1) q (diag "Unexpected arg " tok)) := by
            rw [hstep, cl_parse_pos, hnone]
          obtain ⟨hs, hd⟩ := scan_cons_stop F q tok rest _ hstep1
          have hpt : plain_tokens F q (tok :: rest) = [tok] := by
            unfold plain_tokens
            rw [hd, List.filter_cons, if_pos hpl]; rfl
          rw [hpt, hs]
          refine ⟨fun h => ?_, fun _ => ⟨[], tok, q, rfl, by simp; omega, rfl⟩⟩
          simp at h; omega
      · have hpl1 : is_plain tok = false := by simpa using hpl
        have hn_q : ∀ s ∈ looked_up q tok, ¬ names_positional q s := by
          intro s hs hnp
          rw [looked_up_congr hident] at hs
          exact hnames tok hmem s hs (names_positional_congr hident s hnp)
        have hkeep := cl_parse_tok_option_keeps F q tok rest.head? hpl1 hn_q
        have hview_of : ∀ q1, keeps_positionals q q1 →
            pos_view q1 = done.map filled ++ (pos_view p).drop done.length := by
          intro q1 hk
          rw [← hview]
          unfold pos_view
          rw [hk.1]
        cases hstep : cl_parse_tok F q tok rest.head? with
        | stop r =>
          rw [hstep] at hkeep
          obtain ⟨hs, hd⟩ := scan_cons_stop F q tok rest r hstep
          have hpt : plain_tokens F q (tok :: rest) = [] := by
            unfold plain_tokens
            rw [hd, List.filter_cons, if_neg hpl]; rfl
          rw [hpt, hs]
          refine ⟨fun _ => ?_, fun h => by simp at h; omega⟩
          exact parseResult_all_imp (fun q1 hk => by simpa using hview_of q1 hk) hkeep
        | next q1 c =>
          rw [hstep] at hkeep
          have hk : keeps_positionals q q1 := hkeep
          cases c with
          | false =>
            obtain ⟨hs, hd⟩ := scan_cons_next F q q1 tok rest hstep
            have hpt : plain_tokens F q (tok :: rest) = plain_tokens F q1 rest := by
              unfold plain_tokens
              rw [hd, List.filter_cons, if_neg hpl]
            rw [hpt, hs]
            exact ih rest q1 done hn1 (hk.2.trans hident) (hview_of q1 hk) hle
              (fun tok1 h1 => hnames tok1 (by rw [hd]; exact List.mem_cons_of_mem _ h1))
          | true =>
            cases rest with
            | nil =>
              obtain ⟨hs, hd⟩ := scan_cons_consumed_nil F q q1 tok hstep
              have hpt : plain_tokens F q [tok] = [] := by
                unfold plain_tokens
                rw [hd, List.filter_cons, if_neg hpl]; rfl
              rw [hpt, hs]
              refine ⟨fun _ => ?_, fun h => by simp at h; omega⟩
              show pos_view q1 = _
              simpa using hview_of q1 hk
            | cons v rest1 =>
              obtain ⟨hs, hd⟩ := scan_cons_consumed F q q1 tok v rest1 hstep
              have hpt : plain_tokens F q (tok :: v :: rest1) = plain_tokens F q1 rest1 := by
                unfold plain_tokens
                rw [hd, List.filter_cons, if_neg hpl]
              rw [hpt, hs]
              exact ih rest1 q1 done (by simp at hn1; omega) (hk.2.trans hident)
                (hview_of q1 hk) hle
                (fun tok1 h1 => hnames tok1 (by rw [hd]; exact List.mem_cons_of_mem _ h1))

theorem slots_filled_of_view (p q : Clargs) (ts : List CStr)
    (hfresh : ∀ v ∈ pos_view p, v.1 = 0)
    (hview : pos_view q = ts.map filled ++ (pos_view p).drop ts.length) :
    slots_filled ts q := by
  intro j Pj hj
  have h1 : (pos_view q)[j]? = some (Pj.present, Pj.val_str) := by
    unfold pos_view
    rw [List.getElem?_map, hj]
    rfl
  rw [hview] at h1
  constructor
  · intro t ht
    have hlt : j < ts.length := (List.getElem?_eq_some.1 ht).1
    rw [List.getElem?_append_left (by simpa using hlt), List.getElem?_map, ht] at h1
    simp only [Option.map_some', filled, Option.some.injEq, Prod.mk.injEq] at h1
    exact ⟨h1.1.symm, h1.2.symm⟩
  · intro hle
    rw [List.getElem?_append_right (by simpa using hle)] at h1
    have := hfresh _ (List.mem_of_mem_drop (List.getElem?_mem h1))
    exact this

/-- Positional slot assignment from any registry whose Positional specs are
not present.  Let the Positional specs of the registry
be P1..Pk in registration order, and let t1..tm be the
plain tokens of the argument vector: the tokens the loop dispatches that are
neither help, nor options, nor consumed as values; and let no dispatched
option token look up a name that resolves to a Positional.  If m ≤ k, then in
the registry the token loop leaves (however it ends), Pj is present with
`val_str` = tj for j ≤ m and Pj is not present for j > m.  If m > k, then
m = k + 1 and `cl_parse` returns -1 at t(k+1) ("Unexpected arg"). -/
theorem positional_slots_general (F : FloatParser) (p : Clargs) (argv : List CStr)
    (hfresh : ∀ a ∈ p.args, a.kind = ARG_POSITIONAL → a.present = 0)
    (hnames : ∀ tok ∈ dispatched F (cl_parse_prog p argv) (argv.drop 1),
      ∀ s ∈ looked_up p tok, ¬ names_positional p s) :
    ((plain_tokens F (cl_parse_prog p argv) (argv.drop 1)).length ≤ (positionals p).length →
      (cl_parse_scan F (cl_parse_prog p argv) (argv.drop 1)).All
        (slots_filled (plain_tokens F (cl_parse_prog p argv) (argv.drop 1)))) ∧
    ((plain_tokens F (cl_parse_prog p argv) (argv.drop 1)).length > (positionals p).length →
      ∃ pre t q, plain_tokens F (cl_parse_prog p argv) (argv.drop 1) = pre ++ [t] ∧
        pre.length = (positionals p).length ∧
        cl_parse F p argv = .returned (-1) q (diag "Unexpected arg " t)) := by
  have hargs := cl_parse_prog_args p argv
  have hview0 : pos_view (cl_parse_prog p argv) = pos_view p := by
    unfold pos_view positionals; rw [hargs]
  have hfresh1 : ∀ v ∈ pos_view p, v.1 = 0 := by
    intro v hv
    unfold pos_view at hv
    obtain ⟨a, ha, rfl⟩ := List.mem_map.1 hv
    unfold positionals at ha
    obtain ⟨ha1, ha2⟩ := List.mem_filter.1 ha
    exact hfresh a ha1 (by simpa using ha2)
  have hlenk : (pos_view p).length = (positionals p).length := by
    unfold pos_view; simp
  obtain ⟨hA, hB⟩ := scan_positionals F p hfresh1 _ (argv.drop 1) (cl_parse_prog p argv) []
    (Nat.le_refl _) (by rw [hargs]) (by simpa using hview0) (by simp) hnames
  constructor
  · intro hle
    have h1 := hA (by simpa [hlenk] using hle)
    cases hs : cl_parse_scan F (cl_parse_prog p argv) (argv.drop 1) with
    | finished q =>
      rw [hs] at h1
      exact slots_filled_of_view p q _ hfresh1 (by simpa using h1)
    | stopped r =>
      rw [hs] at h1
      exact parseResult_all_imp
        (fun q hq => slots_filled_of_view p q _ hfresh1 (by simpa using hq)) h1
  · intro hgt
    obtain ⟨pre, t, q, hpre, hlen, hscan⟩ := hB (by simpa [hlenk] using hgt)
    refine ⟨pre, t, q, hpre, by simpa [hlenk] using hlen, ?_⟩
    simp only [cl_parse, hscan]

/-- C3. Positional slot assignment.  On a registry built by `cl_create` and
`cl_add_*`, let the Positional specs be P1..Pk in registration order
(options may be registered between them), and let t1..tm be the plain tokens
of the argument vector: the tokens the loop dispatches that are neither help,
nor options, nor consumed as values; and let no dispatched option token look
up a name that resolves to a Positional.  If m ≤ k, then in the registry the
token loop leaves (however it ends), Pj is present with `val_str` = tj for
j ≤ m and Pj is not present for j > m.  If m > k, then m = k + 1 and
`cl_parse` returns -1 at t(k+1) ("Unexpected arg"). -/
theorem positional_slot_assignment (F : FloatParser) (prog desc : Option CStr)
    (calls : List AddCall) (argv : List CStr)
    (hnames : ∀ tok ∈ dispatched F (cl_parse_prog (build prog desc calls) argv) (argv.drop 1),
      ∀ s ∈ looked_up (build prog desc calls) tok,
        ¬ names_positional (build prog desc calls) s) :
    ((plain_tokens F (cl_parse_prog (build prog desc calls) argv) (argv.drop 1)).length
        ≤ (positionals (build prog desc calls)).length →
      (cl_parse_scan F (cl_parse_prog (build prog desc calls) argv) (argv.drop 1)).All
        (slots_filled
          (plain_tokens F (cl_parse_prog (build prog desc calls) argv) (argv.drop 1)))) ∧
    ((plain_tokens F (cl_parse_prog (build prog desc calls) argv) (argv.drop 1)).length
        > (positionals (build prog desc calls)).length →
      ∃ pre t q,
        plain_tokens F (cl_parse_prog (build prog desc calls) argv) (argv.drop 1)
          = pre ++ [t] ∧
        pre.length = (positionals (build prog desc calls)).length ∧
        cl_parse F (build prog desc calls) argv =
          .returned (-1) q (diag "Unexpected arg " t)) :=
  positional_slots_general F (build prog desc calls) argv
    (fun a ha _ => (build_fresh prog desc calls a ha).present) hnames

theorem not_names_positional_of (p : Clargs) (s : CStr) (i : Nat) (k : ArgKind)
    (h0 : cl_find_idx p (some s) = .ok (i : Int))
    (h1 : (p.args[i]?).map Clarg.kind = some k) (hk : k ≠ ARG_POSITIONAL) :
    ¬ names_positional p s := by
  rintro ⟨j, a, ⟨hf, hget⟩, hka⟩
  rw [h0] at hf
  have hij : i = j := by
    injection hf with h
    omega
  subst hij
  rw [hget] at h1
  simp only [Option.map_some', Option.some.injEq] at h1
  exact hk (h1 ▸ hka)

/-- C3, instance: with a flag `-v`, a positional `src`, an Int option `-n` and a
positional `dst`, the vector `prog -v foo.txt -n 5 bar.txt` has the plain
tokens `foo.txt` and `bar.txt` (`5` is consumed as the value of `-n`); they go
to `src` and `dst`.  And with the positionals `src`, `dst` alone, the vector
`prog foo.txt bar.txt` gives `src` = `foo.txt`, `dst` = `bar.txt`, while a
third plain token makes `cl_parse` return -1. -/
theorem positional_slot_assignment_witness :
    (∀ tok ∈ dispatched F0 (cl_parse_prog reg_mixed argv_mixed) (argv_mixed.drop 1),
      ∀ s ∈ looked_up reg_mixed tok, ¬ names_positional reg_mixed s) ∧
    plain_tokens F0 (cl_parse_prog reg_mixed argv_mixed) (argv_mixed.drop 1) =
      ["foo.txt".toList, "bar.txt".toList] ∧
    (((plain_tokens F0 (cl_parse_prog reg_mixed argv_mixed) (argv_mixed.drop 1)).length
        ≤ (positionals reg_mixed).length →
      (cl_parse_scan F0 (cl_parse_prog reg_mixed argv_mixed) (argv_mixed.drop 1)).All
        (slots_filled
          (plain_tokens F0 (cl_parse_prog reg_mixed argv_mixed) (argv_mixed.drop 1)))) ∧
    ((plain_tokens F0 (cl_parse_prog reg_mixed argv_mixed) (argv_mixed.drop 1)).length
        > (positionals reg_mixed).length →
      ∃ pre t q,
        plain_tokens F0 (cl_parse_prog reg_mixed argv_mixed) (argv_mixed.drop 1) = pre ++ [t] ∧
        pre.length = (positionals reg_mixed).length ∧
        cl_parse F0 reg_mixed argv_mixed = .returned (-1) q (diag "Unexpected arg " t))) ∧
    (∃ q, cl_parse F0 reg_mixed argv_mixed = .returned 0 q [] ∧
      q.args.map Clarg.val_str = [none, some "foo.txt".toList, none, some "bar.txt".toList] ∧
      q.args.map Clarg.present = [1, 1, 1, 1] ∧ q.args.map Clarg.val_int = [0, 0, 5, 0]) ∧
    (∃ q, cl_parse F0 reg_src_dst ["prog".toList, "foo.txt".toList, "bar.txt".toList] =
        .returned 0 q [] ∧
      q.args.map Clarg.val_str = [some "foo.txt".toList, some "bar.txt".toList]) ∧
    (∃ q, cl_parse F0 reg_src_dst
        ["prog".toList, "foo.txt".toList, "bar.txt".toList, "baz".toList] =
      .returned (-1) q (diag "Unexpected arg " "baz".toList)) := by
  have hd : dispatched F0 (cl_parse_prog reg_mixed argv_mixed) (argv_mixed.drop 1) =
      ["-v".toList, "foo.txt".toList, "-n".toList, "bar.txt".toList] := by decide
  have hnames : ∀ tok ∈ dispatched F0 (cl_parse_prog reg_mixed argv_mixed) (argv_mixed.drop 1),
      ∀ s ∈ looked_up reg_mixed tok, ¬ names_positional reg_mixed s := by
    intro tok htok s hs
    rw [hd] at htok
    simp only [List.mem_cons, List.mem_singleton, List.not_mem_nil, or_false] at htok
    rcases htok with rfl | rfl | rfl | rfl
    · have hl : looked_up reg_mixed "-v".toList = [['v']] := by decide
      rw [hl] at hs
      have hs1 : s = ['v'] := by simpa using hs
      subst hs1
      exact not_names_positional_of reg_mixed ['v'] 0 ARG_FLAG (by decide) (by decide)
        (by decide)
    · have hl : looked_up reg_mixed "foo.txt".toList = [] := by decide
      rw [hl] at hs
      exact absurd hs (List.not_mem_nil _)
    · have hl : looked_up reg_mixed "-n".toList = [['n']] := by decide
      rw [hl] at hs
      have hs1 : s = ['n'] := by simpa using hs
      subst hs1
      exact not_names_positional_of reg_mixed ['n'] 2 ARG_INT (by decide) (by decide)
        (by decide)
    · have hl : looked_up reg_mixed "bar.txt".toList = [] := by decide
      rw [hl] at hs
      exact absurd hs (List.not_mem_nil _)
  exact ⟨hnames, by decide,
    positional_slot_assignment F0 none none calls_mixed argv_mixed hnames,
    ⟨_, rfl, by decide, by decide, by decide⟩, ⟨_, rfl, by decide⟩, ⟨_, rfl⟩⟩

/-! ## An iteration takes `argv[i+1]` only when it exists -/

theorem cl_parse_value_consumed (F : FloatParser) (q q1 : Clargs) (idx : Nat) (a : Clarg)
    (val opt : CStr) (c : Bool) (h : cl_parse_value F q idx a val opt c = .next q1 true) :
    c = true := by
  unfold cl_parse_value at h
  split at h
  · exact absurd h (by simp)
  · injection h with _ h

theorem cl_parse_cluster_consumed (F : FloatParser) :
    ∀ (cs : List Char) (q q1 : Clargs),
      cl_parse_cluster F none q cs ≠ .next q1 true := by
  intro cs
  induction cs with
  | nil => intro q q1 h; simp [cl_parse_cluster] at h
  | cons ch more ih =>
    intro q q1 h
    rw [cl_parse_cluster] at h
    split at h
    · exact absurd h (by simp)
    · split at h
      · exact absurd h (by simp)
      · split at h
        · exact absurd h (by simp)
        · simp only [] at h
          split at h
          · exact ih _ _ h
          · split at h
            · exact absurd (cl_parse_value_consumed F _ _ _ _ _ _ _ h) (by decide)
            · exact absurd h (by simp)

/-- The iteration for the last vector element never reports that it consumed
a following element: with `i+1 >= argc` a missing value is an error. -/
theorem cl_parse_tok_consumed (F : FloatParser) (q q1 : Clargs) (tok : CStr) :
    cl_parse_tok F q tok none ≠ .next q1 true := by
  intro h
  unfold cl_parse_tok at h
  split at h
  · split at h <;> exact Step.noConfusion h
  · split at h
    · split at h
      · unfold cl_parse_long at h
        simp only [] at h
        split at h
        · exact absurd h (by simp)
        · split at h
          · exact absurd h (by simp)
          · split at h
            · exact absurd h (by simp)
            · split at h
              · exact absurd h (by simp)
              · split at h
                · exact absurd h (by simp)
                · split at h
                  · exact absurd (cl_parse_value_consumed F _ _ _ _ _ _ _ h) (by decide)
                  · exact absurd h (by simp)
                  · rename_i hn
                    exact absurd hn (by simp)
      · split at h
        · exact cl_parse_cluster_consumed F _ _ _ h
        · unfold cl_parse_pos at h
          split at h
          · exact absurd h (by simp)
          · exact absurd h (by simp)
    · unfold cl_parse_pos at h
      split at h
      · exact absurd h (by simp)
      · exact absurd h (by simp)

/-! ## Registration appends -/

theorem cl_push_spec (p : Clargs) (a : Clarg) :
    (cl_push p a).2 = (p.count : Int) ∧ (cl_push p a).1.cap = (cl_grow p).cap := by
  unfold cl_push cl_grow Clargs.count
  split <;> simp

theorem run_registers (c : AddCall) (p : Clargs) :
    ∃ a, (c.run p).1.args = p.args ++ [a] ∧ c.registers a ∧
      (c.run p).2 = (p.count : Int) ∧ (c.run p).1.cap = (cl_grow p).cap := by
  cases c <;>
    exact ⟨_, cl_push_args _ _, by simp [AddCall.registers, make_arg],
      (cl_push_spec _ _).1, (cl_push_spec _ _).2⟩

theorem build_snoc (prog desc : Option CStr) (calls : List AddCall) (c : AddCall) :
    build prog desc (calls ++ [c]) = (c.run (build prog desc calls)).1 := by
  simp [build, List.foldl_append]

theorem build_registers (prog desc : Option CStr) (calls : List AddCall) :
    (build prog desc calls).count = calls.length ∧
    ∀ (i : Nat) (c : AddCall), calls[i]? = some c →
      ∃ a, (build prog desc calls).args[i]? = some a ∧ c.registers a := by
  induction calls using List.reverseRecOn with
  | nil => exact ⟨rfl, fun i c h => by simp at h⟩
  | append_singleton calls c0 ih =>
    obtain ⟨a0, hargs, hreg, _, _⟩ := run_registers c0 (build prog desc calls)
    obtain ⟨hcount, hall⟩ := ih
    have hlen : (build prog desc calls).args.length = calls.length := hcount
    rw [build_snoc]
    refine ⟨?_, ?_⟩
    · unfold Clargs.count
      rw [hargs]
      simp [hlen]
    · intro i c hc
      rw [hargs]
      by_cases hi : i < calls.length
      · rw [List.getElem?_append_left hi] at hc
        obtain ⟨a, ha, hr⟩ := hall i c hc
        exact ⟨a, by rw [List.getElem?_append_left (by rw [hlen]; exact hi)]; exact ha, hr⟩
      · have hi2 : calls.length ≤ i := by omega
        rw [List.getElem?_append_right hi2] at hc
        have hi3 : i - calls.length = 0 := by
          by_contra hne
          have : ([c0] : List AddCall)[i - calls.length]? = none := by
            apply List.getElem?_eq_none
            simp; omega
          rw [this] at hc
          exact absurd hc (by simp)
        rw [hi3] at hc
        have hc0 : c0 = c := by simpa using hc
        subst hc0
        refine ⟨a0, ?_, hreg⟩
        rw [List.getElem?_append_right (by rw [hlen]; exact hi2), hlen, hi3]
        rfl

/-- C14. Append-only registration.  Every `cl_add_*` call returns the value
`count` had before the call, increases `count` by one, stores in that slot a
spec with `present` = 0 whose value field holds the given default, and leaves
every earlier spec in its slot.  So on a registry obtained from `cl_create` by
n registrations, `count` = n, the next registration returns n, and slot i
holds the spec of the (i+1)-th registration. -/
theorem append_only_registration (p : Clargs) (c : AddCall) :
    (c.run p).2 = (p.count : Int) ∧
    (c.run p).1.count = p.count + 1 ∧
    (∃ a, (c.run p).1.args[p.count]? = some a ∧ c.registers a ∧ holds_default a) ∧
    (∀ (i : Nat) (b : Clarg), p.args[i]? = some b → (c.run p).1.args[i]? = some b) ∧
    (∀ (prog desc : Option CStr) (calls : List AddCall),
      (build prog desc calls).count = calls.length ∧
      (c.run (build prog desc calls)).2 = (calls.length : Int) ∧
      ∀ (i : Nat) (c1 : AddCall), calls[i]? = some c1 →
        ∃ a, (build prog desc calls).args[i]? = some a ∧ c1.registers a) := by
  obtain ⟨a, hargs, hreg, hret, _⟩ := run_registers c p
  obtain ⟨a1, hargs1, hfresh, _⟩ := run_args c p
  have ha : a1 = a := by
    have := hargs1.symm.trans hargs
    simpa using this
  subst ha
  refine ⟨hret, ?_, ⟨a1, ?_, hreg, hfresh.dflt⟩, ?_, ?_⟩
  · unfold Clargs.count; rw [hargs]; simp
  · unfold Clargs.count; rw [hargs]; simp
  · intro i b hb
    have hi : i < p.args.length := (List.getElem?_eq_some.1 hb).1
    rw [hargs, List.getElem?_append_left hi]
    exact hb
  · intro prog desc calls
    obtain ⟨hcount, hall⟩ := build_registers prog desc calls
    obtain ⟨_, _, _, hret2, _⟩ := run_registers c (build prog desc calls)
    exact ⟨hcount, by rw [hret2, hcount], hall⟩

/-! ## Capacity -/

theorem cl_grow_spec (p : Clargs) :
    (cl_grow p).args = p.args ∧
    (cl_grow p).cap = if p.count ≥ p.cap then p.cap * 2 else p.cap := by
  unfold cl_grow
  split <;> simp [*]

/-- The capacity after n registrations: `cap` = 8 * 2^k for the least k with
n ≤ 8 * 2^k. -/
theorem build_cap (prog desc : Option CStr) (calls : List AddCall) :
    ∃ k, (build prog desc calls).cap = 8 * 2 ^ k ∧ calls.length ≤ 8 * 2 ^ k ∧
      ∀ j, j < k → 8 * 2 ^ j < calls.length := by
  induction calls using List.reverseRecOn with
  | nil => exact ⟨0, rfl, by simp, fun j hj => by omega⟩
  | append_singleton calls c ih =>
    obtain ⟨k, hcap, hle, hleast⟩ := ih
    obtain ⟨_, _, _, _, hcap1⟩ := run_registers c (build prog desc calls)
    have hcount := (build_registers prog desc calls).1
    rw [build_snoc, hcap1, (cl_grow_spec _).2, hcount, hcap]
    simp only [List.length_append, List.length_singleton]
    by_cases hfull : calls.length ≥ 8 * 2 ^ k
    · rw [if_pos hfull]
      have hpos : 0 < 2 ^ k := Nat.two_pow_pos k
      refine ⟨k + 1, by rw [Nat.pow_succ]; omega, by rw [Nat.pow_succ]; omega, ?_⟩
      intro j hj
      have hjk : j ≤ k := by omega
      have hpow : 2 ^ j ≤ 2 ^ k := Nat.pow_le_pow_right (by omega) hjk
      omega
    · rw [if_neg hfull]
      refine ⟨k, rfl, by omega, ?_⟩
      intro j hj
      have := hleast j hj
      omega

/-- C20. Capacity invariant.  `cl_create` gives `cap` = 8 and `count` = 0.
After n registrations `count` = n, `count` ≤ `cap`, and `cap` = 8 * 2^k for
the least k with n ≤ 8 * 2^k.  `cl_grow` doubles `cap` exactly when `count` ≥
`cap`, so in the next registration the slot written, `args[count]`, lies
below the capacity the registry has at the moment of the write. -/
theorem capacity_invariant (prog desc : Option CStr) (calls : List AddCall) :
    (cl_create prog desc).cap = 8 ∧ (cl_create prog desc).count = 0 ∧
    (build prog desc calls).count = calls.length ∧
    (build prog desc calls).count ≤ (build prog desc calls).cap ∧
    (∃ k, (build prog desc calls).cap = 8 * 2 ^ k ∧ calls.length ≤ 8 * 2 ^ k ∧
      ∀ j, j < k → 8 * 2 ^ j < calls.length) ∧
    ((cl_grow (build prog desc calls)).cap =
      if (build prog desc calls).count ≥ (build prog desc calls).cap
      then (build prog desc calls).cap * 2 else (build prog desc calls).cap) ∧
    (cl_grow (build prog desc calls)).count = (build prog desc calls).count ∧
    (cl_grow (build prog desc calls)).count < (cl_grow (build prog desc calls)).cap ∧
    ∀ c : AddCall, (c.run (build prog desc calls)).1.cap =
      (cl_grow (build prog desc calls)).cap := by
  obtain ⟨k, hcap, hle, hleast⟩ := build_cap prog desc calls
  have hcount := (build_registers prog desc calls).1
  have hg := cl_grow_spec (build prog desc calls)
  have hgc : (cl_grow (build prog desc calls)).count = (build prog desc calls).count := by
    unfold Clargs.count; rw [hg.1]
  have hpos : 0 < 2 ^ k := Nat.two_pow_pos k
  refine ⟨rfl, rfl, hcount, by rw [hcount, hcap]; exact hle, ⟨k, hcap, hle, hleast⟩, hg.2,
    hgc, ?_, fun c => ?_⟩
  · rw [hgc, hg.2, hcount, hcap]
    split <;> omega
  · obtain ⟨_, _, _, _, h⟩ := run_registers c (build prog desc calls)
    exact h

/-! ## Scanning a prefix of the vector -/

theorem cl_parse_long_next_indep (F : FloatParser) (p q : Clargs) (tok body : CStr)
    (c : Bool) (nxt : Option CStr) (h : cl_parse_long F p tok body none = .next q c) :
    cl_parse_long F p tok body nxt = .next q c := by
  unfold cl_parse_long at h ⊢
  simp only [] at h ⊢
  split
  · rename_i h1
    rw [if_pos h1] at h
    exact h
  · rename_i h1
    rw [if_neg h1] at h
    split
    · rename_i hf
      rw [hf] at h
      exact h
    · rename_i idx hf
      rw [hf] at h
      simp only [] at h
      split
      · rename_i h2
        rw [if_pos h2] at h
        exact h
      · rename_i h2
        rw [if_neg h2] at h
        split
        · rename_i hg
          rw [hg] at h
          exact h
        · rename_i a0 hg
          rw [hg] at h
          simp only [] at h
          split
          · rename_i h3
            rw [if_pos h3] at h
            exact h
          · rename_i h3
            rw [if_neg h3] at h
            cases hval : (match List.dropWhile (fun c => decide (c ≠ '=')) body with
              | [] => (none : Option CStr)
              | _ :: v => some v) with
            | none =>
              rw [hval] at h
              exact absurd h (by simp)
            | some v =>
              rw [hval] at h
              cases nxt <;> exact h

theorem cl_parse_cluster_next_indep (F : FloatParser) (nxt : Option CStr) :
    ∀ (cs : List Char) (p q : Clargs) (c : Bool),
      cl_parse_cluster F none p cs = .next q c → cl_parse_cluster F nxt p cs = .next q c := by
  intro cs
  induction cs with
  | nil => intro p q c h; rw [cl_parse_cluster] at h ⊢; exact h
  | cons ch more ih =>
    intro p q c h
    rw [cl_parse_cluster] at h ⊢
    split
    · rename_i hf
      rw [hf] at h
      exact h
    · rename_i idx hf
      rw [hf] at h
      simp only [] at h
      split
      · rename_i h2
        rw [if_pos h2] at h
        exact h
      · rename_i h2
        rw [if_neg h2] at h
        split
        · rename_i hg
          rw [hg] at h
          exact h
        · rename_i a0 hg
          rw [hg] at h
          simp only [] at h ⊢
          split
          · rename_i h3
            rw [if_pos h3] at h
            exact ih _ _ _ h
          · rename_i h3
            rw [if_neg h3] at h
            split
            · rename_i h4
              rw [if_pos h4] at h
              exact h
            · rename_i h4
              rw [if_neg h4] at h
              exact absurd h (by simp)

/-- An iteration that goes on without a following vector element goes on in
the same way whatever follows. -/
theorem cl_parse_tok_next_indep (F : FloatParser) (p q : Clargs) (tok : CStr) (c : Bool)
    (nxt : Option CStr) (h : cl_parse_tok F p tok none = .next q c) :
    cl_parse_tok F p tok nxt = .next q c := by
  unfold cl_parse_tok at h ⊢
  split
  · rename_i h1
    rw [if_pos h1] at h
    exact h
  · rename_i h1
    rw [if_neg h1] at h
    split
    · simp only [] at h
      split
      · rename_i h2
        rw [if_pos h2] at h
        exact cl_parse_long_next_indep F _ _ _ _ _ _ h
      · rename_i h2
        rw [if_neg h2] at h
        split
        · rename_i h3
          rw [if_pos h3] at h
          exact cl_parse_cluster_next_indep F nxt _ _ _ _ h
        · rename_i h3
          rw [if_neg h3] at h
          exact h
    · rename_i hform
      split at h
      · rename_i c0 c1 body
        exact absurd rfl (hform c0 c1 body)
      · exact h

/-- If the token loop runs through `pre` to the end, then on `pre` followed by
`more` it runs through `pre` in the same way and goes on with `more`. -/
theorem cl_parse_scan_append (F : FloatParser) (more : List CStr) :
    ∀ (n : Nat) (pre : List CStr) (p q : Clargs), pre.length ≤ n →
      cl_parse_scan F p pre = .finished q →
      cl_parse_scan F p (pre ++ more) = cl_parse_scan F q more := by
  intro n
  induction n with
  | zero =>
    intro pre p q hn h
    have : pre = [] := List.length_eq_zero.1 (by omega)
    subst this
    rw [cl_parse_scan] at h
    injection h with h
    subst h
    rfl
  | succ n ih =>
    intro pre p q hn h
    cases pre with
    | nil =>
      rw [cl_parse_scan] at h
      injection h with h
      subst h
      rfl
    | cons tok rest =>
      have hn1 : rest.length ≤ n := by simpa using hn
      cases hstep : cl_parse_tok F p tok rest.head? with
      | stop r =>
        rw [(scan_cons_stop F p tok rest r hstep).1] at h
        exact absurd h (by simp)
      | next p1 c =>
        cases rest with
        | nil =>
          have hstep0 : cl_parse_tok F p tok none = .next p1 c := hstep
          cases c with
          | true => exact absurd hstep0 (cl_parse_tok_consumed F p p1 tok)
          | false =>
            rw [(scan_cons_next F p p1 tok [] hstep).1, cl_parse_scan] at h
            injection h with h
            subst h
            have h2 := cl_parse_tok_next_indep F p p1 tok false more.head? hstep0
            exact (scan_cons_next F p p1 tok more h2).1
        | cons v rest1 =>
          have hhead : ((v :: rest1) ++ more).head? = (v :: rest1).head? := rfl
          cases c with
          | false =>
            rw [(scan_cons_next F p p1 tok (v :: rest1) hstep).1] at h
            have h2 : cl_parse_tok F p tok ((v :: rest1) ++ more).head? = .next p1 false := by
              rw [hhead]; exact hstep
            rw [List.cons_append, (scan_cons_next F p p1 tok ((v :: rest1) ++ more) h2).1]
            exact ih (v :: rest1) p1 q hn1 h
          | true =>
            rw [(scan_cons_consumed F p p1 tok v rest1 hstep).1] at h
            have h2 : cl_parse_tok F p tok (v :: (rest1 ++ more)).head? = .next p1 true := hstep
            rw [List.cons_append, List.cons_append,
              (scan_cons_consumed F p p1 tok v (rest1 ++ more) h2).1]
            exact ih rest1 p1 q (by simp at hn1; omega) h

/-! ## The token loop keeps names and kinds -/

theorem same_ident_set_arg {p q : Clargs} (idx : Nat) (a0 a1 : Clarg) (h : same_ident p q)
    (h0 : q.args[idx]? = some a0) (h1 : ident a1 = ident a0) :
    same_ident p (set_arg q idx a1) :=
  (map_ident_set q.args idx a0 a1 h0 h1).trans h

theorem cl_parse_value_ident (F : FloatParser) {p q : Clargs} (idx : Nat) (a0 : Clarg)
    (val opt : CStr) (c : Bool) (h : same_ident p q) (h0 : q.args[idx]? = some a0) :
    (cl_parse_value F (set_arg q idx (marked a0)) idx (marked a0) val opt c).All
      (same_ident p) := by
  have hlt : idx < q.args.length := (List.getElem?_eq_some.1 h0).1
  have h1 : same_ident p (set_arg q idx (marked a0)) := same_ident_set_arg idx a0 _ h h0 rfl
  have hget : (set_arg q idx (marked a0)).args[idx]? = some (marked a0) := by
    simp [set_arg, hlt]
  unfold cl_parse_value
  cases hs : cl_store F (marked a0) val opt with
  | error msg => exact h1
  | ok a1 => exact same_ident_set_arg idx (marked a0) a1 h1 hget (cl_store_ident F _ _ _ _ hs)

theorem cl_parse_long_ident (F : FloatParser) {p q : Clargs} (tok body : CStr)
    (nxt : Option CStr) (h : same_ident p q) :
    (cl_parse_long F q tok body nxt).All (same_ident p) := by
  unfold cl_parse_long
  simp only []
  split
  · trivial
  · split
    · trivial
    · split
      · exact h
      · split
        · trivial
        · rename_i a0 hget
          have h1 := same_ident_set_arg _ a0 (marked a0) h hget rfl
          split
          · exact h1
          · split
            · exact cl_parse_value_ident F _ a0 _ _ _ h hget
            · exact h1
            · exact cl_parse_value_ident F _ a0 _ _ _ h hget

theorem cl_parse_cluster_ident (F : FloatParser) (nxt : Option CStr) (p : Clargs) :
    ∀ (cs : List Char) (q : Clargs), same_ident p q →
      (cl_parse_cluster F nxt q cs).All (same_ident p) := by
  intro cs
  induction cs with
  | nil => intro q h; exact h
  | cons ch more ih =>
    intro q h
    rw [cl_parse_cluster]
    split
    · trivial
    · split
      · exact h
      · split
        · trivial
        · rename_i a0 hget
          have h1 := same_ident_set_arg _ a0 (marked a0) h hget rfl
          simp only []
          split
          · exact ih _ h1
          · split
            · exact cl_parse_value_ident F _ a0 _ _ _ h hget
            · split
              · exact h1
              · exact cl_parse_value_ident F _ a0 _ _ _ h hget

theorem cl_assign_pos_ident (tok : CStr) :
    ∀ (l l1 : List Clarg), cl_assign_pos tok l = some l1 → l1.map ident = l.map ident := by
  intro l
  induction l with
  | nil => intro l1 h; simp [cl_assign_pos] at h
  | cons a rest ih =>
    intro l1 h
    rw [cl_assign_pos] at h
    split at h
    · injection h with h
      subst h
      simp [ident]
    · cases hr : cl_assign_pos tok rest with
      | none => rw [hr] at h; simp at h
      | some r =>
        rw [hr] at h
        simp only [Option.map_some'] at h
        injection h with h
        subst h
        simp [ih r hr]

theorem cl_parse_tok_ident (F : FloatParser) {p q : Clargs} (tok : CStr) (nxt : Option CStr)
    (h : same_ident p q) : (cl_parse_tok F q tok nxt).All (same_ident p) := by
  have hpos : (cl_parse_pos q tok).All (same_ident p) := by
    unfold cl_parse_pos
    cases hr : cl_assign_pos tok q.args with
    | none => exact h
    | some l1 => exact (cl_assign_pos_ident tok _ _ hr).trans h
  unfold cl_parse_tok
  split
  · split
    · exact h
    · trivial
  · split
    · split
      · exact cl_parse_long_ident F _ _ _ h
      · split
        · exact cl_parse_cluster_ident F _ p _ q h
        · exact hpos
    · exact hpos

theorem cl_parse_scan_ident (F : FloatParser) (p : Clargs) :
    ∀ (n : Nat) (rest : List CStr) (q : Clargs), rest.length ≤ n → same_ident p q →
      (cl_parse_scan F q rest).All (same_ident p) := by
  intro n
  induction n with
  | zero =>
    intro rest q hn h
    have : rest = [] := List.length_eq_zero.1 (by omega)
    subst this
    exact h
  | succ n ih =>
    intro rest q hn h
    cases rest with
    | nil => exact h
    | cons tok rest =>
      have hn1 : rest.length ≤ n := by simpa using hn
      have hstep := cl_parse_tok_ident F tok rest.head? h
      rw [cl_parse_scan]
      cases hr : cl_parse_tok F q tok rest.head? with
      | stop r => rw [hr] at hstep; exact hstep
      | next q1 consumed =>
        rw [hr] at hstep
        cases consumed with
        | false => exact ih rest q1 hn1 hstep
        | true =>
          cases rest with
          | nil => exact hstep
          | cons _ rest1 => exact ih rest1 q1 (by simp at hn1; omega) hstep

theorem finds_same_ident {p q : Clargs} (h : same_ident p q) {s : CStr} {i : Nat} {a : Clarg}
    (hf : finds p s i a) : ∃ b, finds q s i b ∧ ident b = ident a := by
  have hsym : p.args.map ident = q.args.map ident := h.symm
  have hlt : i < p.args.length := finds_lt hf
  have hlen : q.args.length = p.args.length := by
    have := congrArg List.length h
    simpa using this
  have hq : ∃ b, q.args[i]? = some b := ⟨q.args[i], List.getElem?_eq_getElem (by omega)⟩
  obtain ⟨b, hb⟩ := hq
  obtain ⟨a1, ha1, hid⟩ := getElem?_of_ident h i b hb
  have : a1 = a := by
    have := ha1.symm.trans hf.2
    simpa using this
  subst this
  exact ⟨b, ⟨by rw [cl_find_idx_congr p q _ h]; exact hf.1, hb⟩, hid.symm⟩

theorem finds_flag_same_ident {p q : Clargs} (h : same_ident p q) {f : Char} {i : Nat}
    (hf : finds_flag p f i) : finds_flag q f i := by
  obtain ⟨b, hb, hk⟩ := hf
  obtain ⟨b1, hb1, hid⟩ := finds_same_ident h hb
  refine ⟨b1, hb1, ?_⟩
  have : b1.kind = b.kind := congrArg (fun x => x.2.2) hid
  rw [this]; exact hk

theorem cl_parse_scan_finished_ident (F : FloatParser) (p q : Clargs) (pre : List CStr)
    (h : cl_parse_scan F p pre = .finished q) : same_ident p q := by
  have := cl_parse_scan_ident F p _ pre p (Nat.le_refl _) rfl
  rw [h] at this
  exact this

/-! ## C17: help has dispatch priority -/

theorem cl_parse_cons (F : FloatParser) (p : Clargs) (a0 : CStr) (rest : List CStr) :
    cl_parse F p (a0 :: rest) =
      match cl_parse_scan F { p with prog := a0 } rest with
      | .stopped r => r
      | .finished p1 => cl_parse_sweep p1 := rfl

/-- C17, on the registries whose help text `cl_help` can print: for every
vector `prog :: pre ++ tok :: post` in which the loop gets through the tokens
`pre` without stopping (so that `tok` is reached in dispatch position, in the
state `q`), a token `tok` equal to `--help` or `-h` makes `cl_parse` call
`cl_help` on `q` before any lookup; when `cl_help` returns, `cl_parse` ends
with the help exit of status 0 in the state `q`: nothing is marked by the token
and the tokens `post` are not looked at.  `argv[0]` is not dispatched: it only
replaces the program name, also when it is `--help`. -/
theorem help_dispatch_priority (F : FloatParser) (p : Clargs) (prog : CStr)
    (pre post : List CStr) (tok : CStr) (q : Clargs)
    (htok : tok = "--help".toList ∨ tok = "-h".toList)
    (hreach : cl_parse_scan F { p with prog := prog } pre = .finished q) :
    (cl_parse F p (prog :: (pre ++ tok :: post)) =
      match cl_help q with
      | .ok _ => .exited 0 q
      | .undefined => .undefined) ∧
    (cl_help q = .ok () → cl_parse F p (prog :: (pre ++ tok :: post)) = .exited 0 q) ∧
    (∀ a0 : CStr, cl_parse F p [a0] = cl_parse_sweep { p with prog := a0 }) := by
  have hh : is_help tok = true := by
    rcases htok with h | h <;> subst h <;> rfl
  have hmain : cl_parse F p (prog :: (pre ++ tok :: post)) =
      match cl_help q with
      | .ok _ => .exited 0 q
      | .undefined => .undefined := by
    rw [cl_parse_cons,
      cl_parse_scan_append F (tok :: post) pre.length pre _ q (Nat.le_refl _) hreach]
    cases hc : cl_help q with
    | ok u =>
      have hstep : cl_parse_tok F q tok post.head? = .stop (.exited 0 q) := by
        unfold cl_parse_tok
        rw [if_pos hh, hc]
      rw [(scan_cons_stop F q tok post _ hstep).1]
    | undefined =>
      have hstep : cl_parse_tok F q tok post.head? = .stop .undefined := by
        unfold cl_parse_tok
        rw [if_pos hh, hc]
      rw [(scan_cons_stop F q tok post _ hstep).1]
  refine ⟨hmain, fun hc => ?_, fun a0 => rfl⟩
  rw [hmain, hc]

/-- C17, instance: the registry registers its own Flag `-h` / `--help`; on
`[prog, -n, 5, -h, junk]` the loop stores 5, then exits with status 0 at `-h`
without marking the Flag. -/
theorem help_dispatch_priority_witness :
    ("-h".toList = "--help".toList ∨ "-h".toList = "-h".toList) ∧
    cl_parse_scan F0 { reg_own_help with prog := "prog".toList } ["-n".toList, "5".toList] =
      .finished (set_arg { reg_own_help with prog := "prog".toList } 1
        { marked spec_num with val_int := 5 }) ∧
    cl_help (set_arg { reg_own_help with prog := "prog".toList } 1
      { marked spec_num with val_int := 5 }) = .ok () ∧
    cl_parse F0 reg_own_help
        ("prog".toList :: (["-n".toList, "5".toList] ++ "-h".toList :: ["junk".toList])) =
      .exited 0 (set_arg { reg_own_help with prog := "prog".toList } 1
        { marked spec_num with val_int := 5 }) ∧
    (∀ a0 : CStr, cl_parse F0 reg_own_help [a0] =
      cl_parse_sweep { reg_own_help with prog := a0 }) :=
  have h := help_dispatch_priority F0 reg_own_help "prog".toList ["-n".toList, "5".toList]
    ["junk".toList] "-h".toList _ (Or.inr rfl) (by decide)
  ⟨Or.inr rfl, by decide, by decide, h.2.1 (by decide), h.2.2⟩

set_option maxRecDepth 8000 in
/-- C17. Help has dispatch priority, evaluated where the code breaks it: the
registry has one Flag whose long name is 200 characters long.  Its listing
`--name` does not fit `char buf[128]`, into which `cl_help` writes it with
`sprintf` (line 314); so on `[prog, --help]` and on `[prog, -h]` the help
request is dispatched, but `cl_help` writes past the buffer and the outcome is
undefined, not the help exit with status 0. -/
theorem help_listing_overflow :
    (∃ a, reg_long_listing.args = [a] ∧ a.kind = ARG_FLAG ∧ a.short_name = NUL ∧
      a.long_name = some (List.replicate 200 'a') ∧ cl_help_buf_len a = 202) ∧
    cl_help { reg_long_listing with prog := "prog".toList } = .undefined ∧
    cl_parse F0 reg_long_listing ["prog".toList, "--help".toList] = .undefined ∧
    cl_parse F0 reg_long_listing ["prog".toList, "-h".toList] = .undefined ∧
    cl_parse F0 reg_long_listing ["prog".toList, "--help".toList] ≠
      .exited 0 { reg_long_listing with prog := "prog".toList } :=
  ⟨⟨_, rfl, rfl, rfl, rfl, by decide⟩, by decide, by decide, by decide, by decide⟩

/-! ## C12: a missing value -/

theorem mark_present_of_get (q : Clargs) (idx : Nat) (b : Clarg) (h : q.args[idx]? = some b) :
    mark_present q idx = set_arg q idx (marked b) := by
  unfold mark_present
  rw [h]

theorem ident_kind {a b : Clarg} (h : ident b = ident a) : b.kind = a.kind :=
  congrArg (fun x => x.2.2) h

theorem cl_store_string (F : FloatParser) (a : Clarg) (v opt : CStr) (h : a.kind = ARG_STRING) :
    cl_store F a v opt = .ok { a with val_str := some v } := by
  cases a
  simp only at h
  subst h
  rfl

theorem set_arg_set_arg (q : Clargs) (idx : Nat) (x y : Clarg) :
    set_arg (set_arg q idx x) idx y = set_arg q idx y := by
  simp [set_arg, List.set_set]

/-- C12 (amended). Missing value: let the loop get through the tokens `pre`
without stopping, reaching the state `q`, so that the last token is in dispatch
position.  When the last token is `--L`, with `L` other than `help`, without
`=`, shorter than 128 characters and resolving to a spec that is not a Flag,
`cl_parse` marks that spec and returns -1 with `Missing value for --L`.  When
it is a short cluster other than `-h` that does not start with `--`, whose
characters before the last resolve to Flags and whose last character `c`
resolves to a spec that is not a Flag, `cl_parse` marks those specs and returns
-1 with `Missing value for -c`.  A token `--L=` is not a missing value: the
spec is coerced from the empty string, which a String spec stores. -/
theorem missing_value_rejected (F : FloatParser) (p : Clargs) (prog : CStr)
    (pre : List CStr) (q : Clargs)
    (hreach : cl_parse_scan F { p with prog := prog } pre = .finished q) :
    (∀ (L : CStr) (idx : Nat) (a : Clarg), L ≠ "help".toList → '=' ∉ L → L.length < 128 →
      finds p L idx a → a.kind ≠ ARG_FLAG →
      cl_parse F p (prog :: (pre ++ [ '-' :: '-' :: L ])) =
        .returned (-1) (mark_present q idx) (diag "Missing value for --" L)) ∧
    (∀ (fs : List Char) (idxs : List Nat) (c : Char) (idx : Nat) (a : Clarg),
      (fs ++ [c]).head? ≠ some '-' → fs ++ [c] ≠ ['h'] →
      List.Forall₂ (finds_flag p) fs idxs → finds p [c] idx a → a.kind ≠ ARG_FLAG →
      cl_parse F p (prog :: (pre ++ [ '-' :: (fs ++ [c]) ])) =
        .returned (-1) (mark_all q (idxs ++ [idx])) (diag "Missing value for -" [c])) ∧
    (∀ (L : CStr) (idx : Nat) (a : Clarg) (nxt : Option CStr), '=' ∉ L → L.length < 128 →
      finds p L idx a → a.kind ≠ ARG_FLAG →
      ∃ b, q.args[idx]? = some b ∧
        cl_parse_tok F q ('-' :: '-' :: (L ++ ['='])) nxt =
          cl_parse_value F (set_arg q idx (marked b)) idx (marked b) [] ('-' :: '-' :: L)
            false ∧
        (a.kind = ARG_STRING →
          cl_parse_tok F q ('-' :: '-' :: (L ++ ['='])) nxt =
            .next (set_arg q idx { marked b with val_str := some [] }) false)) := by
  have hid : same_ident p q := cl_parse_scan_finished_ident F { p with prog := prog } q pre hreach
  refine ⟨?_, ?_, ?_⟩
  · intro L idx a hhelp heq hlen hf hk
    obtain ⟨b, hb, hbid⟩ := finds_same_ident hid hf
    have hkb : b.kind ≠ ARG_FLAG := by rw [ident_kind hbid]; exact hk
    have hstep := cl_parse_tok_long_sep F q L none idx b hhelp heq hlen hb hkb
    rw [cl_parse_cons,
      cl_parse_scan_append F _ pre.length pre _ q (Nat.le_refl _) hreach,
      (scan_cons_stop F q _ [] _ hstep).1, mark_present_of_get q idx b hb.2]
  · intro fs idxs c idx a hdash hnh hfs hf hk
    obtain ⟨b, hb, hbid⟩ := finds_same_ident hid hf
    have hkb : b.kind ≠ ARG_FLAG := by rw [ident_kind hbid]; exact hk
    have hfs1 : List.Forall₂ (finds_flag q) fs idxs :=
      hfs.imp (fun _ _ h => finds_flag_same_ident hid h)
    have hstep := (cl_parse_tok_short F q none fs idxs c idx b [] hdash hnh hfs1 hb hkb).2
    rw [if_neg (by simp)] at hstep
    rw [cl_parse_cons,
      cl_parse_scan_append F _ pre.length pre _ q (Nat.le_refl _) hreach,
      (scan_cons_stop F q _ [] _ hstep).1]
  · intro L idx a nxt heq hlen hf hk
    obtain ⟨b, hb, hbid⟩ := finds_same_ident hid hf
    have hkb : b.kind ≠ ARG_FLAG := by rw [ident_kind hbid]; exact hk
    have hstep := cl_parse_tok_long_inline F q L [] nxt idx b heq hlen hb hkb
    refine ⟨b, hb.2, hstep, ?_⟩
    intro hs
    have hsb : (marked b).kind = ARG_STRING := by
      show b.kind = ARG_STRING
      rw [ident_kind hbid]; exact hs
    rw [hstep, cl_parse_value, cl_store_string F _ [] _ hsb]
    show Step.next (set_arg (set_arg q idx (marked b)) idx _) false = _
    rw [set_arg_set_arg]
/-- C12, instance: in the registry of `--name`, `--num` and the Flag `-v`,
after the token `-v`, a last token `--num` or `-vn` returns -1 with the
missing-value diagnostic, and `--name=` stores the empty string. -/
theorem missing_value_rejected_witness :
    cl_parse_scan F0 { reg_name_num with prog := "prog".toList } ["-v".toList] =
      .finished (mark_present { reg_name_num with prog := "prog".toList } 2) ∧
    ("num".toList ≠ "help".toList ∧ '=' ∉ "num".toList ∧ "num".toList.length < 128 ∧
      finds reg_name_num "num".toList 1 spec_num ∧ spec_num.kind ≠ ARG_FLAG ∧
      cl_parse F0 reg_name_num ["prog".toList, "-v".toList, "--num".toList] =
        .returned (-1)
          (mark_present (mark_present { reg_name_num with prog := "prog".toList } 2) 1)
          (diag "Missing value for --" "num".toList)) ∧
    ((['v'] ++ ['n']).head? ≠ some '-' ∧ ['v'] ++ ['n'] ≠ ['h'] ∧
      List.Forall₂ (finds_flag reg_name_num) ['v'] [2] ∧
      finds reg_name_num ['n'] 1 spec_num ∧
      cl_parse F0 reg_name_num ["prog".toList, "-v".toList, "-vn".toList] =
        .returned (-1)
          (mark_all (mark_present { reg_name_num with prog := "prog".toList } 2) ([2] ++ [1]))
          (diag "Missing value for -" ['n'])) ∧
    ('=' ∉ "name".toList ∧ "name".toList.length < 128 ∧
      finds reg_name_num "name".toList 0 spec_name ∧ spec_name.kind ≠ ARG_FLAG ∧
      spec_name.kind = ARG_STRING ∧
      (∃ b, (mark_present { reg_name_num with prog := "prog".toList } 2).args[0]? = some b ∧
        cl_parse_tok F0 (mark_present { reg_name_num with prog := "prog".toList } 2)
            ('-' :: '-' :: ("name".toList ++ ['='])) none =
          cl_parse_value F0
            (set_arg (mark_present { reg_name_num with prog := "prog".toList } 2) 0 (marked b))
            0 (marked b) [] ('-' :: '-' :: "name".toList) false ∧
        (spec_name.kind = ARG_STRING →
          cl_parse_tok F0 (mark_present { reg_name_num with prog := "prog".toList } 2)
              ('-' :: '-' :: ("name".toList ++ ['='])) none =
            .next (set_arg (mark_present { reg_name_num with prog := "prog".toList } 2) 0
              { marked b with val_str := some [] }) false)) ∧
      cl_parse_tok F0 (mark_present { reg_name_num with prog := "prog".toList } 2)
          "--name=".toList none =
        .next (set_arg (mark_present { reg_name_num with prog := "prog".toList } 2) 0
          { marked spec_name with val_str := some [] }) false) :=
  have h := missing_value_rejected F0 reg_name_num "prog".toList ["-v".toList]
    (mark_present { reg_name_num with prog := "prog".toList } 2) (by decide)
  ⟨by decide,
    ⟨by decide, by decide, by decide, ⟨by decide, rfl⟩, by decide,
      h.1 "num".toList 1 spec_num (by decide) (by decide) (by decide) ⟨by decide, rfl⟩
        (by decide)⟩,
    ⟨by decide, by decide, .cons ⟨spec_verbose, ⟨by decide, rfl⟩, rfl⟩ .nil, ⟨by decide, rfl⟩,
      h.2.1 ['v'] [2] 'n' 1 spec_num (by decide) (by decide)
        (.cons ⟨spec_verbose, ⟨by decide, rfl⟩, rfl⟩ .nil) ⟨by decide, rfl⟩ (by decide)⟩,
    ⟨by decide, by decide, ⟨by decide, rfl⟩, by decide, rfl,
      h.2.2 "name".toList 0 spec_name none (by decide) (by decide) ⟨by decide, rfl⟩ (by decide),
      by decide⟩⟩

/-- C12, counterexamples to the claim as stated.  An Int option whose long name
is `help`: the last token `--help` resolves to it, yet `cl_parse` prints the
help and exits.  A String option `--name` followed by the last token `--num`:
`--name` neither fails nor triggers help, it takes `--num` as its value, and
`cl_parse` returns 0. -/
theorem missing_value_counterexample :
    ((∃ a, finds reg_help "help".toList 0 a ∧ a.kind = ARG_INT) ∧
      cl_parse F0 reg_help ["prog".toList, "--help".toList] =
        .exited 0 { reg_help with prog := "prog".toList }) ∧
    ((∃ a, finds reg_name_num "num".toList 1 a ∧ a.kind = ARG_INT) ∧
      cl_parse_tok F0 { reg_name_num with prog := "prog".toList } "--name".toList
          (some "--num".toList) =
        .next (set_arg { reg_name_num with prog := "prog".toList } 0
          { marked spec_name with val_str := some "--num".toList }) true ∧
      cl_parse F0 reg_name_num ["prog".toList, "--name".toList, "--num".toList] =
        .returned 0 (set_arg { reg_name_num with prog := "prog".toList } 0
          { marked spec_name with val_str := some "--num".toList }) []) :=
  ⟨⟨⟨_, ⟨by decide, rfl⟩, by decide⟩, by decide⟩,
    ⟨_, ⟨by decide, rfl⟩, by decide⟩, by decide, by decide⟩

/-! ## The sweep, slot by slot -/

theorem cl_sweep_getElem : ∀ (l : List Clarg) (i : Nat) (x : Clarg), l[i]? = some x →
    (cl_sweep l).1[i]? = some x ∨ (cl_sweep l).1[i]? = some (sweep_seed x) := by
  intro l
  induction l with
  | nil => intro i x h; simp at h
  | cons b rest ih =>
    intro i x hi
    rw [cl_sweep]
    simp only []
    cases i with
    | zero =>
      have hb : b = x := by simpa using hi
      subst hb
      split <;> exact Or.inr (by simp)
    | succ i =>
      have hr : rest[i]? = some x := by simpa using hi
      split
      · exact Or.inl (by simpa using hr)
      · rcases ih i x hr with h | h
        · exact Or.inl (by simpa using h)
        · exact Or.inr (by simpa using h)

theorem cl_sweep_map_present : ∀ (l : List Clarg),
    (cl_sweep l).1.map Clarg.present = l.map Clarg.present := by
  intro l
  induction l with
  | nil => rfl
  | cons b rest ih =>
    rw [cl_sweep]
    simp only []
    split
    · simp [sweep_seed_present]
    · simp [sweep_seed_present, ih]

theorem sweep_seed_of_kind (a : Clarg) (h : a.kind ≠ ARG_STRING) : sweep_seed a = a := by
  unfold sweep_seed
  rw [if_neg (fun hc => h hc.1)]

theorem sweep_seed_kind (a : Clarg) : (sweep_seed a).kind = a.kind := by
  unfold sweep_seed; split <;> rfl

theorem cl_sweep_positionals : ∀ (l : List Clarg),
    (cl_sweep l).1.filter (fun a => decide (a.kind = ARG_POSITIONAL)) =
      l.filter (fun a => decide (a.kind = ARG_POSITIONAL)) := by
  intro l
  induction l with
  | nil => rfl
  | cons b rest ih =>
    have hb : (sweep_seed b :: rest).filter (fun a => decide (a.kind = ARG_POSITIONAL)) =
        (b :: rest).filter (fun a => decide (a.kind = ARG_POSITIONAL)) := by
      by_cases hk : b.kind = ARG_STRING
      · have h1 : ¬ b.kind = ARG_POSITIONAL := by rw [hk]; decide
        have h2 : ¬ (sweep_seed b).kind = ARG_POSITIONAL := by rw [sweep_seed_kind]; exact h1
        simp [List.filter_cons, h1, h2]
      · rw [sweep_seed_of_kind b hk]
    have hb2 : ∀ r : List Clarg,
        r.filter (fun a => decide (a.kind = ARG_POSITIONAL)) =
          rest.filter (fun a => decide (a.kind = ARG_POSITIONAL)) →
        (sweep_seed b :: r).filter (fun a => decide (a.kind = ARG_POSITIONAL)) =
          (b :: rest).filter (fun a => decide (a.kind = ARG_POSITIONAL)) := by
      intro r hr
      rw [← hb]
      simp only [List.filter_cons, hr]
    rw [cl_sweep]
    simp only []
    split
    · exact hb
    · exact hb2 _ ih

theorem cl_sweep_clean : ∀ (l : List Clarg), (∀ a ∈ l, sweep_missing (sweep_seed a) = none) →
    cl_sweep l = (l.map sweep_seed, none) := by
  intro l
  induction l with
  | nil => intro _; rfl
  | cons b rest ih =>
    intro h
    rw [cl_sweep]
    simp only []
    rw [h b (List.mem_cons_self _ _), ih (fun a ha => h a (List.mem_cons_of_mem _ ha))]
    rfl

theorem cl_parse_sweep_returned (p : Clargs) :
    ∃ rc msg, cl_parse_sweep p = .returned rc { p with args := (cl_sweep p.args).1 } msg := by
  unfold cl_parse_sweep
  simp only []
  split
  · exact ⟨_, _, rfl⟩
  · exact ⟨_, _, rfl⟩

/-! ## C11: a token taken as a value is not dispatched -/

/-- C11 (amended). A token consumed as a value is never dispatched: for a long
name `L` other than `help`, without `=`, shorter than 128 characters, that
resolves to a String spec `a` in slot `idx`, and for every token `t` whatever
it looks like, the loop of `cl_parse` on `[prog, --L, t]` ends after the one
iteration for `--L` with `t` stored verbatim in that spec; `cl_parse` returns
(it does not exit with the help) with `t` as the value of the spec, with the
`present` flags of the registry changed in slot `idx` only, and with the
Positional specs as they were. -/
theorem value_token_not_dispatched (F : FloatParser) (p : Clargs) (prog L t : CStr)
    (idx : Nat) (a : Clarg) (hhelp : L ≠ "help".toList) (heq : '=' ∉ L)
    (hlen : L.length < 128) (hf : finds p L idx a) (hs : a.kind = ARG_STRING) :
    cl_parse_scan F { p with prog := prog } [ '-' :: '-' :: L, t ] =
      .finished (set_arg { p with prog := prog } idx { marked a with val_str := some t }) ∧
    ∃ rc q msg, cl_parse F p [ prog, '-' :: '-' :: L, t ] = .returned rc q msg ∧
      q.args[idx]? = some { marked a with val_str := some t } ∧
      q.args.map Clarg.present = (p.args.map Clarg.present).set idx 1 ∧
      positionals q = positionals p := by
  have hk : a.kind ≠ ARG_FLAG := by rw [hs]; decide
  have hkp : a.kind ≠ ARG_POSITIONAL := by rw [hs]; decide
  have hlt : idx < p.args.length := finds_lt hf
  have hstep : cl_parse_tok F { p with prog := prog } ('-' :: '-' :: L) (some t) =
      .next (set_arg { p with prog := prog } idx { marked a with val_str := some t }) true := by
    rw [cl_parse_tok_long_sep F { p with prog := prog } L (some t) idx a hhelp heq hlen hf hk]
    show cl_parse_value F _ idx (marked a) t _ true = _
    rw [cl_parse_value, cl_store_string F _ t _ (show (marked a).kind = ARG_STRING from hs)]
    show Step.next (set_arg (set_arg _ idx (marked a)) idx _) true = _
    rw [set_arg_set_arg]
  have hscan : cl_parse_scan F { p with prog := prog } [ '-' :: '-' :: L, t ] =
      .finished (set_arg { p with prog := prog } idx { marked a with val_str := some t }) := by
    rw [(scan_cons_consumed F _ _ _ t [] hstep).1]
    rfl
  refine ⟨hscan, ?_⟩
  obtain ⟨rc, msg, hsw⟩ :=
    cl_parse_sweep_returned (set_arg { p with prog := prog } idx { marked a with val_str := some t })
  refine ⟨rc, _, msg, (by rw [cl_parse_cons, hscan]; exact hsw), ?_, ?_, ?_⟩
  · have hget : (set_arg { p with prog := prog } idx { marked a with val_str := some t }).args[idx]? =
        some { marked a with val_str := some t } := by
      simp [set_arg, hlt]
    rcases cl_sweep_getElem _ idx _ hget with h | h
    · exact h
    · rw [h]
      congr 1
      unfold sweep_seed
      rw [if_neg]
      intro hc
      exact absurd hc.2.1 (by simp)
  · show ((cl_sweep _).1).map Clarg.present = _
    rw [cl_sweep_map_present]
    simp [set_arg, marked, List.map_set]
  · show ((cl_sweep _).1).filter _ = _
    rw [cl_sweep_positionals]
    exact filter_set_other p.args idx a _ hf.2 hkp hkp

/-- C11, instance: in the registry of `--name`, `--num` and `-v`, the vector
`[prog, --name, --help]` stores `--help` as the value of `--name` and returns
0: the help is not triggered. -/
theorem value_token_not_dispatched_witness :
    "name".toList ≠ "help".toList ∧ '=' ∉ "name".toList ∧ "name".toList.length < 128 ∧
    finds reg_name_num "name".toList 0 spec_name ∧ spec_name.kind = ARG_STRING ∧
    cl_parse F0 reg_name_num ["prog".toList, "--name".toList, "--help".toList] =
      .returned 0 (set_arg { reg_name_num with prog := "prog".toList } 0
        { marked spec_name with val_str := some "--help".toList }) [] ∧
    (cl_parse_scan F0 { reg_name_num with prog := "prog".toList }
        [ '-' :: '-' :: "name".toList, "--help".toList ] =
      .finished (set_arg { reg_name_num with prog := "prog".toList } 0
        { marked spec_name with val_str := some "--help".toList }) ∧
    ∃ rc q msg, cl_parse F0 reg_name_num
        [ "prog".toList, '-' :: '-' :: "name".toList, "--help".toList ] = .returned rc q msg ∧
      q.args[0]? = some { marked spec_name with val_str := some "--help".toList } ∧
      q.args.map Clarg.present = (reg_name_num.args.map Clarg.present).set 0 1 ∧
      positionals q = positionals reg_name_num) :=
  ⟨by decide, by decide, by decide, ⟨by decide, rfl⟩, rfl, by decide,
    value_token_not_dispatched F0 reg_name_num "prog".toList "name".toList "--help".toList 0
      spec_name (by decide) (by decide) (by decide) ⟨by decide, rfl⟩ rfl⟩

/-- C11, counterexample to the claim as stated: a String spec whose long name
is `help`; on `[prog, --help, x]` the token `--help` is the help request, the
process exits with status 0 and `x` is not stored. -/
theorem value_token_help_counterexample :
    (∃ a, reg_help_string.args = [a] ∧ a.kind = ARG_STRING ∧
      a.long_name = some "help".toList) ∧
    cl_parse F0 reg_help_string ["prog".toList, "--help".toList, "x".toList] =
      .exited 0 { reg_help_string with prog := "prog".toList } ∧
    (∀ a ∈ ({ reg_help_string with prog := "prog".toList } : Clargs).args,
      a.val_str = none ∧ a.present = 0) :=
  ⟨⟨_, rfl, rfl, rfl⟩, by decide, by decide⟩

/-! ## Storing twice -/

theorem cl_store_overwrite (F : FloatParser) (a a1 a2 : Clarg) (v1 v2 o1 o2 : CStr)
    (h1 : cl_store F (marked a) v1 o1 = .ok a1) (h2 : cl_store F (marked a) v2 o2 = .ok a2) :
    cl_store F (marked a1) v2 o2 = .ok a2 := by
  cases a with
  | mk sn ln mt hp kind rq pr vs vc vsh vi vl vll vuc vus vui vul vull vsz vf vd
      ds dc dsh di dl dll duc dus dui dul dull dsz df dd =>
    cases kind <;> simp only [cl_store, marked] at h1 h2 ⊢ <;>
      (try split at h1) <;> (try split at h1) <;> (try split at h2) <;> (try split at h2) <;>
      first
      | (exact Except.noConfusion h1)
      | (exact Except.noConfusion h2)
      | (injection h1 with h1; injection h2 with h2; subst h1; subst h2
         simp only [cl_store, marked, if_false, *])

theorem cl_store_error (F : FloatParser) (a : Clarg) (v opt : CStr) (msg : CStr)
    (h : cl_store F a v opt = .error msg) :
    msg = diag (bad_word a.kind) opt := by
  cases a with
  | mk sn ln mt hp kind rq pr vs vc vsh vi vl vll vuc vus vui vul vull vsz vf vd
      ds dc dsh di dl dll duc dus dui dul dull dsz df dd =>
    cases kind <;> simp only [cl_store] at h <;>
      (try split at h) <;> (try split at h) <;>
      first
      | (exact Except.noConfusion h)
      | (injection h with h; subst h; rfl)

theorem cl_store_seeded (F : FloatParser) (a a1 : Clarg) (v opt : CStr)
    (h : cl_store F a v opt = .ok a1) : sweep_seed a1 = a1 := by
  by_cases hk : a.kind = ARG_STRING
  · rw [cl_store_string F a v opt hk] at h
    injection h with h
    subst h
    unfold sweep_seed
    rw [if_neg]
    intro hc
    exact absurd hc.2.1 (by simp)
  · apply sweep_seed_of_kind
    rw [ident_kind (cl_store_ident F a a1 v opt h)]
    exact hk

/-! ## One occurrence of an option with its value -/

theorem occurrence_congr {p q : Clargs} (h : same_ident p q) {idx : Nat} {v : CStr}
    {seg : List CStr} {opt : CStr} (ho : Occurrence p idx v seg opt) :
    Occurrence q idx v seg opt := by
  cases ho with
  | long_sep L h1 h2 h3 hf =>
    exact .long_sep L h1 h2 h3 (by rw [cl_find_idx_congr p q _ h]; exact hf)
  | long_inline L h2 h3 hf =>
    exact .long_inline L h2 h3 (by rw [cl_find_idx_congr p q _ h]; exact hf)
  | short_sep c h1 h2 hf =>
    exact .short_sep c h1 h2 (by rw [cl_find_idx_congr p q _ h]; exact hf)
  | short_attached c h1 h2 hf =>
    exact .short_attached c h1 h2 (by rw [cl_find_idx_congr p q _ h]; exact hf)

theorem occurrence_step (F : FloatParser) (p : Clargs) (idx : Nat) (a : Clarg) (v : CStr)
    (seg : List CStr) (opt : CStr) (rest : List CStr) (ho : Occurrence p idx v seg opt)
    (ha : p.args[idx]? = some a) (hk : a.kind ≠ ARG_FLAG) :
    ∃ tok more consumed, seg ++ rest = tok :: more ∧
      (consumed = true → ∃ more1, more = v :: more1 ∧ more1 = rest) ∧
      (consumed = false → more = rest) ∧
      cl_parse_tok F p tok more.head? =
        cl_parse_value F (set_arg p idx (marked a)) idx (marked a) v opt consumed := by
  have hmark : mark_all p ([] ++ [idx]) = set_arg p idx (marked a) := by
    show mark_present p idx = _
    exact mark_present_of_get p idx a ha
  cases ho with
  | long_sep L h1 h2 h3 hf =>
    exact ⟨_, _, true, rfl, fun _ => ⟨rest, rfl, rfl⟩, (fun h => Bool.noConfusion h),
      cl_parse_tok_long_sep F p L (some v) idx a h1 h2 h3 ⟨hf, ha⟩ hk⟩
  | long_inline L h2 h3 hf =>
    exact ⟨_, _, false, rfl, (fun h => Bool.noConfusion h), fun _ => rfl,
      cl_parse_tok_long_inline F p L v _ idx a h2 h3 ⟨hf, ha⟩ hk⟩
  | short_sep c h1 h2 hf =>
    have hs := (cl_parse_tok_short F p (some v) [] [] c idx a [] (by simpa using h1)
      (by simpa using h2) .nil ⟨hf, ha⟩ hk).2
    rw [if_neg (by simp), hmark] at hs
    exact ⟨_, _, true, rfl, fun _ => ⟨rest, rfl, rfl⟩, (fun h => Bool.noConfusion h), hs⟩
  | short_attached c h1 h2 hf =>
    have hs := (cl_parse_tok_short F p rest.head? [] [] c idx a v (by simpa using h1)
      (by simp [h2]) .nil ⟨hf, ha⟩ hk).2
    rw [if_pos h2, hmark] at hs
    exact ⟨_, _, false, rfl, (fun h => Bool.noConfusion h), fun _ => rfl, hs⟩

theorem occurrence_scan (F : FloatParser) (p : Clargs) (idx : Nat) (a : Clarg) (v : CStr)
    (seg : List CStr) (opt : CStr) (rest : List CStr) (ho : Occurrence p idx v seg opt)
    (ha : p.args[idx]? = some a) (hk : a.kind ≠ ARG_FLAG) :
    cl_parse_scan F p (seg ++ rest) =
      match cl_store F (marked a) v opt with
      | .error msg => .stopped (.returned (-1) (set_arg p idx (marked a)) msg)
      | .ok a1 => cl_parse_scan F (set_arg p idx a1) rest := by
  obtain ⟨tok, more, consumed, hseg, hc1, hc2, hstep⟩ :=
    occurrence_step F p idx a v seg opt rest ho ha hk
  rw [hseg]
  unfold cl_parse_value at hstep
  cases hs : cl_store F (marked a) v opt with
  | error msg =>
    rw [hs] at hstep
    exact (scan_cons_stop F p tok more _ hstep).1
  | ok a1 =>
    rw [hs] at hstep
    simp only [set_arg_set_arg] at hstep ⊢
    cases consumed with
    | false =>
      rw [(scan_cons_next F p _ tok more hstep).1, hc2 rfl]
    | true =>
      obtain ⟨more1, hm, hm1⟩ := hc1 rfl
      subst hm
      subst hm1
      exact (scan_cons_consumed F p _ tok v more1 hstep).1

/-! ## C13: the last occurrence wins -/

/-- C13 (amended). Last occurrence wins: let slot `idx` hold a spec `a` that is
not a Flag, and let two occurrences of it (each in one of the forms `--L v`,
`--L=v`, `-c v`, `-cv`, with a name that resolves to the slot, not
`--help`/`-h`, a long name without `=` and shorter than 128 characters) carry
the values `v1` and `v2`, each of which the `switch` of the spec accepts on its
own.  Then the loop of `cl_parse` on the two occurrences in a row finishes with
the spec exactly as the coercion of `v2` alone leaves it, `cl_parse` ends as on
the second occurrence alone (same return code, registry and diagnostic: 0
unless the sweep misses a required spec), and the spec of the slot is that of
`v2` alone. -/
theorem last_occurrence_wins (F : FloatParser) (p : Clargs) (prog : CStr) (idx : Nat)
    (a a1 a2 : Clarg) (v1 v2 : CStr) (seg1 seg2 : List CStr) (opt1 opt2 : CStr)
    (ha : p.args[idx]? = some a) (hk : a.kind ≠ ARG_FLAG)
    (ho1 : Occurrence p idx v1 seg1 opt1) (ho2 : Occurrence p idx v2 seg2 opt2)
    (hv1 : cl_store F (marked a) v1 opt1 = .ok a1)
    (hv2 : cl_store F (marked a) v2 opt2 = .ok a2) :
    cl_parse_scan F { p with prog := prog } (seg1 ++ seg2) =
      .finished (set_arg { p with prog := prog } idx a2) ∧
    cl_parse_scan F { p with prog := prog } seg2 =
      .finished (set_arg { p with prog := prog } idx a2) ∧
    cl_parse F p (prog :: (seg1 ++ seg2)) = cl_parse F p (prog :: seg2) ∧
    cl_parse F p (prog :: (seg1 ++ seg2)) =
      cl_parse_sweep (set_arg { p with prog := prog } idx a2) ∧
    ∃ rc q msg, cl_parse F p (prog :: (seg1 ++ seg2)) = .returned rc q msg ∧
      q.args[idx]? = some a2 := by
  have hlt : idx < p.args.length := (List.getElem?_eq_some.1 ha).1
  have hid0 : same_ident p { p with prog := prog } := rfl
  have hid1 : ident a1 = ident a := cl_store_ident F (marked a) a1 _ _ hv1
  have hidq : same_ident p (set_arg { p with prog := prog } idx a1) :=
    same_ident_set_arg idx a a1 hid0 ha hid1
  have hget1 : (set_arg { p with prog := prog } idx a1).args[idx]? = some a1 := by
    simp [set_arg, hlt]
  have hk1 : a1.kind ≠ ARG_FLAG := by rw [ident_kind hid1]; exact hk
  have hsingle : ∀ (q : Clargs) (b : Clarg), same_ident p q → q.args[idx]? = some b →
      cl_store F (marked b) v2 opt2 = .ok a2 → b.kind ≠ ARG_FLAG →
      cl_parse_scan F q seg2 = .finished (set_arg q idx a2) := by
    intro q b hq hb hst hkb
    have h := occurrence_scan F q idx b v2 seg2 opt2 [] (occurrence_congr hq ho2) hb hkb
    rw [List.append_nil, hst] at h
    exact h
  have h2 : cl_parse_scan F { p with prog := prog } seg2 =
      .finished (set_arg { p with prog := prog } idx a2) :=
    hsingle _ a hid0 ha hv2 hk
  have h12 : cl_parse_scan F { p with prog := prog } (seg1 ++ seg2) =
      .finished (set_arg { p with prog := prog } idx a2) := by
    rw [occurrence_scan F _ idx a v1 seg1 opt1 seg2 (occurrence_congr hid0 ho1) ha hk, hv1]
    show cl_parse_scan F (set_arg { p with prog := prog } idx a1) seg2 = _
    rw [hsingle _ a1 hidq hget1 (cl_store_overwrite F a a1 a2 v1 v2 opt1 opt2 hv1 hv2) hk1,
      set_arg_set_arg]
  have hsw : cl_parse F p (prog :: (seg1 ++ seg2)) =
      cl_parse_sweep (set_arg { p with prog := prog } idx a2) := by
    rw [cl_parse_cons, h12]
  refine ⟨h12, h2, ?_, hsw, ?_⟩
  · rw [hsw, cl_parse_cons, h2]
  · obtain ⟨rc, msg, hr⟩ := cl_parse_sweep_returned (set_arg { p with prog := prog } idx a2)
    refine ⟨rc, _, msg, hsw.trans hr, ?_⟩
    have hget : (set_arg { p with prog := prog } idx a2).args[idx]? = some a2 := by
      simp [set_arg, hlt]
    rcases cl_sweep_getElem _ idx _ hget with h | h
    · exact h
    · rw [h, cl_store_seeded F _ a2 v2 opt2 hv2]

/-- C13, instance: the Int option `-n` / `--num` given as `--num 1` and then
as `-n2`: `cl_parse` returns 0 and `val_int` is 2. -/
theorem last_occurrence_wins_witness :
    reg_name_num.args[1]? = some spec_num ∧ spec_num.kind ≠ ARG_FLAG ∧
    Occurrence reg_name_num 1 "1".toList [ '-' :: '-' :: "num".toList, "1".toList ]
      ('-' :: '-' :: "num".toList) ∧
    Occurrence reg_name_num 1 "2".toList [ '-' :: 'n' :: "2".toList ] ['-', 'n'] ∧
    cl_store F0 (marked spec_num) "1".toList ('-' :: '-' :: "num".toList) =
      .ok { marked spec_num with val_int := 1 } ∧
    cl_store F0 (marked spec_num) "2".toList ['-', 'n'] =
      .ok { marked spec_num with val_int := 2 } ∧
    cl_parse F0 reg_name_num ["prog".toList, "--num".toList, "1".toList, "-n2".toList] =
      .returned 0 (set_arg { reg_name_num with prog := "prog".toList } 1
        { marked spec_num with val_int := 2 }) [] ∧
    (cl_parse_scan F0 { reg_name_num with prog := "prog".toList }
        ([ '-' :: '-' :: "num".toList, "1".toList ] ++ [ '-' :: 'n' :: "2".toList ]) =
      .finished (set_arg { reg_name_num with prog := "prog".toList } 1
        { marked spec_num with val_int := 2 }) ∧
    cl_parse_scan F0 { reg_name_num with prog := "prog".toList } [ '-' :: 'n' :: "2".toList ] =
      .finished (set_arg { reg_name_num with prog := "prog".toList } 1
        { marked spec_num with val_int := 2 }) ∧
    cl_parse F0 reg_name_num
        ("prog".toList :: ([ '-' :: '-' :: "num".toList, "1".toList ] ++
          [ '-' :: 'n' :: "2".toList ])) =
      cl_parse F0 reg_name_num ("prog".toList :: [ '-' :: 'n' :: "2".toList ]) ∧
    cl_parse F0 reg_name_num
        ("prog".toList :: ([ '-' :: '-' :: "num".toList, "1".toList ] ++
          [ '-' :: 'n' :: "2".toList ])) =
      cl_parse_sweep (set_arg { reg_name_num with prog := "prog".toList } 1
        { marked spec_num with val_int := 2 }) ∧
    ∃ rc q msg, cl_parse F0 reg_name_num
        ("prog".toList :: ([ '-' :: '-' :: "num".toList, "1".toList ] ++
          [ '-' :: 'n' :: "2".toList ])) = .returned rc q msg ∧
      q.args[1]? = some { marked spec_num with val_int := 2 }) :=
  ⟨rfl, by decide,
    .long_sep "num".toList (by decide) (by decide) (by decide) (by decide),
    .short_attached 'n' (by decide) (by decide) (by decide),
    rfl, rfl, by decide,
    last_occurrence_wins F0 reg_name_num "prog".toList 1 spec_num
      { marked spec_num with val_int := 1 } { marked spec_num with val_int := 2 }
      "1".toList "2".toList _ _ _ _ rfl (by decide)
      (.long_sep "num".toList (by decide) (by decide) (by decide) (by decide))
      (.short_attached 'n' (by decide) (by decide) (by decide))
      rfl rfl⟩

/-- C13, counterexample to the claim as stated: an Int option whose long name
is `help`; the values `1` and `2` both coerce, yet on
`[prog, --help, 1, --help, 2]` the first token is the help request and the
process exits with the value left at its default 0. -/
theorem last_occurrence_help_counterexample :
    (∃ a, finds reg_help "help".toList 0 a ∧ a.kind = ARG_INT ∧
      (∃ a1, cl_store F0 (marked a) "1".toList "--help".toList = .ok a1) ∧
      (∃ a2, cl_store F0 (marked a) "2".toList "--help".toList = .ok a2)) ∧
    cl_parse F0 reg_help
        ["prog".toList, "--help".toList, "1".toList, "--help".toList, "2".toList] =
      .exited 0 { reg_help with prog := "prog".toList } ∧
    ({ reg_help with prog := "prog".toList } : Clargs).args.map Clarg.val_int = [0] :=
  ⟨⟨_, ⟨by decide, rfl⟩, by decide, ⟨_, rfl⟩, ⟨_, rfl⟩⟩, by decide, by decide⟩

/-! ## C16: the diagnostic of a failed conversion -/

/-- C16 (amended). Coercion-failure diagnostic: let slot `idx` hold a spec `a`
that is not a Flag, given on the command line in one of the forms `--L v`,
`--L=v`, `-c v`, `-cv` (first tokens of the vector after `argv[0]`) with a
value `v` that the `switch` of the spec does not accept.  Then `cl_parse`
returns -1, the spec only marked present, and the diagnostic is the word of the
kind (`Bad int for ` and so on) followed by the option as it was typed: `--L`
with the long name typed, in the long forms, `-c` with the character typed, in
the short forms. -/
theorem coercion_failure_diagnostic (F : FloatParser) (p : Clargs) (prog : CStr) (idx : Nat)
    (a : Clarg) (v : CStr) (seg : List CStr) (opt : CStr) (rest : List CStr)
    (ha : p.args[idx]? = some a) (hk : a.kind ≠ ARG_FLAG)
    (ho : Occurrence p idx v seg opt)
    (hbad : ∀ a1, cl_store F (marked a) v opt ≠ .ok a1) :
    cl_parse F p (prog :: (seg ++ rest)) =
      .returned (-1) (set_arg { p with prog := prog } idx (marked a))
        (diag (bad_word a.kind) opt) := by
  have hid0 : same_ident p { p with prog := prog } := rfl
  rw [cl_parse_cons,
    occurrence_scan F { p with prog := prog } idx a v seg opt rest (occurrence_congr hid0 ho) ha hk]
  cases hs : cl_store F (marked a) v opt with
  | ok a1 => exact absurd hs (hbad a1)
  | error msg =>
    rw [cl_store_error F (marked a) v opt msg hs]
    rfl

/-- C16, instance: the Int option `-n` / `--num` given as `--num=abc`, before
another token: `cl_parse` returns -1 with `Bad int for --num`. -/
theorem coercion_failure_diagnostic_witness :
    reg_name_num.args[1]? = some spec_num ∧ spec_num.kind ≠ ARG_FLAG ∧
    Occurrence reg_name_num 1 "abc".toList [ '-' :: '-' :: ("num".toList ++ '=' :: "abc".toList) ]
      ('-' :: '-' :: "num".toList) ∧
    (∀ a1, cl_store F0 (marked spec_num) "abc".toList ('-' :: '-' :: "num".toList) ≠ .ok a1) ∧
    cl_parse F0 reg_name_num
        ("prog".toList :: ([ '-' :: '-' :: ("num".toList ++ '=' :: "abc".toList) ] ++
          ["-v".toList])) =
      .returned (-1) (set_arg { reg_name_num with prog := "prog".toList } 1 (marked spec_num))
        (diag (bad_word spec_num.kind) ('-' :: '-' :: "num".toList)) ∧
    diag (bad_word spec_num.kind) ('-' :: '-' :: "num".toList) = "Bad int for --num\n".toList :=
  ⟨rfl, by decide, .long_inline "num".toList (by decide) (by decide) (by decide),
    fun _ h => Except.noConfusion h,
    coercion_failure_diagnostic F0 reg_name_num "prog".toList 1 spec_num "abc".toList _ _
      ["-v".toList] rfl (by decide)
      (.long_inline "num".toList (by decide) (by decide) (by decide))
      (fun _ h => Except.noConfusion h),
    by decide⟩

/-- C16, counterexample to the claim as stated: the spec has the short name
`n` and the long name `num`, so its display name is `num`; on
`[prog, -n, abc]` the diagnostic is `Bad int for -n`, in which `num` does not
occur. -/
theorem coercion_failure_short_counterexample :
    (∃ a, finds reg_name_num ['n'] 1 a ∧ a.kind = ARG_INT ∧ a.short_name = 'n' ∧
      a.long_name = some "num".toList) ∧
    cl_parse F0 reg_name_num ["prog".toList, "-n".toList, "abc".toList] =
      .returned (-1) (set_arg { reg_name_num with prog := "prog".toList } 1 (marked spec_num))
        "Bad int for -n\n".toList ∧
    ¬ List.IsInfix "num".toList "Bad int for -n\n".toList :=
  ⟨⟨_, ⟨by decide, rfl⟩, by decide, by decide, by decide⟩, by decide, by decide⟩

/-! ## C15: a String spec that is not supplied -/

/-- C15. String required/default reconciliation: on a registry built by
`cl_create` and `cl_add_*`, let the token loop finish and leave in slot `i` a
String spec `a` that was not supplied (`present` = 0).  Its value is its
default (`NULL` when none was registered) and the seeding of line 435 leaves it
so; the sweep fails for it exactly when it is required and has no default;
`cl_parse` returns with the spec unchanged in its slot, returns -1 when the
spec is required without default, and returns 0 when the sweep finds no spec
missing, after which `cl_get_string` on a name that finds the spec returns the
default. -/
theorem string_default_reconciliation (F : FloatParser) (prog desc : Option CStr)
    (calls : List AddCall) (argv : List CStr) (p1 : Clargs) (i : Nat) (a : Clarg)
    (hscan : cl_parse_scan F (cl_parse_prog (build prog desc calls) argv) (argv.drop 1)
      = .finished p1)
    (hi : p1.args[i]? = some a) (hstr : a.kind = ARG_STRING) (hnot : a.present = 0) :
    (a.val_str = a.def_str ∧ sweep_seed a = a) ∧
    (sweep_missing (sweep_seed a) ≠ none ↔ (a.required ≠ 0 ∧ a.def_str = none)) ∧
    ∃ rc q msg, cl_parse F (build prog desc calls) argv = .returned rc q msg ∧
      q.args[i]? = some a ∧
      ((a.required ≠ 0 ∧ a.def_str = none) → rc = -1) ∧
      ((∀ b ∈ p1.args, sweep_missing (sweep_seed b) = none) →
        rc = 0 ∧ msg = [] ∧
        ∀ name, cl_find q name = some a → cl_get_string q name = a.def_str) := by
  have hg := cl_parse_scan_grows F (cl_parse_prog (build prog desc calls) argv) _
    (argv.drop 1) _ (Nat.le_refl _) (grows_refl _)
  rw [hscan] at hg
  have hmem : a ∈ (build prog desc calls).args := by
    rcases hg a (List.getElem?_mem hi) with h1 | h1
    · exact (cl_parse_prog_args _ argv) ▸ h1
    · omega
  have hval : a.val_str = a.def_str := by
    have hd := (build_fresh prog desc calls a hmem).dflt
    simpa only [holds_default, hstr] using hd
  have hseed : sweep_seed a = a := by
    unfold sweep_seed
    rw [if_neg]
    intro hc
    exact hc.2.2 (hval ▸ hc.2.1)
  have hmiss : sweep_missing a ≠ none ↔ (a.required ≠ 0 ∧ a.def_str = none) := by
    have hns : ¬ is_scalar a.kind = true := by rw [hstr]; decide
    have hnp : ¬ a.kind = ARG_POSITIONAL := by rw [hstr]; decide
    unfold sweep_missing
    constructor
    · intro h
      by_cases hc : a.kind = ARG_STRING ∧ a.required ≠ 0 ∧ a.val_str = none
      · exact ⟨hc.2.1, hval ▸ hc.2.2⟩
      · rw [if_neg hc, if_neg (fun h1 => hns h1.1), if_neg (fun h1 => hnp h1.1)] at h
        exact absurd rfl h
    · intro h
      rw [if_pos ⟨hstr, h.1, hval.trans h.2⟩]
      simp
  refine ⟨⟨hval, hseed⟩, by rw [hseed]; exact hmiss, ?_⟩
  have hparse : cl_parse F (build prog desc calls) argv = cl_parse_sweep p1 := by
    unfold cl_parse
    rw [hscan]
  have hslot : (cl_sweep p1.args).1[i]? = some a := by
    rcases cl_sweep_getElem _ i a hi with h | h
    · exact h
    · rw [h, hseed]
  have hget : ∀ (q : Clargs) (name : Option CStr), cl_find q name = some a →
      cl_get_string q name = a.def_str := by
    intro q name hf
    simp only [cl_get_string, hf, hval]
  cases hr : (cl_sweep p1.args).2 with
  | none =>
    refine ⟨0, { p1 with args := (cl_sweep p1.args).1 }, [], ?_, hslot, ?_, ?_⟩
    · rw [hparse]
      unfold cl_parse_sweep
      simp only [hr]
    · intro hreq
      obtain ⟨⟨m, hm⟩, _⟩ := cl_sweep_missing p1.args i a hi hseed (hmiss.2 hreq)
      rw [hr] at hm
      exact absurd hm (by simp)
    · intro _
      exact ⟨rfl, rfl, hget _⟩
  | some m =>
    refine ⟨-1, { p1 with args := (cl_sweep p1.args).1 }, m, ?_, hslot, fun _ => rfl, ?_⟩
    · rw [hparse]
      unfold cl_parse_sweep
      simp only [hr]
    · intro hall
      rw [cl_sweep_clean p1.args hall] at hr
      exact absurd hr (by simp)

/-- C15, instance: one required String `--name` registered with the default
`x` and the vector `[prog]`: `cl_parse` returns 0 and `cl_get_string` returns
`x`. -/
theorem string_default_reconciliation_witness :
    cl_parse_scan F0 (cl_parse_prog (build none none calls_required_default) ["prog".toList])
      (["prog".toList].drop 1) = .finished (cl_parse_prog (build none none calls_required_default)
        ["prog".toList]) ∧
    (cl_parse_prog (build none none calls_required_default) ["prog".toList]).args[0]? =
      some spec_required_default ∧
    spec_required_default.kind = ARG_STRING ∧ spec_required_default.present = 0 ∧
    spec_required_default.required ≠ 0 ∧
    (∀ b ∈ (cl_parse_prog (build none none calls_required_default) ["prog".toList]).args,
      sweep_missing (sweep_seed b) = none) ∧
    cl_parse F0 (build none none calls_required_default) ["prog".toList] =
      .returned 0 { build none none calls_required_default with prog := "prog".toList } [] ∧
    cl_get_string { build none none calls_required_default with prog := "prog".toList }
      (some "name".toList) = some "x".toList ∧
    ((spec_required_default.val_str = spec_required_default.def_str ∧
      sweep_seed spec_required_default = spec_required_default) ∧
    (sweep_missing (sweep_seed spec_required_default) ≠ none ↔
      (spec_required_default.required ≠ 0 ∧ spec_required_default.def_str = none)) ∧
    ∃ rc q msg, cl_parse F0 (build none none calls_required_default) ["prog".toList] =
        .returned rc q msg ∧
      q.args[0]? = some spec_required_default ∧
      ((spec_required_default.required ≠ 0 ∧ spec_required_default.def_str = none) → rc = -1) ∧
      ((∀ b ∈ (cl_parse_prog (build none none calls_required_default) ["prog".toList]).args,
          sweep_missing (sweep_seed b) = none) →
        rc = 0 ∧ msg = [] ∧
        ∀ name, cl_find q name = some spec_required_default →
          cl_get_string q name = spec_required_default.def_str)) :=
  ⟨rfl, by decide, by decide, by decide, by decide, by decide, by decide, by decide,
    string_default_reconciliation F0 none none calls_required_default ["prog".toList] _ 0
      spec_required_default rfl (by decide) (by decide) (by decide)⟩

/-! ## C19: Short and Int are narrowed without a range check -/

theorem parse_int_simple_numeral (sign ds : CStr)
    (hsign : sign = [] ∨ sign = ['+'] ∨ sign = ['-']) (hds : all_digits ds) :
    parse_int_simple (some (sign ++ ds)) =
      if LONG_MIN ≤ numeral_value sign ds ∧ numeral_value sign ds ≤ LONG_MAX then
        some (numeral_value sign ds)
      else none := by
  have hs := strto_subject_numeral sign ds [] hsign hds (by simp)
  rw [List.append_nil] at hs
  have hne : ds ≠ [] := hds.1
  have hlen : ds.length ≠ 0 := fun h => hne (List.length_eq_zero.1 h)
  have hv : (if decide (sign = ['-']) = true then -(digitsValue ds : Int)
      else (digitsValue ds : Int)) = numeral_value sign ds := by
    unfold numeral_value
    by_cases h : sign = ['-'] <;> simp [h]
  have hdrop : (sign ++ ds).drop (sign.length + ds.length) = [] := by
    rw [← List.length_append]
    exact List.drop_length _
  simp only [parse_int_simple, strtol, hs, if_neg hne, hv]
  by_cases h1 : numeral_value sign ds > LONG_MAX
  · have : ¬ (LONG_MIN ≤ numeral_value sign ds ∧ numeral_value sign ds ≤ LONG_MAX) := by omega
    simp [h1, this, strto_rejected]
  · by_cases h2 : numeral_value sign ds < LONG_MIN
    · have : ¬ (LONG_MIN ≤ numeral_value sign ds ∧ numeral_value sign ds ≤ LONG_MAX) := by omega
      simp [h1, h2, this, strto_rejected]
    · have : LONG_MIN ≤ numeral_value sign ds ∧ numeral_value sign ds ≤ LONG_MAX := by omega
      simp [h1, h2, this, strto_rejected, hdrop, hlen]

theorem to_signed_spec (k : Nat) (x : Int) :
    -(2 ^ k) ≤ to_signed (k + 1) x ∧ to_signed (k + 1) x < 2 ^ k ∧
      (2 ^ (k + 1) : Int) ∣ (to_signed (k + 1) x - x) := by
  unfold to_signed
  simp only [Nat.add_sub_cancel]
  have hpos : (0 : Int) < 2 ^ (k + 1) := by positivity
  have h2 : (2 : Int) ^ (k + 1) = 2 ^ k * 2 := pow_succ 2 k
  have hm0 := Int.emod_nonneg (x + 2 ^ k) (ne_of_gt hpos)
  have hm1 := Int.emod_lt_of_pos (x + 2 ^ k) hpos
  refine ⟨by omega, by omega, ?_⟩
  have hd := Int.emod_add_ediv (x + 2 ^ k) (2 ^ (k + 1))
  refine ⟨-((x + 2 ^ k) / 2 ^ (k + 1)), ?_⟩
  have : (x + 2 ^ k) % 2 ^ (k + 1) = x + 2 ^ k - 2 ^ (k + 1) * ((x + 2 ^ k) / 2 ^ (k + 1)) := by
    omega
  rw [this]
  ring

theorem cl_store_signed_narrow (F : FloatParser) (a : Clarg) (sign ds opt : CStr)
    (hsign : sign = [] ∨ sign = ['+'] ∨ sign = ['-']) (hds : all_digits ds) :
    (a.kind = ARG_SHORT →
      ((LONG_MIN ≤ numeral_value sign ds ∧ numeral_value sign ds ≤ LONG_MAX) →
        cl_store F a (sign ++ ds) opt =
          .ok { a with val_short := to_signed 16 (numeral_value sign ds) }) ∧
      (¬ (LONG_MIN ≤ numeral_value sign ds ∧ numeral_value sign ds ≤ LONG_MAX) →
        ∃ msg, cl_store F a (sign ++ ds) opt = .error msg)) ∧
    (a.kind = ARG_INT →
      ((LONG_MIN ≤ numeral_value sign ds ∧ numeral_value sign ds ≤ LONG_MAX) →
        cl_store F a (sign ++ ds) opt =
          .ok { a with val_int := to_signed 32 (numeral_value sign ds) }) ∧
      (¬ (LONG_MIN ≤ numeral_value sign ds ∧ numeral_value sign ds ≤ LONG_MAX) →
        ∃ msg, cl_store F a (sign ++ ds) opt = .error msg)) := by
  have hp := parse_int_simple_numeral sign ds hsign hds
  refine ⟨fun hk => ⟨fun hin => ?_, fun hout => ?_⟩, fun hk => ⟨fun hin => ?_, fun hout => ?_⟩⟩
  · simp only [cl_store, hk, hp, if_pos hin]
  · simp only [cl_store, hk, hp, if_neg hout]; exact ⟨_, rfl⟩
  · simp only [cl_store, hk, hp, if_pos hin]
  · simp only [cl_store, hk, hp, if_neg hout]; exact ⟨_, rfl⟩

/-- C19. Signed narrowing without range check: a decimal numeral (optional
sign, digits) denoting `v`, handed to a Short (resp. Int) option in long or
short form, is accepted whenever `v` is in the range of a 64-bit `long`, and
what is stored is `v` reduced modulo 2^16 (resp. 2^32) to the signed range: a
value in [-2^15, 2^15) (resp. [-2^31, 2^31)) congruent to `v`.  When `v` is
outside the range of `long`, `cl_parse` returns -1 and the value field is not
written. -/
theorem signed_narrowing_unchecked (F : FloatParser) (p : Clargs) (idx : Nat) (a : Clarg)
    (sign ds tok : CStr) (nxt : Option CStr) (hs : Supplies p idx a (sign ++ ds) tok nxt)
    (hsign : sign = [] ∨ sign = ['+'] ∨ sign = ['-']) (hds : all_digits ds) :
    (a.kind = ARG_SHORT →
      ((LONG_MIN ≤ numeral_value sign ds ∧ numeral_value sign ds ≤ LONG_MAX) →
        accepts_value F p tok nxt idx
          { marked a with val_short := to_signed 16 (numeral_value sign ds) }) ∧
      (¬ (LONG_MIN ≤ numeral_value sign ds ∧ numeral_value sign ds ≤ LONG_MAX) →
        rejects_value F p tok nxt idx (marked a))) ∧
    (a.kind = ARG_INT →
      ((LONG_MIN ≤ numeral_value sign ds ∧ numeral_value sign ds ≤ LONG_MAX) →
        accepts_value F p tok nxt idx
          { marked a with val_int := to_signed 32 (numeral_value sign ds) }) ∧
      (¬ (LONG_MIN ≤ numeral_value sign ds ∧ numeral_value sign ds ≤ LONG_MAX) →
        rejects_value F p tok nxt idx (marked a))) ∧
    (-(2 ^ 15) ≤ to_signed 16 (numeral_value sign ds) ∧
      to_signed 16 (numeral_value sign ds) < 2 ^ 15 ∧
      (2 ^ 16 : Int) ∣ (to_signed 16 (numeral_value sign ds) - numeral_value sign ds)) ∧
    (-(2 ^ 31) ≤ to_signed 32 (numeral_value sign ds) ∧
      to_signed 32 (numeral_value sign ds) < 2 ^ 31 ∧
      (2 ^ 32 : Int) ∣ (to_signed 32 (numeral_value sign ds) - numeral_value sign ds)) := by
  have hst := fun opt => cl_store_signed_narrow F (marked a) sign ds opt hsign hds
  refine ⟨fun hk => ?_, fun hk => ?_, to_signed_spec 15 _, to_signed_spec 31 _⟩
  · have hf : a.kind ≠ ARG_FLAG := by rw [hk]; decide
    exact ⟨fun hin => supplies_accepts F hs hf (fun opt => ((hst opt).1 hk).1 hin),
      fun hout => supplies_rejects F hs hf (fun opt => ((hst opt).1 hk).2 hout)⟩
  · have hf : a.kind ≠ ARG_FLAG := by rw [hk]; decide
    exact ⟨fun hin => supplies_accepts F hs hf (fun opt => ((hst opt).2 hk).1 hin),
      fun hout => supplies_rejects F hs hf (fun opt => ((hst opt).2 hk).2 hout)⟩

/-- C19, instance: the Int option `--num` given `4294967301` is accepted with
`val_int` = 5, the Short option `--port` given `65541` is accepted with
`val_short` = 5, and `--num` given `9223372036854775808` is rejected. -/
theorem signed_narrowing_unchecked_witness :
    (Supplies reg_num 0 spec_num ([] ++ "4294967301".toList) ('-' :: '-' :: "num".toList)
        (some "4294967301".toList) ∧
      all_digits "4294967301".toList ∧ spec_num.kind = ARG_INT ∧
      (LONG_MIN ≤ numeral_value [] "4294967301".toList ∧
        numeral_value [] "4294967301".toList ≤ LONG_MAX) ∧
      to_signed 32 (numeral_value [] "4294967301".toList) = 5 ∧
      accepts_value F0 reg_num ('-' :: '-' :: "num".toList) (some "4294967301".toList) 0
        { marked spec_num with val_int := to_signed 32 (numeral_value [] "4294967301".toList) } ∧
      cl_parse F0 reg_num ["prog".toList, "--num".toList, "4294967301".toList] =
        .returned 0 (set_arg { reg_num with prog := "prog".toList } 0
          { marked spec_num with val_int := 5 }) []) ∧
    (Supplies reg_short 0 spec_port ([] ++ "65541".toList) ('-' :: '-' :: "port".toList)
        (some "65541".toList) ∧
      all_digits "65541".toList ∧ spec_port.kind = ARG_SHORT ∧
      (LONG_MIN ≤ numeral_value [] "65541".toList ∧
        numeral_value [] "65541".toList ≤ LONG_MAX) ∧
      to_signed 16 (numeral_value [] "65541".toList) = 5 ∧
      accepts_value F0 reg_short ('-' :: '-' :: "port".toList) (some "65541".toList) 0
        { marked spec_port with val_short := to_signed 16 (numeral_value [] "65541".toList) } ∧
      cl_parse F0 reg_short ["prog".toList, "--port".toList, "65541".toList] =
        .returned 0 (set_arg { reg_short with prog := "prog".toList } 0
          { marked spec_port with val_short := 5 }) []) ∧
    (Supplies reg_num 0 spec_num ([] ++ "9223372036854775808".toList)
        ('-' :: '-' :: "num".toList) (some "9223372036854775808".toList) ∧
      all_digits "9223372036854775808".toList ∧
      ¬ (LONG_MIN ≤ numeral_value [] "9223372036854775808".toList ∧
        numeral_value [] "9223372036854775808".toList ≤ LONG_MAX) ∧
      rejects_value F0 reg_num ('-' :: '-' :: "num".toList)
        (some "9223372036854775808".toList) 0 (marked spec_num)) :=
  have hs1 : Supplies reg_num 0 spec_num ([] ++ "4294967301".toList)
      ('-' :: '-' :: "num".toList) (some "4294967301".toList) :=
    .long_sep "num".toList (by decide) (by decide) (by decide) ⟨by decide, by decide⟩
  have hd1 : all_digits "4294967301".toList := ⟨by decide, by decide⟩
  have hs2 : Supplies reg_short 0 spec_port ([] ++ "65541".toList)
      ('-' :: '-' :: "port".toList) (some "65541".toList) :=
    .long_sep "port".toList (by decide) (by decide) (by decide) ⟨by decide, by decide⟩
  have hd2 : all_digits "65541".toList := ⟨by decide, by decide⟩
  have hs3 : Supplies reg_num 0 spec_num ([] ++ "9223372036854775808".toList)
      ('-' :: '-' :: "num".toList) (some "9223372036854775808".toList) :=
    .long_sep "num".toList (by decide) (by decide) (by decide) ⟨by decide, by decide⟩
  have hd3 : all_digits "9223372036854775808".toList := ⟨by decide, by decide⟩
  ⟨⟨hs1, hd1, rfl, by decide, by decide,
      ((signed_narrowing_unchecked F0 reg_num 0 spec_num [] "4294967301".toList _ _ hs1
        (Or.inl rfl) hd1).2.1 rfl).1 (by decide),
      by decide⟩,
    ⟨hs2, hd2, rfl, by decide, by decide,
      ((signed_narrowing_unchecked F0 reg_short 0 spec_port [] "65541".toList _ _ hs2
        (Or.inl rfl) hd2).1 rfl).1 (by decide),
      by decide⟩,
    ⟨hs3, hd3, by decide,
      ((signed_narrowing_unchecked F0 reg_num 0 spec_num [] "9223372036854775808".toList _ _ hs3
        (Or.inl rfl) hd3).2.1 rfl).2 (by decide)⟩⟩

/-! ## `cl_parse` keeps names, kinds and placeholders -/

theorem map_names_set (l : List Clarg) (i : Nat) (a0 a1 : Clarg) (h0 : l[i]? = some a0)
    (h1 : names a1 = names a0) : (l.set i a1).map names = l.map names := by
  apply List.ext_getElem?
  intro j
  rw [List.getElem?_map, List.getElem?_map, List.getElem?_set]
  by_cases hij : i = j
  · subst hij
    have hlt : i < l.length := (List.getElem?_eq_some.1 h0).1
    simp [hlt, h0, h1]
  · simp [hij]

theorem cl_store_names (F : FloatParser) (a a1 : Clarg) (val opt : CStr)
    (h : cl_store F a val opt = .ok a1) : names a1 = names a := by
  unfold cl_store at h
  split at h <;> (try split at h) <;> (try split at h) <;>
    first
    | (injection h with h; subst h; rfl)
    | (exact Except.noConfusion h)

theorem same_names_set_arg {p q : Clargs} (idx : Nat) (a0 a1 : Clarg) (h : same_names p q)
    (h0 : q.args[idx]? = some a0) (h1 : names a1 = names a0) :
    same_names p (set_arg q idx a1) :=
  (map_names_set q.args idx a0 a1 h0 h1).trans h

theorem cl_parse_value_names (F : FloatParser) {p q : Clargs} (idx : Nat) (a0 : Clarg)
    (val opt : CStr) (c : Bool) (h : same_names p q) (h0 : q.args[idx]? = some a0) :
    (cl_parse_value F (set_arg q idx (marked a0)) idx (marked a0) val opt c).All
      (same_names p) := by
  have hlt : idx < q.args.length := (List.getElem?_eq_some.1 h0).1
  have h1 : same_names p (set_arg q idx (marked a0)) := same_names_set_arg idx a0 _ h h0 rfl
  have hget : (set_arg q idx (marked a0)).args[idx]? = some (marked a0) := by
    simp [set_arg, hlt]
  unfold cl_parse_value
  cases hs : cl_store F (marked a0) val opt with
  | error msg => exact h1
  | ok a1 => exact same_names_set_arg idx (marked a0) a1 h1 hget (cl_store_names F _ _ _ _ hs)

theorem cl_parse_long_names (F : FloatParser) {p q : Clargs} (tok body : CStr)
    (nxt : Option CStr) (h : same_names p q) :
    (cl_parse_long F q tok body nxt).All (same_names p) := by
  unfold cl_parse_long
  simp only []
  split
  · trivial
  · split
    · trivial
    · split
      · exact h
      · split
        · trivial
        · rename_i a0 hget
          have h1 := same_names_set_arg _ a0 (marked a0) h hget rfl
          split
          · exact h1
          · split
            · exact cl_parse_value_names F _ a0 _ _ _ h hget
            · exact h1
            · exact cl_parse_value_names F _ a0 _ _ _ h hget

theorem cl_parse_cluster_names (F : FloatParser) (nxt : Option CStr) (p : Clargs) :
    ∀ (cs : List Char) (q : Clargs), same_names p q →
      (cl_parse_cluster F nxt q cs).All (same_names p) := by
  intro cs
  induction cs with
  | nil => intro q h; exact h
  | cons ch more ih =>
    intro q h
    rw [cl_parse_cluster]
    split
    · trivial
    · split
      · exact h
      · split
        · trivial
        · rename_i a0 hget
          have h1 := same_names_set_arg _ a0 (marked a0) h hget rfl
          simp only []
          split
          · exact ih _ h1
          · split
            · exact cl_parse_value_names F _ a0 _ _ _ h hget
            · split
              · exact h1
              · exact cl_parse_value_names F _ a0 _ _ _ h hget

theorem cl_assign_pos_names (tok : CStr) :
    ∀ (l l1 : List Clarg), cl_assign_pos tok l = some l1 → l1.map names = l.map names := by
  intro l
  induction l with
  | nil => intro l1 h; simp [cl_assign_pos] at h
  | cons a rest ih =>
    intro l1 h
    rw [cl_assign_pos] at h
    split at h
    · injection h with h
      subst h
      simp [names]
    · cases hr : cl_assign_pos tok rest with
      | none => rw [hr] at h; simp at h
      | some r =>
        rw [hr] at h
        simp only [Option.map_some'] at h
        injection h with h
        subst h
        simp [ih r hr]

theorem cl_parse_tok_names (F : FloatParser) {p q : Clargs} (tok : CStr) (nxt : Option CStr)
    (h : same_names p q) : (cl_parse_tok F q tok nxt).All (same_names p) := by
  have hpos : (cl_parse_pos q tok).All (same_names p) := by
    unfold cl_parse_pos
    cases hr : cl_assign_pos tok q.args with
    | none => exact h
    | some l1 => exact (cl_assign_pos_names tok _ _ hr).trans h
  unfold cl_parse_tok
  split
  · split
    · exact h
    · trivial
  · split
    · split
      · exact cl_parse_long_names F _ _ _ h
      · split
        · exact cl_parse_cluster_names F _ p _ q h
        · exact hpos
    · exact hpos

theorem cl_parse_scan_names (F : FloatParser) (p : Clargs) :
    ∀ (n : Nat) (rest : List CStr) (q : Clargs), rest.length ≤ n → same_names p q →
      (cl_parse_scan F q rest).All (same_names p) := by
  intro n
  induction n with
  | zero =>
    intro rest q hn h
    have : rest = [] := List.length_eq_zero.1 (by omega)
    subst this
    exact h
  | succ n ih =>
    intro rest q hn h
    cases rest with
    | nil => exact h
    | cons tok rest =>
      have hn1 : rest.length ≤ n := by simpa using hn
      have hstep := cl_parse_tok_names F tok rest.head? h
      rw [cl_parse_scan]
      cases hr : cl_parse_tok F q tok rest.head? with
      | stop r => rw [hr] at hstep; exact hstep
      | next q1 consumed =>
        rw [hr] at hstep
        cases consumed with
        | false => exact ih rest q1 hn1 hstep
        | true =>
          cases rest with
          | nil => exact hstep
          | cons _ rest1 => exact ih rest1 q1 (by simp at hn1; omega) hstep

theorem sweep_seed_names (a : Clarg) : names (sweep_seed a) = names a := by
  unfold sweep_seed; split <;> rfl

theorem cl_sweep_names : ∀ (l : List Clarg), (cl_sweep l).1.map names = l.map names := by
  intro l
  induction l with
  | nil => rfl
  | cons b rest ih =>
    rw [cl_sweep]
    simp only []
    split
    · simp [sweep_seed_names]
    · simp [sweep_seed_names, ih]

theorem cl_parse_names (F : FloatParser) (p : Clargs) (argv : List CStr) :
    (cl_parse F p argv).All (same_names p) := by
  have hprog : same_names p (cl_parse_prog p argv) := by
    cases argv <;> rfl
  have hscan := cl_parse_scan_names F p _ (argv.drop 1) _ (Nat.le_refl _) hprog
  unfold cl_parse
  cases hs : cl_parse_scan F (cl_parse_prog p argv) (argv.drop 1) with
  | stopped r => rw [hs] at hscan; exact hscan
  | finished p1 =>
    rw [hs] at hscan
    have h1 : same_names p p1 := hscan
    obtain ⟨rc, msg, hr⟩ := cl_parse_sweep_returned p1
    show (cl_parse_sweep p1).All (same_names p)
    rw [hr]
    exact (cl_sweep_names p1.args).trans h1

/-! ## C21: the two lookups agree -/

theorem lookups_agree_from (s : CStr) (hs : NUL ∉ s) :
    ∀ (l : List Clarg) (k : Nat),
      (∀ a ∈ l, a.kind = ARG_POSITIONAL → a.long_name ≠ none ∧ a.meta = a.long_name) →
      (cl_find_from s l = none ∧ cl_find_idx_from s l k = .ok (-1)) ∨
      ∃ (j : Nat) (a : Clarg), l[j]? = some a ∧ cl_find_from s l = some a ∧
        cl_find_idx_from s l k = .ok ((k + j : Nat) : Int) := by
  intro l
  induction l with
  | nil => intro k _; exact Or.inl ⟨rfl, rfl⟩
  | cons a rest ih =>
    intro k hwf
    have hrest := ih (k + 1) (fun b hb => hwf b (List.mem_cons_of_mem _ hb))
    have hgo : (cl_find_from s rest = none ∧ cl_find_idx_from s rest (k + 1) = .ok (-1)) ∨
        ∃ (j : Nat) (b : Clarg), (a :: rest)[j]? = some b ∧ cl_find_from s rest = some b ∧
          cl_find_idx_from s rest (k + 1) = .ok ((k + j : Nat) : Int) := by
      rcases hrest with h | ⟨j, b, hj, hf, hi⟩
      · exact Or.inl h
      · refine Or.inr ⟨j + 1, b, by simpa using hj, hf, ?_⟩
        rw [hi]
        congr 2
        omega
    unfold cl_find_from cl_find_idx_from
    by_cases h1 : a.long_name = some s
    · rw [if_pos h1, if_pos h1]
      exact Or.inr ⟨0, a, by simp, rfl, rfl⟩
    · rw [if_neg h1, if_neg h1]
      by_cases h2 : s.length = 1 ∧ some a.short_name = s.head?
      · have hnz : a.short_name ≠ NUL := by
          intro hz
          obtain ⟨hlen, hhead⟩ := h2
          cases s with
          | nil => simp at hlen
          | cons c t =>
            have : a.short_name = c := by simpa using hhead
            exact hs (by rw [← this, hz]; exact List.mem_cons_self _ _)
        rw [if_pos h2, if_pos ⟨hnz, h2⟩]
        exact Or.inr ⟨0, a, by simp, rfl, rfl⟩
      · rw [if_neg h2, if_neg (show ¬ (a.short_name ≠ NUL ∧ s.length = 1 ∧
          some a.short_name = s.head?) from fun h => h2 h.2)]
        by_cases h3 : a.kind = ARG_POSITIONAL
        · obtain ⟨hne, hmeta⟩ := hwf a (List.mem_cons_self _ _) h3
          have hm : ¬ (a.kind = ARG_POSITIONAL ∧ a.meta = some s) := by
            intro h
            exact h1 (hmeta ▸ h.2)
          rw [if_neg hm, if_pos h3]
          cases hl : a.long_name with
          | none => exact absurd hl hne
          | some l0 =>
            have : l0 ≠ s := fun h => h1 (by rw [hl, h])
            simp only [this, if_false]
            rcases hgo with h | ⟨j, b, hj, hf, hi⟩
            · exact Or.inl h
            · exact Or.inr ⟨j, b, hj, hf, hi⟩
        · rw [if_neg (show ¬ (a.kind = ARG_POSITIONAL ∧ a.meta = some s) from fun h => h3 h.1),
            if_neg h3]
          rcases hgo with h | ⟨j, b, hj, hf, hi⟩
          · exact Or.inl h
          · exact Or.inr ⟨j, b, hj, hf, hi⟩

theorem lookups_agree_of_named (q : Clargs) (s : CStr) (hs : NUL ∉ s)
    (hq : named_positionals q) : lookups_agree q s := by
  rcases lookups_agree_from s hs q.args 0 hq with ⟨hf, hi⟩ | ⟨j, a, hj, hf, hi⟩
  · exact ⟨-1, hi, ⟨fun _ => hf, fun _ => rfl⟩, fun h => absurd rfl h⟩
  · refine ⟨((0 + j : Nat) : Int), hi, ⟨fun h => ?_, fun h => ?_⟩, fun _ => ?_⟩
    · omega
    · have : cl_find_from s q.args = none := h
      rw [hf] at this
      exact absurd this (by simp)
    · exact ⟨j, a, by simp, hj, hf⟩

theorem named_positionals_of_names {p q : Clargs} (h : same_names p q)
    (hp : named_positionals p) : named_positionals q := by
  intro b hb hk
  obtain ⟨i, hi⟩ := List.getElem?_of_mem hb
  have hmap : (q.args.map names)[i]? = some (names b) := by
    rw [List.getElem?_map, hi]; rfl
  rw [h, List.getElem?_map] at hmap
  cases ha : p.args[i]? with
  | none => rw [ha] at hmap; simp at hmap
  | some a =>
    rw [ha] at hmap
    have hn : names a = names b := by simpa using hmap
    have h1 : a.long_name = b.long_name := congrArg (fun x => x.1) hn
    have h3 : a.kind = b.kind := congrArg (fun x => x.2.2.1) hn
    have h4 : a.meta = b.meta := congrArg (fun x => x.2.2.2) hn
    have := hp a (List.getElem?_mem ha) (h3.trans hk)
    rw [h1, h4] at this
    exact this

theorem same_ident_of_names {p q : Clargs} (h : same_names p q) : same_ident p q := by
  have := congrArg (List.map (fun x : Option CStr × Char × ArgKind × Option CStr =>
    (x.1, x.2.1, x.2.2.1))) h
  simpa [List.map_map, Function.comp, names, ident, same_ident] using this

theorem build_named_positionals (prog desc : Option CStr) (calls : List AddCall)
    (hpos : ∀ c ∈ calls, c.pos_named) : named_positionals (build prog desc calls) := by
  apply build_forall
  intro c hc p a ha
  obtain ⟨a', ha', hfresh, hname⟩ := run_args c p
  have : a = a' := by
    have := ha.symm.trans ha'
    simpa using this
  subst this
  intro hk
  exact ⟨hname (hpos c hc) hk, hfresh.pos_meta hk⟩

/-- C21. The parser's lookup and the accessors' lookup agree: on a registry
built by `cl_create` and the `cl_add_*` functions with non-`NULL` positional
names, and for a non-`NULL` name `s` (a C string, so without a NUL
character), `cl_find_idx` returns -1 exactly when `cl_find` returns `NULL`,
and otherwise `cl_find` returns the spec in the slot `cl_find_idx` returns.
The same holds in the registry any `cl_parse` leaves, where `cl_find_idx`
still returns the slot it returned during the parse: the spec a name writes to
is the spec the getters read. -/
theorem parser_accessor_lookup_agree (F : FloatParser) (prog desc : Option CStr)
    (calls : List AddCall) (hpos : ∀ c ∈ calls, c.pos_named) (s : CStr) (hs : NUL ∉ s) :
    lookups_agree (build prog desc calls) s ∧
    ∀ argv, (cl_parse F (build prog desc calls) argv).All (fun q =>
      lookups_agree q s ∧
      cl_find_idx q (some s) = cl_find_idx (build prog desc calls) (some s)) := by
  have hwf := build_named_positionals prog desc calls hpos
  refine ⟨lookups_agree_of_named _ s hs hwf, fun argv => ?_⟩
  exact parseResult_all_imp
    (fun q hq => ⟨lookups_agree_of_named q s hs (named_positionals_of_names hq hwf),
      cl_find_idx_congr _ q _ (same_ident_of_names hq)⟩)
    (cl_parse_names F (build prog desc calls) argv)

/-- C21, instance: in the registry of a flag `-v`, a positional `src`, an Int
option `-n` and a positional `dst`, the name `src` resolves to slot 1 for the
parser and to the spec of slot 1 for the accessors, before and after parsing
`prog -v foo.txt -n 5 bar.txt`, and `cl_get_string` reads `foo.txt`. -/
theorem parser_accessor_lookup_agree_witness :
    (∀ c ∈ calls_mixed, c.pos_named) ∧ NUL ∉ "src".toList ∧
    cl_find_idx (build none none calls_mixed) (some "src".toList) = .ok 1 ∧
    cl_find (build none none calls_mixed) (some "src".toList) =
      (build none none calls_mixed).args[1]? ∧
    (∃ q, cl_parse F0 (build none none calls_mixed) argv_mixed = .returned 0 q [] ∧
      cl_find_idx q (some "src".toList) = .ok 1 ∧
      cl_find q (some "src".toList) = q.args[1]? ∧
      cl_get_string q (some "src".toList) = some "foo.txt".toList) ∧
    (lookups_agree (build none none calls_mixed) "src".toList ∧
    ∀ argv, (cl_parse F0 (build none none calls_mixed) argv).All (fun q =>
      lookups_agree q "src".toList ∧
      cl_find_idx q (some "src".toList) =
        cl_find_idx (build none none calls_mixed) (some "src".toList))) :=
  have h : ∀ c ∈ calls_mixed, c.pos_named := by
    intro c hc
    simp only [calls_mixed, List.mem_cons, List.mem_singleton, List.not_mem_nil,
      or_false] at hc
    rcases hc with rfl | rfl | rfl | rfl <;> exact True.intro
  ⟨h, by decide, by decide, by decide, ⟨_, rfl, by decide, by decide, by decide⟩,
    parser_accessor_lookup_agree F0 none none calls_mixed h "src".toList (by decide)⟩

/-! ## C22: a positional named through option syntax -/

theorem cl_store_positional (F : FloatParser) (a : Clarg) (v opt : CStr)
    (h : a.kind = ARG_POSITIONAL) : cl_store F a v opt = .ok a := by
  unfold cl_store
  rw [h]

/-- C22. Present positionals carry a value, evaluated where the code breaks
it: with one required positional `src`, both `[prog, --src, x]` and
`[prog, --src=x]` make `cl_parse` return 0 with `src` marked present and its
`val_str` still `NULL` (the `switch` has no case for a Positional, so `x` is
dropped), and `cl_get_string` on `src` returns `NULL`; whereas `[prog, x]`,
through the positional branch, stores `x`. -/
theorem positional_option_syntax_drops_value :
    reg_src.args = [spec_src] ∧ spec_src.kind = ARG_POSITIONAL ∧ spec_src.required = 1 ∧
    cl_parse F0 reg_src ["prog".toList, "--src".toList, "x".toList] =
      .returned 0 (set_arg { reg_src with prog := "prog".toList } 0 (marked spec_src)) [] ∧
    cl_parse F0 reg_src ["prog".toList, "--src=x".toList] =
      .returned 0 (set_arg { reg_src with prog := "prog".toList } 0 (marked spec_src)) [] ∧
    (marked spec_src).present = 1 ∧ (marked spec_src).val_str = none ∧
    cl_get_string (set_arg { reg_src with prog := "prog".toList } 0 (marked spec_src))
      (some "src".toList) = none ∧
    cl_parse F0 reg_src ["prog".toList, "x".toList] =
      .returned 0 (set_arg { reg_src with prog := "prog".toList } 0
        { spec_src with present := 1, val_str := some "x".toList }) [] :=
  ⟨rfl, rfl, rfl, by decide, by decide, rfl, rfl, by decide, by decide⟩

/-! ## C23: the state after a coercion failure -/

/-- C23. State after a coercion failure: on a registry built by `cl_create`
and `cl_add_*`, let the loop get through the tokens `pre` and reach the state
`q`, in which slot `idx` holds a Char or integer spec `a` not yet present, and
let the next tokens be an occurrence of that option with a value the `switch`
does not accept.  Then `cl_parse` returns -1 with the registry `q` changed in
slot `idx` only, where the spec is `a` marked present: its value field still
holds its default, every other spec is as the earlier tokens left it, and the
tokens `rest` after the occurrence have no effect. -/
theorem coercion_failure_state (F : FloatParser) (prog desc : Option CStr)
    (calls : List AddCall) (a0 : CStr) (pre seg rest : List CStr) (q : Clargs) (idx : Nat)
    (a : Clarg) (v opt : CStr)
    (hreach : cl_parse_scan F { build prog desc calls with prog := a0 } pre = .finished q)
    (ha : q.args[idx]? = some a) (hnot : a.present = 0)
    (hk : a.kind = ARG_CHAR ∨ is_integer_kind a.kind)
    (ho : Occurrence (build prog desc calls) idx v seg opt)
    (hbad : ∀ a1, cl_store F (marked a) v opt ≠ .ok a1) :
    cl_parse F (build prog desc calls) (a0 :: (pre ++ (seg ++ rest))) =
      .returned (-1) (set_arg q idx (marked a)) (diag (bad_word a.kind) opt) ∧
    holds_default (marked a) ∧ (marked a).present = 1 ∧
    (set_arg q idx (marked a)).args = q.args.set idx (marked a) ∧
    ∀ j, j ≠ idx → (set_arg q idx (marked a)).args[j]? = q.args[j]? := by
  have hf : a.kind ≠ ARG_FLAG := by
    rcases hk with hk | hk | hk | hk | hk | hk | hk | hk | hk | hk | hk <;> rw [hk] <;> decide
  have hid : same_ident (build prog desc calls) q :=
    cl_parse_scan_finished_ident F { build prog desc calls with prog := a0 } q pre hreach
  have hg := cl_parse_scan_grows F { build prog desc calls with prog := a0 } _ pre _
    (Nat.le_refl _) (grows_refl _)
  rw [hreach] at hg
  have hmem : a ∈ (build prog desc calls).args := by
    rcases hg a (List.getElem?_mem ha) with h1 | h1
    · exact h1
    · omega
  have hd : holds_default a := (build_fresh prog desc calls a hmem).dflt
  refine ⟨?_, hd, rfl, rfl, ?_⟩
  · rw [cl_parse_cons,
      cl_parse_scan_append F (seg ++ rest) pre.length pre _ q (Nat.le_refl _) hreach,
      occurrence_scan F q idx a v seg opt rest (occurrence_congr hid ho) ha hf]
    cases hs : cl_store F (marked a) v opt with
    | ok a1 => exact absurd hs (hbad a1)
    | error msg =>
      rw [cl_store_error F (marked a) v opt msg hs]
      rfl
  · intro j hj
    simp [set_arg, List.getElem?_set, Ne.symm hj]
/-- C23, instance: in the registry of `--name`, `--num` (default 42) and `-v`,
the vector `[prog, --name, bob, -n, 12abc, -v]` returns -1 with
`Bad int for -n`: `--num` is present with `val_int` still 42, `--name` keeps
`bob`, and `-v` is not marked. -/
theorem coercion_failure_state_witness :
    cl_parse_scan F0 { reg_name_num with prog := "prog".toList }
        ["--name".toList, "bob".toList] =
      .finished (set_arg { reg_name_num with prog := "prog".toList } 0
        { marked spec_name with val_str := some "bob".toList }) ∧
    (set_arg { reg_name_num with prog := "prog".toList } 0
      { marked spec_name with val_str := some "bob".toList }).args[1]? = some spec_num ∧
    spec_num.present = 0 ∧ (spec_num.kind = ARG_CHAR ∨ is_integer_kind spec_num.kind) ∧
    Occurrence reg_name_num 1 "12abc".toList [ ['-', 'n'], "12abc".toList ] ['-', 'n'] ∧
    (∀ a1, cl_store F0 (marked spec_num) "12abc".toList ['-', 'n'] ≠ .ok a1) ∧
    (marked spec_num).val_int = 42 ∧
    (set_arg (set_arg { reg_name_num with prog := "prog".toList } 0
      { marked spec_name with val_str := some "bob".toList }) 1 (marked spec_num)).args =
      [{ marked spec_name with val_str := some "bob".toList }, marked spec_num, spec_verbose] ∧
    diag (bad_word spec_num.kind) ['-', 'n'] = "Bad int for -n\n".toList ∧
    (cl_parse F0 reg_name_num
        ("prog".toList :: (["--name".toList, "bob".toList] ++
          ([ ['-', 'n'], "12abc".toList ] ++ ["-v".toList]))) =
      .returned (-1)
        (set_arg (set_arg { reg_name_num with prog := "prog".toList } 0
          { marked spec_name with val_str := some "bob".toList }) 1 (marked spec_num))
        (diag (bad_word spec_num.kind) ['-', 'n']) ∧
    holds_default (marked spec_num) ∧ (marked spec_num).present = 1 ∧
    (set_arg (set_arg { reg_name_num with prog := "prog".toList } 0
      { marked spec_name with val_str := some "bob".toList }) 1 (marked spec_num)).args =
      (set_arg { reg_name_num with prog := "prog".toList } 0
        { marked spec_name with val_str := some "bob".toList }).args.set 1 (marked spec_num) ∧
    ∀ j, j ≠ 1 →
      (set_arg (set_arg { reg_name_num with prog := "prog".toList } 0
        { marked spec_name with val_str := some "bob".toList }) 1 (marked spec_num)).args[j]? =
      (set_arg { reg_name_num with prog := "prog".toList } 0
        { marked spec_name with val_str := some "bob".toList }).args[j]?) :=
  ⟨by decide, by decide, rfl, Or.inr (Or.inr (Or.inl rfl)),
    .short_sep 'n' (by decide) (by decide) (by decide),
    fun _ h => Except.noConfusion h, rfl, by decide, by decide,
    coercion_failure_state F0 none none _ "prog".toList ["--name".toList, "bob".toList]
      [ ['-', 'n'], "12abc".toList ] ["-v".toList] _ 1 spec_num "12abc".toList ['-', 'n']
      (by decide) (by decide) rfl (Or.inr (Or.inr (Or.inl rfl)))
      (.short_sep 'n' (by decide) (by decide) (by decide))
      (fun _ h => Except.noConfusion h)⟩

/-! ## C24: the tokens `--` and `-` -/

theorem cl_find_idx_from_empty :
    ∀ (l : List Clarg) (k : Nat), (∀ a ∈ l, a.long_name ≠ some []) →
      (∀ a ∈ l, a.kind = ARG_POSITIONAL → a.long_name ≠ none) →
      cl_find_idx_from [] l k = .ok (-1) := by
  intro l
  induction l with
  | nil => intro k _ _; rfl
  | cons a rest ih =>
    intro k h1 h2
    have ha1 := h1 a (List.mem_cons_self _ _)
    have hrest := ih (k + 1) (fun b hb => h1 b (List.mem_cons_of_mem _ hb))
      (fun b hb => h2 b (List.mem_cons_of_mem _ hb))
    unfold cl_find_idx_from
    rw [if_neg ha1, if_neg (show ¬ (a.short_name ≠ NUL ∧ ([] : CStr).length = 1 ∧
      some a.short_name = ([] : CStr).head?) from fun h => absurd h.2.1 (by simp))]
    by_cases h3 : a.kind = ARG_POSITIONAL
    · rw [if_pos h3]
      cases hl : a.long_name with
      | none => exact absurd hl (h2 a (List.mem_cons_self _ _) h3)
      | some l0 =>
        have : l0 ≠ [] := fun h => ha1 (by rw [hl, h])
        simp only [this, if_false]
        exact hrest
    · rw [if_neg h3]
      exact hrest

theorem cl_assign_pos_first (tok : CStr) :
    ∀ (l : List Clarg),
      (cl_assign_pos tok l = none ∧ ∀ b ∈ l, ¬ takes_plain b) ∨
      ∃ l0 a l2, l = l0 ++ a :: l2 ∧ (∀ b ∈ l0, ¬ takes_plain b) ∧ takes_plain a ∧
        cl_assign_pos tok l = some (l0 ++ assigned tok a :: l2) := by
  intro l
  induction l with
  | nil => exact Or.inl ⟨rfl, by simp⟩
  | cons a rest ih =>
    rw [cl_assign_pos]
    by_cases h : a.kind = ARG_POSITIONAL ∧ a.present = 0
    · rw [if_pos h]
      exact Or.inr ⟨[], a, rest, rfl, by simp, h, rfl⟩
    · rw [if_neg h]
      rcases ih with ⟨hn, hall⟩ | ⟨l0, b, l2, hl, h0, hb, hs⟩
      · refine Or.inl ⟨by rw [hn]; rfl, ?_⟩
        intro c hc
        rcases List.mem_cons.1 hc with rfl | hc
        · exact h
        · exact hall c hc
      · refine Or.inr ⟨a :: l0, b, l2, by rw [hl]; rfl, ?_, hb, by rw [hs]; rfl⟩
        intro c hc
        rcases List.mem_cons.1 hc with rfl | hc
        · exact h
        · exact h0 c hc

theorem cl_parse_tok_dash (F : FloatParser) (q : Clargs) (nxt : Option CStr) :
    cl_parse_tok F q ['-'] nxt = cl_parse_pos q ['-'] := by
  unfold cl_parse_tok
  rw [if_neg (by decide)]

theorem cl_parse_tok_dash_dash (F : FloatParser) (q : Clargs) (nxt : Option CStr)
    (h : cl_find_idx q (some []) = .ok (-1)) :
    cl_parse_tok F q ['-', '-'] nxt =
      .stop (.returned (-1) q (diag "Unknown option: " ['-', '-'])) := by
  rw [cl_parse_tok_long F q [] nxt (is_help_long [] (by decide)),
    cl_parse_long_unknown F q _ [] [] nxt rfl (by decide) h]
/-- C24, on the registries whose Positionals are named.  Bare dash tokens: let
every Positional of the registry have a name and no spec have the empty string
as long name, and let the loop get
through the tokens `pre` without stopping, reaching the state `q`.  If the next
token is `--`, it is looked up as a long option with the empty name and
`cl_parse` returns -1 (`Unknown option: --`) in the state `q`, whatever tokens
follow.  If the next token is `-`, it goes to the positional branch: when no
Positional is left not present, `cl_parse` returns -1 (`Unexpected arg -`);
otherwise the first Positional not yet present is marked present with the
value `-` and the loop goes on with the tokens that follow. -/
theorem bare_dash_tokens (F : FloatParser) (p : Clargs) (prog : CStr)
    (pre post : List CStr) (q : Clargs)
    (hempty : ∀ a ∈ p.args, a.long_name ≠ some [])
    (hnamed : ∀ a ∈ p.args, a.kind = ARG_POSITIONAL → a.long_name ≠ none)
    (hreach : cl_parse_scan F { p with prog := prog } pre = .finished q) :
    cl_parse F p (prog :: (pre ++ ['-', '-'] :: post)) =
      .returned (-1) q (diag "Unknown option: " ['-', '-']) ∧
    (((∀ b ∈ q.args, ¬ takes_plain b) ∧
        cl_parse F p (prog :: (pre ++ ['-'] :: post)) =
          .returned (-1) q (diag "Unexpected arg " ['-'])) ∨
      ∃ l0 a l2, q.args = l0 ++ a :: l2 ∧ (∀ b ∈ l0, ¬ takes_plain b) ∧ takes_plain a ∧
        cl_parse_scan F { p with prog := prog } (pre ++ ['-'] :: post) =
          cl_parse_scan F { q with args := l0 ++ assigned ['-'] a :: l2 } post) := by
  have hid : same_ident p q :=
    cl_parse_scan_finished_ident F { p with prog := prog } q pre hreach
  have hno : cl_find_idx q (some []) = .ok (-1) := by
    rw [cl_find_idx_congr p q _ hid]
    exact cl_find_idx_from_empty p.args 0 hempty hnamed
  have happ : ∀ more : List CStr,
      cl_parse_scan F { p with prog := prog } (pre ++ more) = cl_parse_scan F q more :=
    fun more => cl_parse_scan_append F more pre.length pre _ q (Nat.le_refl _) hreach
  refine ⟨?_, ?_⟩
  · rw [cl_parse_cons, happ,
      (scan_cons_stop F q _ post _ (cl_parse_tok_dash_dash F q _ hno)).1]
  · have htok := cl_parse_tok_dash F q post.head?
    unfold cl_parse_pos at htok
    rcases cl_assign_pos_first ['-'] q.args with ⟨hn, hall⟩ | ⟨l0, a, l2, hl, h0, ha, hs⟩
    · rw [hn] at htok
      refine Or.inl ⟨hall, ?_⟩
      rw [cl_parse_cons, happ, (scan_cons_stop F q _ post _ htok).1]
    · rw [hs] at htok
      refine Or.inr ⟨l0, a, l2, hl, h0, ha, ?_⟩
      rw [happ, (scan_cons_next F q _ _ post htok).1]

/-- C24, instance: in the registry of a flag `-v`, positionals `src` and `dst`
and an Int option `-n`, after the token `-v`: `--` returns -1 with the token
after it unread, and `-` becomes the value of `src`. -/
theorem bare_dash_tokens_witness :
    (∀ a ∈ reg_mixed.args, a.long_name ≠ some []) ∧
    (∀ a ∈ reg_mixed.args, a.kind = ARG_POSITIONAL → a.long_name ≠ none) ∧
    cl_parse_scan F0 { reg_mixed with prog := "prog".toList } ["-v".toList] =
      .finished (mark_present { reg_mixed with prog := "prog".toList } 0) ∧
    cl_parse F0 reg_mixed ["prog".toList, "-v".toList, "--".toList, "bar".toList] =
      .returned (-1) (mark_present { reg_mixed with prog := "prog".toList } 0)
        "Unknown option: --\n".toList ∧
    (∃ q, cl_parse F0 reg_mixed ["prog".toList, "-v".toList, "-".toList, "bar".toList] =
        .returned 0 q [] ∧
      cl_get_string q (some "src".toList) = some "-".toList ∧
      cl_get_string q (some "dst".toList) = some "bar".toList) ∧
    (cl_parse F0 reg_mixed ("prog".toList :: (["-v".toList] ++ ['-', '-'] :: ["bar".toList])) =
      .returned (-1) (mark_present { reg_mixed with prog := "prog".toList } 0)
        (diag "Unknown option: " ['-', '-']) ∧
    (((∀ b ∈ (mark_present { reg_mixed with prog := "prog".toList } 0).args,
          ¬ takes_plain b) ∧
        cl_parse F0 reg_mixed ("prog".toList :: (["-v".toList] ++ ['-'] :: ["bar".toList])) =
          .returned (-1) (mark_present { reg_mixed with prog := "prog".toList } 0)
            (diag "Unexpected arg " ['-'])) ∨
      ∃ l0 a l2, (mark_present { reg_mixed with prog := "prog".toList } 0).args =
          l0 ++ a :: l2 ∧ (∀ b ∈ l0, ¬ takes_plain b) ∧ takes_plain a ∧
        cl_parse_scan F0 { reg_mixed with prog := "prog".toList }
            (["-v".toList] ++ ['-'] :: ["bar".toList]) =
          cl_parse_scan F0
            { mark_present { reg_mixed with prog := "prog".toList } 0 with
              args := l0 ++ assigned ['-'] a :: l2 } ["bar".toList])) :=
  ⟨by decide, by decide, by decide, by decide, ⟨_, rfl, by decide, by decide⟩,
    bare_dash_tokens F0 reg_mixed "prog".toList ["-v".toList] _ _ (by decide) (by decide)
      (by decide)⟩

/-- C24. Bare dash tokens, evaluated where the code breaks the claim: the only
spec of the registry is a positional registered with `name` = `NULL`, so no
spec has the empty string as long name.  On `[prog, --]` the token is
dispatched as a long option with the empty name, but the lookup reaches
`strcmp(a->long_name, name)` of line 115 with `a->long_name` = `NULL` (line
113 tests the pointer, line 115 does not): `cl_parse` does not return -1, its
behaviour is undefined. -/
theorem bare_dash_unnamed_positional :
    (∀ a ∈ reg_unnamed_pos.args, a.long_name ≠ some []) ∧
    (∃ a, reg_unnamed_pos.args = [a] ∧ a.kind = ARG_POSITIONAL ∧ a.long_name = none) ∧
    cl_find_idx reg_unnamed_pos (some []) = .undefined ∧
    cl_parse F0 reg_unnamed_pos ["prog".toList, "--".toList] = .undefined ∧
    ¬ ∃ q msg, cl_parse F0 reg_unnamed_pos ["prog".toList, "--".toList] =
      .returned (-1) q msg :=
  ⟨by decide, ⟨_, rfl, rfl, rfl⟩, by decide, by decide,
    fun ⟨_, _, h⟩ => ParseResult.noConfusion ((show cl_parse F0 reg_unnamed_pos
      ["prog".toList, "--".toList] = .undefined from by decide).symm.trans h)⟩

end ClargsLib
